import Mathlib

/-!
Peripheral image loader (drivers/soc/qcom/peripheral-loader.c).

A shallow embedding of the image-layout and boot-lifecycle engine of the
peripheral loader, followed by theorems about it.

Conventions of the embedding

* Machine integers are natural numbers or integers; every C operation that can
  wrap is followed by an explicit reduction modulo the width of its C type.
  The widths of `phys_addr_t` and of `unsigned long` / `size_t` depend on the
  kernel configuration and are given by `Arch`.
* Calls that leave the file (allocator, firmware loader, implementation hooks,
  memory mapping) are answered by an `Env` and recorded, in program order, in
  the `trace` of a `World`.  Logging (`pil_err`, `pil_info`, `WARN`) is not
  recorded.
* A function that changes the private state returns a `Run`: either it
  returned a code together with the new state, or it stopped in `BUG_ON`.
* The state of the kernel objects the file only calls (whether the work item
  `priv->proxy` is queued, the disable depth of the unvote interrupt line) is
  read off the trace.
* Pointers are natural numbers, `0` being `NULL`. Pointer arithmetic inside a
  mapped window is done in the integers, and a write through a mapping of the
  physical address `paddr` at `buf0` reaches the physical byte `paddr + k` at
  the pointer `buf0 + k`.
-/

namespace PIL

/-! ## Machine model -/

/-- The kernel configurations the file is built for: 32-bit ARM, 32-bit ARM
with a 64-bit `phys_addr_t` (LPAE), and 64-bit ARM. -/
inductive Arch where
  | arm
  | arm_lpae
  | arm64
  deriving DecidableEq

/-- Width in bits of `phys_addr_t`. -/
def Arch.physBits : Arch → Nat
  | .arm => 32
  | .arm_lpae => 64
  | .arm64 => 64

/-- Width in bits of `unsigned long`, `size_t` and of a pointer. -/
def Arch.longBits : Arch → Nat
  | .arm => 32
  | .arm_lpae => 32
  | .arm64 => 64

/-- Value of an integer expression stored in an unsigned type of `w` bits. -/
def wrap (w : Nat) (x : Int) : Nat := (x % (2 : Int) ^ w).toNat

/-- Value of an integer expression stored in an `int` (32 bits, two's
complement). -/
def to_int (x : Int) : Int :=
  if 2147483648 ≤ x % 4294967296 then x % 4294967296 - 4294967296 else x % 4294967296

def EPERM : Int := 1
def EIO : Int := 5
def ENOMEM : Int := 12
def EINVAL : Int := 22
def EADDRNOTAVAIL : Int := 99

def SZ_4K : Nat := 0x1000
def SZ_1M : Nat := 0x100000
def SZ_4M : Nat := 0x400000
def IOMAP_SIZE : Nat := SZ_1M
def PT_LOAD : Nat := 1

/-- Modelled from the spec: `ALIGN(x, a)` of linux/kernel.h, which is not among
the sources; it rounds `x` up to the next multiple of `a` ("round every end
bound up to the next 4 KiB boundary"), in the `w`-bit type of `x`. -/
def ALIGN (w : Nat) (x a : Nat) : Nat := ((x + (a - 1)) / a * a) % 2 ^ w

/-- Modelled from the spec: the "skip-entry-check flag" of the descriptor
configuration; peripheral-loader.h, which gives the bit its value, is not among
the sources. -/
def PIL_SKIP_ENTRY_CHECK : Nat := 1

/-! ## Data model -/

/-- The fields of `struct elf32_hdr` the loader reads. -/
structure elf32_hdr where
  e_ident : List Nat
  e_entry : Nat
  e_phnum : Nat

/-- The fields of `struct elf32_phdr` the loader reads; each is 32 bits wide. -/
structure elf32_phdr where
  p_type : Nat
  p_paddr : Nat
  p_filesz : Nat
  p_memsz : Nat
  p_flags : Nat
  p_align : Nat
  deriving DecidableEq

/-- Every field of the entry fits its 32-bit C type. -/
def elf32_phdr.fits (p : elf32_phdr) : Prop :=
  p.p_type < 2 ^ 32 ∧ p.p_paddr < 2 ^ 32 ∧ p.p_filesz < 2 ^ 32 ∧ p.p_memsz < 2 ^ 32 ∧
    p.p_flags < 2 ^ 32 ∧ p.p_align < 2 ^ 32

instance (p : elf32_phdr) : Decidable p.fits := by
  unfold elf32_phdr.fits; infer_instance

/-- The C `struct pil_mdt`: the header followed by the program-header array, read
as `phdr i`. -/
structure pil_mdt where
  hdr : elf32_hdr
  phdr : Nat → elf32_phdr

/-- The C `struct firmware` holding the header blob: its size and its content seen
through the `pil_mdt` cast. -/
structure firmware where
  size : Nat
  data : pil_mdt

/-- The C `struct pil_seg`. -/
structure pil_seg where
  paddr : Nat
  sz : Nat
  filesz : Nat
  num : Nat
  relocated : Bool
  deriving DecidableEq

/-- The C `struct pil_priv` (the fields that carry loader state). `info` tells
whether the IMEM record pointer is set. -/
structure pil_priv where
  segs : List pil_seg
  entry_addr : Nat
  base_addr : Nat
  region_start : Nat
  region_end : Nat
  region : Nat
  info : Bool
  unvoted_flag : Int
  region_size : Nat
  deriving DecidableEq

/-- The C `struct pil_reset_ops`: for each optional hook whether it is set and, when
it returns a value, what a call returns. -/
structure pil_reset_ops where
  init_image : Option Int
  mem_setup : Option (Nat → Nat → Int)
  verify_blob : Option (Nat → Nat → Int)
  proxy_vote : Option Int
  auth_and_reset : Int
  proxy_unvote : Bool
  deinit_image : Bool
  shutdown : Bool

/-- The C `struct pil_desc` (the fields the loader reads). -/
structure pil_desc where
  name : String
  flags : Nat
  proxy_unvote_irq : Nat
  proxy_timeout : Nat
  ops : pil_reset_ops

/-- Physical memory, byte by byte. -/
abbrev Mem : Type := Nat → Nat

/-- Calls that leave the file, with their arguments. `enter_setup_region`
marks the entry into `pil_setup_region`; `dma_alloc_attrs` also records the
returned pointer and bus address. -/
inductive Event where
  | enter_setup_region
  | info_write (start size : Nat)
  | down_read
  | up_read
  | request_firmware
  | release_firmware
  | init_dma_attrs
  | dma_alloc_attrs (size region handle : Nat)
  | dma_free_attrs (size region handle : Nat)
  | wake_lock
  | wake_unlock
  | proxy_vote
  | enable_irq (irq : Nat)
  | disable_irq (irq : Nat)
  | notify_proxy_vote
  | init_image
  | mem_setup (base size : Nat)
  | deinit_image
  | auth_and_reset
  | request_firmware_direct (num paddr filesz : Nat)
  | map_fw_mem (paddr : Nat) (size : Int)
  | memset_io (buf : Int) (n : Nat)
  | memset (buf : Int) (n : Nat)
  | unmap_fw_mem (buf : Int)
  | verify_blob (paddr sz : Nat)
  | try_module_get
  | schedule_delayed_work (timeout : Nat)
  | proxy_unvote_work
  | proxy_unvote
  | notify_proxy_unvote
  | module_put
  | shutdown
  | flush_delayed_work
  | do_elf_ramdump (segs : List (Nat × Nat))
  deriving DecidableEq

/-- What lies outside the file: the recorded calls and physical memory. -/
structure World where
  trace : List Event
  mem : Mem

/-- Record one call. -/
def World.log (w : World) (e : Event) : World := { w with trace := w.trace ++ [e] }

/-- The events that are calls of the allocator. -/
def Event.is_alloc : Event → Bool
  | .dma_alloc_attrs _ _ _ => true
  | _ => false

/-- The events that free a region. -/
def Event.is_free : Event → Bool
  | .dma_free_attrs _ _ _ => true
  | _ => false

/-- The events about what a boot acquires: the header blob (fetched,
released) and the region (planned, allocated, freed). -/
def Event.is_resource : Event → Bool
  | .enter_setup_region => true
  | .dma_alloc_attrs _ _ _ => true
  | .dma_free_attrs _ _ _ => true
  | .request_firmware => true
  | .release_firmware => true
  | _ => false

/-- The event that releases the header blob. -/
def Event.is_release_fw : Event → Bool
  | .release_firmware => true
  | _ => false

/-- The events of region planning: entering `pil_setup_region`, calling the
allocator. -/
def Event.is_plan : Event → Bool
  | .enter_setup_region => true
  | .dma_alloc_attrs _ _ _ => true
  | _ => false

/-- The events of the segment loader: fetching a blob, mapping, zeroing and
unmapping destination memory, verifying a segment. -/
def Event.is_load : Event → Bool
  | .request_firmware_direct _ _ _ => true
  | .map_fw_mem _ _ => true
  | .memset_io _ _ => true
  | .memset _ _ => true
  | .unmap_fw_mem _ => true
  | .verify_blob _ _ => true
  | _ => false

/-- The events that are calls of the hooks `proxy_vote`, `init_image`,
`mem_setup`, `auth_and_reset`. -/
def Event.is_hook : Event → Bool
  | .proxy_vote => true
  | .init_image => true
  | .mem_setup _ _ => true
  | .auth_and_reset => true
  | _ => false

/-- The call of the `auth_and_reset` hook. -/
def Event.is_auth : Event → Bool
  | .auth_and_reset => true
  | _ => false

/-- The calls of `schedule_delayed_work` on the work item `priv->proxy`. -/
def Event.is_schedule : Event → Bool
  | .schedule_delayed_work _ => true
  | _ => false

/-- The calls of `try_module_get`. -/
def Event.is_module_get : Event → Bool
  | .try_module_get => true
  | _ => false

/-- The calls of `module_put`. -/
def Event.is_module_put : Event → Bool
  | .module_put => true
  | _ => false

/-- The calls of the `proxy_vote` hook. -/
def Event.is_vote : Event → Bool
  | .proxy_vote => true
  | _ => false

/-- The calls of the `proxy_unvote` hook, made by `__pil_proxy_unvote` only. -/
def Event.is_unvote : Event → Bool
  | .proxy_unvote => true
  | _ => false

/-- The calls of the allocator that returned a region. -/
def Event.is_alloc_ok : Event → Bool
  | .dma_alloc_attrs _ r _ => r != 0
  | _ => false

/-- The number of regions the calls of a trace have allocated and not freed. -/
def live_regions (t : List Event) : Int :=
  ((t.filter Event.is_alloc_ok).length : Int) - (t.filter Event.is_free).length

/-- The calls of `enable_irq` and `disable_irq` on the unvote interrupt line. -/
def Event.is_irq : Event → Bool
  | .enable_irq _ => true
  | .disable_irq _ => true
  | _ => false

/-- The calls of `desc->map_fw_mem` made by `pil_load_seg`. -/
def Event.is_map : Event → Bool
  | .map_fw_mem _ _ => true
  | _ => false

/-- The calls of the `deinit_image` hook. -/
def Event.is_deinit : Event → Bool
  | .deinit_image => true
  | _ => false

/-- The calls that mark the stages of `pil_boot`: the hooks `proxy_vote`,
`init_image`, `mem_setup`, `auth_and_reset` and `deinit_image`, and the calls
of the segment loader. -/
def Event.is_stage (e : Event) : Bool := e.is_hook || e.is_load || e.is_deinit

/-- The calls of an implementation hook: the members of `desc->ops` the file
calls (`proxy_vote`, `proxy_unvote`, `init_image`, `mem_setup`, `verify_blob`,
`auth_and_reset`, `deinit_image`, `shutdown`) and the descriptor's
`map_fw_mem` and `unmap_fw_mem`. -/
def Event.is_ops : Event → Bool
  | .proxy_vote => true
  | .proxy_unvote => true
  | .init_image => true
  | .mem_setup _ _ => true
  | .verify_blob _ _ => true
  | .auth_and_reset => true
  | .deinit_image => true
  | .shutdown => true
  | .map_fw_mem _ _ => true
  | .unmap_fw_mem _ => true
  | _ => false

/-- The calls of `flush_delayed_work` on the work item `priv->proxy`. -/
def Event.is_flush : Event → Bool
  | .flush_delayed_work => true
  | _ => false

/-- The calls `pil_boot` can make before its loop over the segments. -/
def Event.is_setup : Event → Bool
  | .info_write _ _ => true
  | .down_read => true
  | .request_firmware => true
  | .init_dma_attrs => true
  | .enter_setup_region => true
  | .dma_alloc_attrs _ _ _ => true
  | .wake_lock => true
  | .proxy_vote => true
  | .wake_unlock => true
  | .enable_irq _ => true
  | .notify_proxy_vote => true
  | .init_image => true
  | .mem_setup _ _ => true
  | _ => false

/-- The trace `t'` continues `t` with events that all satisfy `q`. -/
def extends_by (q : Event → Bool) (t t' : List Event) : Prop :=
  ∃ evs, t' = t ++ evs ∧ ∀ e ∈ evs, q e = true

/-- Answers of everything the loader calls but does not define. -/
structure Env where
  /-- The module parameter `proxy_timeout_ms`. -/
  proxy_timeout_ms : Int
  /-- Call of `request_firmware` on the header blob: the returned code and the blob
  it hands out when the code is 0. -/
  request_firmware : Int × firmware
  memblock_overlaps_memory : Nat → Nat → Bool
  /-- Whether `kmalloc` of the segment numbered `num` succeeds. -/
  kmalloc : Nat → Bool
  /-- Call `dma_alloc_attrs size handle_before`: the returned pointer and the value
  left in the bus-address argument. -/
  dma_alloc_attrs : Nat → Nat → Nat × Nat
  /-- Whether `CONFIG_SEC_DEBUG` is off or `sec_debug_is_enabled()` holds. -/
  sec_debug : Bool
  /-- Call `request_firmware_direct num paddr filesz`: the returned value. -/
  request_firmware_direct : Nat → Nat → Nat → Int
  /-- What `request_firmware_direct num paddr filesz` leaves in memory. -/
  request_firmware_direct_mem : Nat → Nat → Nat → Mem → Mem
  /-- Call `desc->map_fw_mem paddr size`: the returned pointer. -/
  map_fw_mem : Nat → Int → Nat
  try_module_get : Bool
  /-- Whether `kmalloc_array` of `count` elements succeeds. -/
  kmalloc_array : Nat → Bool
  /-- Call `do_elf_ramdump` on the array of (address, size) pairs: the returned
  code. -/
  do_elf_ramdump : List (Nat × Nat) → Int

/-- Outcome of a call that works on the private state. -/
inductive Run where
  | done (ret : Int) (priv : pil_priv) (w : World)
  | bug (w : World)

/-- The returned code, when the call returned. -/
def Run.ret : Run → Option Int
  | .done r _ _ => some r
  | .bug _ => none

/-- The private state on return. -/
def Run.priv : Run → Option pil_priv
  | .done _ p _ => some p
  | .bug _ => none

/-- The world the call leaves behind. -/
def Run.world : Run → World
  | .done _ _ w => w
  | .bug w => w

/-! ## Segment model, relocator -/

/-- The function `segment_is_relocatable`. -/
def segment_is_relocatable (p : elf32_phdr) : Bool :=
  p.p_flags &&& (1 <<< 27) != 0

/-- The function `pil_reloc`, in `phys_addr_t` arithmetic. -/
def pil_reloc (A : Arch) (priv : pil_priv) (addr : Nat) : Nat :=
  wrap A.physBits ((addr : Int) - priv.base_addr + priv.region_start)

/-- The function `pil_init_seg`. -/
def pil_init_seg (A : Arch) (env : Env) (priv : pil_priv) (phdr : elf32_phdr) (num : Nat) :
    Except Int pil_seg :=
  let reloc := segment_is_relocatable phdr
  if !reloc && env.memblock_overlaps_memory phdr.p_paddr phdr.p_memsz then
    .error (-EPERM)
  else if phdr.p_filesz > phdr.p_memsz then
    .error (-EINVAL)
  else if !env.kmalloc num then
    .error (-ENOMEM)
  else
    .ok { num := num
          paddr := if reloc then pil_reloc A priv phdr.p_paddr else phdr.p_paddr
          filesz := phdr.p_filesz
          sz := phdr.p_memsz
          relocated := reloc }

/-- The macro `segment_is_hash`. -/
def segment_is_hash (flag : Nat) : Bool :=
  flag &&& (0x7 <<< 24) == 0x2 <<< 24

/-- The function `segment_is_loadable`. -/
def segment_is_loadable (p : elf32_phdr) : Bool :=
  p.p_type == PT_LOAD && !segment_is_hash p.p_flags && p.p_memsz != 0

/-- The test of the loop of `pil_init_entry_addr`:
`entry >= seg->paddr && entry < seg->paddr + seg->sz`, the sum taken in the
wider of `phys_addr_t` and `unsigned long`. -/
def seg_has_entry (A : Arch) (seg : pil_seg) (entry : Nat) : Bool :=
  decide (entry ≥ seg.paddr) &&
    decide (entry < (seg.paddr + seg.sz) % 2 ^ max A.physBits A.longBits)

/-- The `list_for_each_entry` loop of `pil_init_entry_addr`: `true` when it
returns 0 from inside the loop. -/
def pil_init_entry_addr_loop (A : Arch) (image_relocated : Bool) (entry : Nat) :
    List pil_seg → Bool
  | [] => false
  | seg :: rest =>
    if seg_has_entry A seg entry then
      if !image_relocated then true
      else if seg.relocated then true
      else pil_init_entry_addr_loop A image_relocated entry rest
    else pil_init_entry_addr_loop A image_relocated entry rest

/-- The function `pil_init_entry_addr`: the returned code and the private state. -/
def pil_init_entry_addr (A : Arch) (desc : pil_desc) (priv : pil_priv) (mdt : pil_mdt) :
    Int × pil_priv :=
  let image_relocated : Bool := priv.region != 0
  let entry := if image_relocated then pil_reloc A priv mdt.hdr.e_entry else mdt.hdr.e_entry
  let priv := { priv with entry_addr := entry }
  if desc.flags &&& PIL_SKIP_ENTRY_CHECK != 0 then (0, priv)
  else if pil_init_entry_addr_loop A image_relocated entry priv.segs then (0, priv)
  else (-EADDRNOTAVAIL, priv)

/-! ## Region planner -/

/-- The function `pil_alloc_region`. -/
def pil_alloc_region (A : Arch) (env : Env) (desc : pil_desc) (priv : pil_priv)
    (min_addr max_addr align : Nat) (w : World) : Run :=
  let size := wrap A.longBits (wrap A.physBits ((max_addr : Int) - min_addr))
  if priv.region != 0 then
    if wrap A.physBits ((priv.region_end : Int) - priv.region_start) < size then
      .done (-ENOMEM) priv w
    else .done 0 priv w
  else
    let aligned_size := if align > SZ_4M then ALIGN A.longBits size SZ_4M
      else ALIGN A.longBits size SZ_1M
    let r := env.dma_alloc_attrs aligned_size priv.region_start
    let w := w.log (.dma_alloc_attrs aligned_size r.1 r.2)
    let priv := { priv with region_start := r.2 }
    if r.1 == 0 then
      if env.sec_debug && desc.name == "venus" then .bug w
      else .done (-ENOMEM) priv w
    else
      .done 0 { priv with
                region := r.1
                region_end := (priv.region_start + size) % 2 ^ A.physBits
                base_addr := min_addr
                region_size := aligned_size } w

/-- The locals of `pil_setup_region` that its loop updates. -/
structure region_limits where
  min_addr_r : Nat
  min_addr_n : Nat
  max_addr_r : Nat
  max_addr_n : Nat
  align : Nat
  relocatable : Bool
  deriving DecidableEq

/-- The local `end` of the loop of `pil_setup_region`:
`start + phdr->p_memsz` in `phys_addr_t`. -/
def phdr_end (A : Arch) (phdr : elf32_phdr) : Nat :=
  (phdr.p_paddr + phdr.p_memsz) % 2 ^ A.physBits

/-- One pass through the body of the loop of `pil_setup_region`. -/
def pil_setup_region_step (A : Arch) (mdt : pil_mdt) (l : region_limits) (i : Nat) :
    region_limits :=
  let phdr := mdt.phdr i
  if !segment_is_loadable phdr then l
  else
    let start := phdr.p_paddr
    let end_ := phdr_end A phdr
    if segment_is_relocatable phdr then
      let min_addr_r := min l.min_addr_r start
      { l with
        min_addr_r := min_addr_r
        max_addr_r := max l.max_addr_r end_
        align := if min_addr_r == start then phdr.p_align else l.align
        relocatable := true }
    else
      { l with
        min_addr_n := min l.min_addr_n start
        max_addr_n := max l.max_addr_n end_ }

/-- The locals of `pil_setup_region` after its loop has run over the first `n`
entries. -/
def pil_setup_region_loop (A : Arch) (mdt : pil_mdt) (n : Nat) : region_limits :=
  (List.range n).foldl (pil_setup_region_step A mdt)
    { min_addr_r := 2 ^ A.physBits - 1
      min_addr_n := 2 ^ A.physBits - 1
      max_addr_r := 0
      max_addr_n := 0
      align := 0
      relocatable := false }

/-- The loop of `pil_setup_region` ("Find the image limits"). -/
def pil_setup_region_limits (A : Arch) (mdt : pil_mdt) : region_limits :=
  pil_setup_region_loop A mdt mdt.hdr.e_phnum

/-- The running minimum kept for relocatable (`c = true`) or fixed entries. -/
def region_limits.min_addr (l : region_limits) (c : Bool) : Nat :=
  if c then l.min_addr_r else l.min_addr_n

/-- The running maximum kept for relocatable (`c = true`) or fixed entries. -/
def region_limits.max_addr (l : region_limits) (c : Bool) : Nat :=
  if c then l.max_addr_r else l.max_addr_n

/-- Entry `i` is loadable and is relocatable (`c = true`) or fixed. -/
def in_class (mdt : pil_mdt) (c : Bool) (i : Nat) : Prop :=
  segment_is_loadable (mdt.phdr i) = true ∧ segment_is_relocatable (mdt.phdr i) = c

instance (mdt : pil_mdt) (c : Bool) (i : Nat) : Decidable (in_class mdt c i) := by
  unfold in_class; infer_instance

/-- The tail of `pil_setup_region`: publish the region in the IMEM record. -/
def pil_setup_region_info (ret : Int) (priv : pil_priv) (w : World) : Run :=
  if priv.info then
    .done ret priv
      (w.log (.info_write priv.region_start
        (wrap 32 ((priv.region_end : Int) - priv.region_start))))
  else .done ret priv w

/-- The function `pil_setup_region`. -/
def pil_setup_region (A : Arch) (env : Env) (desc : pil_desc) (priv : pil_priv)
    (mdt : pil_mdt) (w : World) : Run :=
  let w := w.log .enter_setup_region
  let l := pil_setup_region_limits A mdt
  let max_addr_n := ALIGN A.physBits l.max_addr_n SZ_4K
  let max_addr_r := ALIGN A.physBits l.max_addr_r SZ_4K
  if l.relocatable then
    match pil_alloc_region A env desc priv l.min_addr_r max_addr_r l.align w with
    | .bug w => .bug w
    | .done ret priv w => pil_setup_region_info ret priv w
  else
    pil_setup_region_info 0
      { priv with
        region_start := l.min_addr_n
        region_end := max_addr_n
        base_addr := l.min_addr_n } w

/-! ## Segment list -/

/-- The function `pil_cmp_seg`. -/
def pil_cmp_seg (a b : pil_seg) : Int :=
  if a.paddr < b.paddr then -1
  else if a.paddr > b.paddr then 1
  else 0

/-- Modelled from the spec: the merge step of `list_sort` (lib/list_sort.c is
not among the sources): of two heads the first is taken unless it compares
strictly greater, so "ties keep insertion order". -/
def list_sort_merge (cmp : pil_seg → pil_seg → Int) (a : pil_seg) : List pil_seg → List pil_seg
  | [] => [a]
  | b :: rest => if cmp a b ≤ 0 then a :: b :: rest else b :: list_sort_merge cmp a rest

/-- Modelled from the spec: `list_sort` (lib/list_sort.c is not among the
sources), a stable sort: "sort the whole sequence by ascending final physical
address (stable comparison: strictly less / strictly greater / equal — ties
keep insertion order)". -/
def list_sort (cmp : pil_seg → pil_seg → Int) : List pil_seg → List pil_seg
  | [] => []
  | a :: rest => list_sort_merge cmp a (list_sort cmp rest)

/-- The loop of `pil_init_mmap` over the entries numbered in `idx`: the code
it stops with (0 when it ran to the end) and the segment list it leaves. -/
def pil_init_mmap_loop (A : Arch) (env : Env) (priv : pil_priv) (mdt : pil_mdt) :
    List Nat → List pil_seg → Int × List pil_seg
  | [], segs => (0, segs)
  | i :: idx, segs =>
    if !segment_is_loadable (mdt.phdr i) then pil_init_mmap_loop A env priv mdt idx segs
    else
      match pil_init_seg A env priv (mdt.phdr i) i with
      | .error e => (e, segs)
      | .ok seg => pil_init_mmap_loop A env priv mdt idx (segs ++ [seg])

/-- The function `pil_init_mmap`. -/
def pil_init_mmap (A : Arch) (env : Env) (desc : pil_desc) (priv : pil_priv)
    (mdt : pil_mdt) (w : World) : Run :=
  match pil_setup_region A env desc priv mdt w with
  | .bug w => .bug w
  | .done ret priv w =>
    if ret != 0 then .done ret priv w
    else
      let r := pil_init_mmap_loop A env priv mdt (List.range mdt.hdr.e_phnum) priv.segs
      if r.1 != 0 then .done r.1 { priv with segs := r.2 } w
      else
        let priv := { priv with segs := list_sort pil_cmp_seg r.2 }
        let e := pil_init_entry_addr A desc priv mdt
        .done e.1 e.2 w

/-- The function `pil_release_mmap`. -/
def pil_release_mmap (priv : pil_priv) (w : World) : pil_priv × World :=
  let w := if priv.info then w.log (.info_write 0 0) else w
  ({ priv with segs := [] }, w)


/-! ## Segment loader -/

/-- Effect on physical memory of zeroing `n` bytes from pointer `p`, where the
pointer `buf0` is the mapping of the physical address `paddr`. -/
def zero_mapped (m : Mem) (paddr buf0 : Nat) (p : Int) (n : Nat) : Mem :=
  fun pa => if p ≤ (pa : Int) - paddr + buf0 ∧ (pa : Int) - paddr + buf0 < p + n then 0 else m pa

/-- Call `memset_io(p, 0, n)` through the mapping of `paddr` at `buf0`. -/
def memset_io (paddr buf0 : Nat) (p : Int) (n : Nat) (w : World) : World :=
  { trace := w.trace ++ [.memset_io p n], mem := zero_mapped w.mem paddr buf0 p n }

/-- Call `memset(p, 0, n)` through the mapping of `paddr` at `buf0`. -/
def memset (paddr buf0 : Nat) (p : Int) (n : Nat) (w : World) : World :=
  { trace := w.trace ++ [.memset p n], mem := zero_mapped w.mem paddr buf0 p n }

/-- The body of the zeroing loop of `pil_load_seg` once `map_fw_mem(paddr,
size)` has returned `buf0`: the two fringes, the middle, the unmap. `x & 0x7`
is written `x % 8`; the `int size` becomes a `size_t` in the last `memset`. -/
def pil_load_seg_window (A : Arch) (paddr buf0 : Nat) (size : Int) (w : World) : World :=
  let before : Bool := buf0 % 8 != 0
  let bytes_before : Nat := 8 - buf0 % 8
  let w := if before then memset_io paddr buf0 buf0 bytes_before w else w
  let size : Int := if before then size - bytes_before else size
  let buf : Int := if before then (buf0 : Int) + bytes_before else buf0
  let after : Bool := size % 8 != 0
  let bytes_after : Nat := (size % 8).toNat
  let w := if after then memset_io paddr buf0 (buf + size - bytes_after) bytes_after w else w
  let size : Int := if after then size - bytes_after else size
  let w := memset paddr buf0 buf (wrap A.longBits size) w
  w.log (.unmap_fw_mem buf)

/-- The loop `while (count > 0)` of `pil_load_seg`. It cannot run more than
`count` times, which `fuel` records, so no case is left for running out. -/
def pil_load_seg_zero (A : Arch) (env : Env) :
    (fuel : Nat) → (paddr : Nat) → (count : Int) → count ≤ fuel → World → Int × World
  | 0, _, _, _, w => (0, w)
  | fuel + 1, paddr, count, h, w =>
    if hc : count > 0 then
      let size : Int := min (IOMAP_SIZE : Int) count
      let buf0 := env.map_fw_mem paddr size
      let w := w.log (.map_fw_mem paddr size)
      if buf0 == 0 then (-ENOMEM, w)
      else
        let w := pil_load_seg_window A paddr buf0 size w
        pil_load_seg_zero A env fuel ((paddr + size.toNat) % 2 ^ A.physBits) (count - size)
          (by simp only [IOMAP_SIZE, SZ_1M, size]; omega) w
    else (0, w)

/-- The end of `pil_load_seg`: the call of the `verify_blob` hook, when it is
set. -/
def pil_load_seg_verify (desc : pil_desc) (seg : pil_seg) (w : World) : Int × World :=
  match desc.ops.verify_blob with
  | some verify_blob => (verify_blob seg.paddr seg.sz, w.log (.verify_blob seg.paddr seg.sz))
  | none => (0, w)

/-- The `int count` of `pil_load_seg`: `seg->sz - seg->filesz`, computed in
`unsigned long` and stored in an `int`. -/
def pil_load_seg_count (A : Arch) (seg : pil_seg) : Int :=
  to_int (wrap A.longBits ((seg.sz : Int) - seg.filesz))

/-- The part of `pil_load_seg` from "Zero out trailing memory" on. -/
def pil_load_seg_trailing (A : Arch) (env : Env) (desc : pil_desc) (seg : pil_seg)
    (w : World) : Int × World :=
  let paddr := (seg.paddr + seg.filesz) % 2 ^ A.physBits
  let count := pil_load_seg_count A seg
  let r := pil_load_seg_zero A env count.toNat paddr count (Int.self_le_toNat count) w
  if r.1 != 0 then r else pil_load_seg_verify desc seg r.2

/-- The function `pil_load_seg`. -/
def pil_load_seg (A : Arch) (env : Env) (desc : pil_desc) (seg : pil_seg) (w : World) :
    Int × World :=
  if seg.filesz != 0 then
    let ret := env.request_firmware_direct seg.num seg.paddr seg.filesz
    let w : World :=
      { trace := w.trace ++ [.request_firmware_direct seg.num seg.paddr seg.filesz]
        mem := env.request_firmware_direct_mem seg.num seg.paddr seg.filesz w.mem }
    if ret < 0 then (ret, w)
    else if wrap A.longBits ret != seg.filesz then (-EPERM, w)
    else pil_load_seg_trailing A env desc seg w
  else pil_load_seg_trailing A env desc seg w

/-! ## Proxy votes -/

/-- The function `pil_proxy_vote`. -/
def pil_proxy_vote (desc : pil_desc) (w : World) : Int × World :=
  let r : Int × World :=
    match desc.ops.proxy_vote with
    | some ret =>
      let w := (w.log .wake_lock).log .proxy_vote
      (ret, if ret != 0 then w.log .wake_unlock else w)
    | none => (0, w)
  let w := if desc.proxy_unvote_irq != 0 then r.2.log (.enable_irq desc.proxy_unvote_irq) else r.2
  (r.1, w.log .notify_proxy_vote)

/-- The function `pil_proxy_unvote`. -/
def pil_proxy_unvote (env : Env) (desc : pil_desc) (immediate : Int) (w : World) : World :=
  if env.proxy_timeout_ms == 0 && immediate == 0 then w
  else
    let timeout : Nat :=
      if env.proxy_timeout_ms > 0 then env.proxy_timeout_ms.toNat else desc.proxy_timeout
    if desc.ops.proxy_unvote then
      let w := w.log .try_module_get
      if !env.try_module_get then w
      else
        let timeout := if immediate != 0 then 0 else timeout
        if desc.proxy_unvote_irq == 0 || immediate != 0 then
          w.log (.schedule_delayed_work timeout)
        else w
    else w

/-! ## Boot -/

/-- The function `pil_boot` from the label `out`. -/
def pil_boot_out (priv : pil_priv) (w : World) (ret : Int) : Run :=
  let w := w.log .up_read
  if ret != 0 then
    let freed : pil_priv × World :=
      if priv.region != 0 then
        ({ priv with region := 0 },
          w.log (.dma_free_attrs priv.region_size priv.region priv.region_start))
      else (priv, w)
    let r := pil_release_mmap freed.1 freed.2
    .done ret r.1 r.2
  else .done ret priv w

/-- The function `pil_boot` from the label `release_fw`. -/
def pil_boot_release_fw (priv : pil_priv) (w : World) (ret : Int) : Run :=
  pil_boot_out priv (w.log .release_firmware) ret

/-- The function `pil_boot` from the label `err_boot`. -/
def pil_boot_err_boot (env : Env) (desc : pil_desc) (priv : pil_priv) (w : World)
    (ret : Int) : Run :=
  let w := if ret != 0 && desc.proxy_unvote_irq != 0 then
    w.log (.disable_irq desc.proxy_unvote_irq) else w
  pil_boot_release_fw priv (pil_proxy_unvote env desc ret w) ret

/-- The function `pil_boot` from the label `err_deinit_image`. -/
def pil_boot_err_deinit_image (env : Env) (desc : pil_desc) (priv : pil_priv) (w : World)
    (ret : Int) : Run :=
  let w := if ret != 0 && desc.ops.deinit_image then w.log .deinit_image else w
  pil_boot_err_boot env desc priv w ret

/-- The `list_for_each_entry` loop of `pil_boot` over the segments. -/
def pil_boot_load_segs (A : Arch) (env : Env) (desc : pil_desc) :
    List pil_seg → World → Int × World
  | [], w => (0, w)
  | seg :: rest, w =>
    let r := pil_load_seg A env desc seg w
    if r.1 != 0 then r else pil_boot_load_segs A env desc rest r.2

/-- The function `pil_boot` from the call of the `init_image` hook on. -/
def pil_boot_hooks (A : Arch) (env : Env) (desc : pil_desc) (priv : pil_priv) (w : World) :
    Run :=
  let r : Int × World :=
    match desc.ops.init_image with
    | some ret => (ret, w.log .init_image)
    | none => (0, w)
  if r.1 != 0 then pil_boot_err_boot env desc priv r.2 r.1
  else
    let size := wrap A.longBits (wrap A.physBits ((priv.region_end : Int) - priv.region_start))
    let r : Int × World :=
      match desc.ops.mem_setup with
      | some mem_setup =>
        (mem_setup priv.region_start size, r.2.log (.mem_setup priv.region_start size))
      | none => (0, r.2)
    if r.1 != 0 then pil_boot_err_deinit_image env desc priv r.2 r.1
    else
      let r := pil_boot_load_segs A env desc priv.segs r.2
      if r.1 != 0 then pil_boot_err_deinit_image env desc priv r.2 r.1
      else
        pil_boot_err_deinit_image env desc priv (r.2.log .auth_and_reset)
          desc.ops.auth_and_reset

/-- The function `pil_boot` once the header has been validated. -/
def pil_boot_image (A : Arch) (env : Env) (desc : pil_desc) (priv : pil_priv) (mdt : pil_mdt)
    (w : World) : Run :=
  match pil_init_mmap A env desc priv mdt (w.log .init_dma_attrs) with
  | .bug w => .bug w
  | .done ret priv w =>
    if ret != 0 then pil_boot_release_fw priv w ret
    else
      let priv := { priv with unvoted_flag := 0 }
      let r := pil_proxy_vote desc w
      if r.1 != 0 then pil_boot_release_fw priv r.2 r.1
      else pil_boot_hooks A env desc priv r.2

/-- The first `SELFMAG` bytes of a valid `e_ident`. -/
def ELFMAG : List Nat := [0x7f, 0x45, 0x4c, 0x46]

/-- The value of `sizeof(struct elf32_hdr)`. -/
def sizeof_elf32_hdr : Nat := 52

/-- The value of `sizeof(struct elf32_phdr)`. -/
def sizeof_elf32_phdr : Nat := 32

/-- The function `pil_boot`. -/
def pil_boot (A : Arch) (env : Env) (desc : pil_desc) (priv : pil_priv) (w : World) : Run :=
  let r := pil_release_mmap priv w
  let priv := r.1
  let w := (r.2.log .down_read).log .request_firmware
  let ret := env.request_firmware.1
  let fw := env.request_firmware.2
  if ret != 0 then pil_boot_out priv w ret
  else if fw.size < sizeof_elf32_hdr then pil_boot_release_fw priv w (- EIO)
  else if fw.data.hdr.e_ident.take 4 != ELFMAG then pil_boot_release_fw priv w (- EIO)
  else if fw.data.hdr.e_phnum == 0 then pil_boot_release_fw priv w (- EIO)
  else if sizeof_elf32_phdr * fw.data.hdr.e_phnum + sizeof_elf32_hdr > fw.size then
    pil_boot_release_fw priv w (- EIO)
  else pil_boot_image A env desc priv fw.data w

/-- The function `pil_boot` up to its loop over the segments: the private
state and the world with which the loop starts, when `pil_boot` gets that
far. -/
def pil_boot_loading (A : Arch) (env : Env) (desc : pil_desc) (priv : pil_priv) (w : World) :
    Option (pil_priv × World) :=
  let r := pil_release_mmap priv w
  let priv := r.1
  let w := (r.2.log .down_read).log .request_firmware
  let fw := env.request_firmware.2
  if env.request_firmware.1 != 0 then none
  else if fw.size < sizeof_elf32_hdr then none
  else if fw.data.hdr.e_ident.take 4 != ELFMAG then none
  else if fw.data.hdr.e_phnum == 0 then none
  else if sizeof_elf32_phdr * fw.data.hdr.e_phnum + sizeof_elf32_hdr > fw.size then none
  else
    match pil_init_mmap A env desc priv fw.data (w.log .init_dma_attrs) with
    | .bug _ => none
    | .done ret priv w =>
      if ret != 0 then none
      else
        let priv := { priv with unvoted_flag := 0 }
        let r := pil_proxy_vote desc w
        if r.1 != 0 then none
        else
          let r : Int × World :=
            match desc.ops.init_image with
            | some ret => (ret, r.2.log .init_image)
            | none => (0, r.2)
          if r.1 != 0 then none
          else
            let size :=
              wrap A.longBits (wrap A.physBits ((priv.region_end : Int) - priv.region_start))
            let r : Int × World :=
              match desc.ops.mem_setup with
              | some mem_setup =>
                (mem_setup priv.region_start size,
                  r.2.log (.mem_setup priv.region_start size))
              | none => (0, r.2)
            if r.1 != 0 then none else some (priv, r.2)

/-! ## Releasing the proxy vote, shutdown, ramdump -/

/-- The function `__pil_proxy_unvote`. -/
def __pil_proxy_unvote (w : World) : World :=
  (((w.log .proxy_unvote).log .notify_proxy_unvote).log .wake_unlock).log .module_put

/-- The function `pil_proxy_unvote_work`, the work item `priv->proxy`. -/
def pil_proxy_unvote_work (w : World) : World :=
  __pil_proxy_unvote (w.log .proxy_unvote_work)

/-- The function `proxy_unvote_intr_handler`. -/
def proxy_unvote_intr_handler (priv : pil_priv) (w : World) : pil_priv × World :=
  if priv.unvoted_flag == 0 then
    ({ priv with unvoted_flag := 1 }, __pil_proxy_unvote w)
  else (priv, w)

/-- Whether the work item `priv->proxy` is queued after the calls of a trace:
`schedule_delayed_work` queues it (and does nothing when it is queued
already), and it leaves the queue when its function starts to run. -/
def work_pending (t : List Event) : Bool :=
  t.foldl (fun p e =>
    match e with
    | .schedule_delayed_work _ => true
    | .proxy_unvote_work => false
    | _ => p) false

/-- Call `flush_delayed_work(&priv->proxy)`: a queued work item runs at once
and the call waits for it. -/
def flush_delayed_work (w : World) : World :=
  let w := w.log .flush_delayed_work
  if work_pending w.trace then pil_proxy_unvote_work w else w

/-- The function `pil_shutdown`. -/
def pil_shutdown (env : Env) (desc : pil_desc) (priv : pil_priv) (w : World) :
    pil_priv × World :=
  let w := if desc.ops.shutdown then w.log .shutdown else w
  let w :=
    if desc.proxy_unvote_irq != 0 then
      let w := w.log (.disable_irq desc.proxy_unvote_irq)
      if priv.unvoted_flag == 0 then pil_proxy_unvote env desc 1 w else w
    else if env.proxy_timeout_ms == 0 then pil_proxy_unvote env desc 1 w
    else flush_delayed_work w
  if priv.region != 0 then
    ({ priv with region := 0 },
      w.log (.dma_free_attrs priv.region_size priv.region priv.region_start))
  else (priv, w)

/-- The function `pil_do_ramdump`. The fields `address` and `size` of
`struct ramdump_segment`, which soc/qcom/ramdump.h declares, are taken to hold
`seg->paddr` and `seg->sz` as they are; `count` stays far below `INT_MAX`, the
list having at most `e_phnum` entries. -/
def pil_do_ramdump (env : Env) (priv : pil_priv) (w : World) : Run :=
  let count := priv.segs.length
  if !env.kmalloc_array count then .done (-ENOMEM) priv w
  else
    let ramdump_segs := priv.segs.map (fun seg => (seg.paddr, seg.sz))
    let ret := env.do_elf_ramdump (ramdump_segs.take count)
    .done ret priv (w.log (.do_elf_ramdump (ramdump_segs.take count)))

/-! ## The life of a descriptor -/

/-- Modelled from the spec: the disable depth of the unvote interrupt line
after the calls of a trace. `pil_desc_init` leaves the line disabled once;
`disable_irq` nests and `enable_irq` undoes one level (kernel/irq/manage.c is
not among the sources). -/
def irq_depth (t : List Event) : Nat :=
  t.foldl (fun d e =>
    match e with
    | .disable_irq _ => d + 1
    | .enable_irq _ => d - 1
    | _ => d) 1

/-- Whether the unvote interrupt line is enabled after the calls of a trace. -/
def irq_enabled (t : List Event) : Bool := irq_depth t == 0

/-- What can happen to a descriptor: a call of `pil_boot`, the unvote interrupt,
the run of the queued work item, a call of `pil_shutdown`. -/
inductive Action where
  | boot (env : Env)
  | irq
  | work
  | shutdown (env : Env)

/-- One step in the life of a descriptor; `none` when the step cannot happen
(the interrupt while its line is disabled or absent, the work item while it is
not queued) or when `pil_boot` stops in `BUG_ON`. -/
def pil_step (A : Arch) (desc : pil_desc) : Action → pil_priv × World → Option (pil_priv × World)
  | .boot env, s =>
    match pil_boot A env desc s.1 s.2 with
    | .done _ p w => some (p, w)
    | .bug _ => none
  | .irq, s =>
    if desc.proxy_unvote_irq != 0 && irq_enabled s.2.trace then
      some (proxy_unvote_intr_handler s.1 s.2)
    else none
  | .work, s =>
    if work_pending s.2.trace then some (s.1, pil_proxy_unvote_work s.2) else none
  | .shutdown env, s => some (pil_shutdown env desc s.1 s.2)

/-- A sequence of steps. -/
def pil_run (A : Arch) (desc : pil_desc) : List Action → pil_priv × World →
    Option (pil_priv × World)
  | [], s => some s
  | a :: rest, s =>
    match pil_step A desc a s with
    | some s' => pil_run A desc rest s'
    | none => none

/-! ## Sample descriptors, images and environments -/

/-- Hooks that are all set and all succeed. -/
def ex_ops : pil_reset_ops :=
  { init_image := some 0
    mem_setup := some (fun _ _ => 0)
    verify_blob := some (fun _ _ => 0)
    proxy_vote := some 0
    auth_and_reset := 0
    proxy_unvote := true
    deinit_image := true
    shutdown := true }

/-- A descriptor with no unvote interrupt line and no flag set. -/
def ex_desc : pil_desc :=
  { name := "modem", flags := 0, proxy_unvote_irq := 0, proxy_timeout := 10000, ops := ex_ops }

/-- The private state `pil_desc_init` leaves, with an IMEM record. -/
def ex_priv : pil_priv :=
  { segs := [], entry_addr := 0, base_addr := 0, region_start := 0, region_end := 0,
    region := 0, info := true, unvoted_flag := 0, region_size := 0 }

/-- An empty trace over a memory filled with `0xff`. -/
def ex_world : World := { trace := [], mem := fun _ => 0xff }

/-- A program-header entry of type `PT_NULL`. -/
def ex_null : elf32_phdr :=
  { p_type := 0, p_paddr := 0, p_filesz := 0, p_memsz := 0, p_flags := 0, p_align := 0 }

/-- The header blob with entry point `e_entry` and the program headers `phdrs`. -/
def ex_fw (e_entry : Nat) (phdrs : List elf32_phdr) : firmware :=
  { size := sizeof_elf32_hdr + sizeof_elf32_phdr * phdrs.length
    data :=
      { hdr := { e_ident := ELFMAG ++ [1, 1, 1, 0], e_entry := e_entry, e_phnum := phdrs.length }
        phdr := fun i => phdrs.getD i ex_null } }

/-- An environment in which every call succeeds: host memory is
`[0x80000000, 0xc0000000)`, the allocator hands out bus address `0x90000000`,
blobs have the announced size, mappings are the identity shifted by
`0x40000000`. -/
def ex_env (fw : firmware) : Env :=
  { proxy_timeout_ms := -1
    request_firmware := (0, fw)
    memblock_overlaps_memory := fun a n => decide (a < 0xc0000000 ∧ 0x80000000 < a + n)
    kmalloc := fun _ => true
    dma_alloc_attrs := fun _ _ => (0xd0000000, 0x90000000)
    sec_debug := false
    request_firmware_direct := fun _ _ filesz => filesz
    request_firmware_direct_mem := fun _ _ _ m => m
    map_fw_mem := fun paddr _ => paddr + 0x40000000
    try_module_get := true
    kmalloc_array := fun _ => true
    do_elf_ramdump := fun _ => 0 }

/-- Four entries: a `PT_NULL` one, a relocatable one, and two fixed ones at
the same address. -/
def ex_phdrs_tie : List elf32_phdr :=
  [ ex_null,
    { p_type := 1, p_paddr := 0, p_filesz := 0x600, p_memsz := 0x1000, p_flags := 0x8000000,
      p_align := 0x1000 },
    { p_type := 1, p_paddr := 0x1000, p_filesz := 0, p_memsz := 0x1000, p_flags := 0,
      p_align := 0x1000 },
    { p_type := 1, p_paddr := 0x1000, p_filesz := 0x10, p_memsz := 0x800, p_flags := 0,
      p_align := 0x1000 } ]

/-- The private state after planning and building the segments of
`ex_phdrs_tie` on 32-bit ARM, from `ex_priv`. -/
def ex_priv_tie : pil_priv :=
  { segs :=
      [ { paddr := 0x1000, sz := 0x1000, filesz := 0, num := 2, relocated := false },
        { paddr := 0x1000, sz := 0x800, filesz := 0x10, num := 3, relocated := false },
        { paddr := 0x90000000, sz := 0x1000, filesz := 0x600, num := 1, relocated := true } ]
    entry_addr := 0x90000010
    base_addr := 0
    region_start := 0x90000000
    region_end := 0x90001000
    region := 0xd0000000
    info := true
    unvoted_flag := 0
    region_size := 0x100000 }

/-- Three entries of an image that runs in place: a `PT_NULL` one and two
fixed ones. -/
def ex_phdrs_fixed : List elf32_phdr :=
  [ ex_null,
    { p_type := 1, p_paddr := 0x8000, p_filesz := 0x100, p_memsz := 0x100, p_flags := 0,
      p_align := 0x1000 },
    { p_type := 1, p_paddr := 0x1000, p_filesz := 0x200, p_memsz := 0x1234, p_flags := 0,
      p_align := 0x1000 } ]

/-- First image of a reboot: one relocatable entry at `0x1000`. -/
def ex_phdrs_first : List elf32_phdr :=
  [ { p_type := 1, p_paddr := 0x1000, p_filesz := 0x400, p_memsz := 0x1000,
      p_flags := 0x8000000, p_align := 0x1000 } ]

/-- Second image of a reboot: one relocatable entry of the same size, at
`0x5000`. -/
def ex_phdrs_second : List elf32_phdr :=
  [ { p_type := 1, p_paddr := 0x5000, p_filesz := 0x400, p_memsz := 0x1000,
      p_flags := 0x8000000, p_align := 0x1000 } ]

/-- The private state after `pil_boot` of `ex_phdrs_first` on 32-bit ARM, from
`ex_priv`. -/
def ex_priv_first : pil_priv :=
  { segs := [ { paddr := 0x90000000, sz := 0x1000, filesz := 0x400, num := 0,
                relocated := true } ]
    entry_addr := 0x90000000
    base_addr := 0x1000
    region_start := 0x90000000
    region_end := 0x90001000
    region := 0xd0000000
    info := true
    unvoted_flag := 0
    region_size := 0x100000 }

/-- The private state after `pil_boot` of `ex_phdrs_second` on 32-bit ARM, from
`ex_priv_first`. -/
def ex_priv_second : pil_priv :=
  { ex_priv_first with
    segs := [ { paddr := 0x90004000, sz := 0x1000, filesz := 0x400, num := 0,
                relocated := true } ]
    entry_addr := 0x90004000 }

/-- Two fixed entries: the first with more bytes on disk than in memory, the
second over host memory. -/
def ex_phdrs_overlap : List elf32_phdr :=
  [ { p_type := 1, p_paddr := 0x1000, p_filesz := 0x2000, p_memsz := 0x1000, p_flags := 0,
      p_align := 0x1000 },
    { p_type := 1, p_paddr := 0x80000000, p_filesz := 0x100, p_memsz := 0x1000, p_flags := 0,
      p_align := 0x1000 } ]

/-- The descriptor of the video core, whose allocation failures stop the
kernel. -/
def ex_desc_venus : pil_desc := { ex_desc with name := "venus" }

/-- An environment like `ex_env` in which the allocator fails and the debug
level is on. -/
def ex_env_nomem (fw : firmware) : Env :=
  { ex_env fw with dma_alloc_attrs := fun _ h => (0, h), sec_debug := true }

/-- One relocatable entry with more bytes on disk than in memory. -/
def ex_phdrs_filesz : List elf32_phdr :=
  [ { p_type := 1, p_paddr := 0x1000, p_filesz := 0x2000, p_memsz := 0x1000,
      p_flags := 0x8000000, p_align := 0x1000 } ]

/-- An environment like `ex_env` in which every blob comes `0x100` bytes
short. -/
def ex_env_short (fw : firmware) : Env :=
  { ex_env fw with request_firmware_direct := fun _ _ filesz => (filesz : Int) - 0x100 }

/-- The private state after a failed `pil_boot` of `ex_phdrs_first` on 32-bit
ARM, from `ex_priv`, the allocation having succeeded. -/
def ex_priv_failed : pil_priv :=
  { ex_priv_first with segs := [], region := 0 }

/-- One fixed entry below host memory with nothing on disk and a footprint of
2 GiB. -/
def ex_phdrs_huge : List elf32_phdr :=
  [ { p_type := 1, p_paddr := 0, p_filesz := 0, p_memsz := 0x80000000, p_flags := 0,
      p_align := 0x1000 } ]

/-- The segment `pil_init_seg` builds from the entry of `ex_phdrs_huge`. -/
def ex_seg_huge : pil_seg :=
  { paddr := 0, sz := 0x80000000, filesz := 0, num := 0, relocated := false }

/-- An environment like `ex_env` in which the blob of entry 3 is missing
(`-ENOENT`). -/
def ex_env_missing (fw : firmware) : Env :=
  { ex_env fw with
    request_firmware_direct := fun num _ filesz => if num == 3 then -2 else filesz }

/-- The private state and the world with which `pil_boot` of `ex_phdrs_tie`
starts to load segments on 32-bit ARM under `ex_env_missing`. -/
def ex_loading_missing : pil_priv × World :=
  (pil_boot_loading .arm (ex_env_missing (ex_fw 0x10 ex_phdrs_tie)) ex_desc ex_priv
    ex_world).getD (ex_priv, ex_world)

/-- An environment like `ex_env` in which the blob of entry 1, announced with
`0x600` bytes, comes with `0x500`. -/
def ex_env_0x500 (fw : firmware) : Env :=
  { ex_env fw with
    request_firmware_direct := fun num _ filesz => if num == 1 then 0x500 else filesz }

/-- The private state and the world with which `pil_boot` of `ex_phdrs_tie`
starts to load segments on 32-bit ARM under `ex_env_0x500`. -/
def ex_loading_0x500 : pil_priv × World :=
  (pil_boot_loading .arm (ex_env_0x500 (ex_fw 0x10 ex_phdrs_tie)) ex_desc ex_priv
    ex_world).getD (ex_priv, ex_world)

/-- A descriptor like `ex_desc` with an unvote interrupt line. -/
def ex_desc_irq : pil_desc := { ex_desc with proxy_unvote_irq := 5 }

/-- An environment like `ex_env` with the module parameter `proxy_timeout_ms`
set to `n`. -/
def ex_env_override (n : Int) (fw : firmware) : Env :=
  { ex_env fw with proxy_timeout_ms := n }

/-- A descriptor like `ex_desc_irq` whose `proxy_vote` hook fails with -1. -/
def ex_desc_irq_novote : pil_desc :=
  { ex_desc_irq with ops := { ex_ops with proxy_vote := some (-1) } }

/-- A descriptor like `ex_desc_irq` whose `init_image` hook fails with -1. -/
def ex_desc_irq_noinit : pil_desc :=
  { ex_desc_irq with ops := { ex_ops with init_image := some (-1) } }

/-- A descriptor like `ex_desc` with the flag `PIL_SKIP_ENTRY_CHECK`. -/
def ex_desc_skip : pil_desc := { ex_desc with flags := PIL_SKIP_ENTRY_CHECK }

/-- A relocated segment with `0x601` bytes on disk and one byte more in
memory. -/
def ex_seg_odd : pil_seg :=
  { paddr := 0x90000000, sz := 0x602, filesz := 0x601, num := 1, relocated := true }

/-- A fixed segment with nothing on disk and a footprint of 1.5 MiB. -/
def ex_seg_windows : pil_seg :=
  { paddr := 0x1000, sz := 0x180000, filesz := 0, num := 0, relocated := false }

/-- Two fixed loadable entries, the first one reaching past the top of a
32-bit address space: `0xfffff000 + 0x2000 = 0x100001000`. -/
def ex_phdrs_wrap : List elf32_phdr :=
  [ { p_type := 1, p_paddr := 0xfffff000, p_filesz := 0, p_memsz := 0x2000, p_flags := 0,
      p_align := 0x1000 },
    { p_type := 1, p_paddr := 0x2000, p_filesz := 0, p_memsz := 0x800, p_flags := 0,
      p_align := 0x1000 } ]

/-- An environment like `ex_env` in which the mapping of the window at
`0x1010` fails. -/
def ex_env_nomap (fw : firmware) : Env :=
  { ex_env fw with
    map_fw_mem := fun paddr _ => if paddr == 0x1010 then 0 else paddr + 0x40000000 }

/-- The private state and the world with which `pil_boot` of `ex_phdrs_tie`
starts to load segments on 32-bit ARM under `ex_env_nomap`. -/
def ex_loading_nomap : pil_priv × World :=
  (pil_boot_loading .arm (ex_env_nomap (ex_fw 0x10 ex_phdrs_tie)) ex_desc ex_priv
    ex_world).getD (ex_priv, ex_world)

/-- A descriptor like `ex_desc` whose `verify_blob` hook rejects the segments
of `0x800` bytes with -22. -/
def ex_desc_noverify : pil_desc :=
  { ex_desc with
    ops := { ex_ops with verify_blob := some (fun _ sz => if sz == 0x800 then -22 else 0) } }

/-- The private state and the world with which `pil_boot` of `ex_phdrs_tie`
starts to load segments on 32-bit ARM with `ex_desc_noverify`. -/
def ex_loading_noverify : pil_priv × World :=
  (pil_boot_loading .arm (ex_env (ex_fw 0x10 ex_phdrs_tie)) ex_desc_noverify ex_priv
    ex_world).getD (ex_priv, ex_world)


/-! ## Machine arithmetic -/

theorem wrap_cast (w : Nat) (x : Int) : ((wrap w x : Nat) : Int) = x % (2 : Int) ^ w := by
  unfold wrap
  exact Int.toNat_of_nonneg (Int.emod_nonneg _ (by positivity))

theorem pil_reloc_cast (A : Arch) (priv : pil_priv) (addr : Nat) :
    ((pil_reloc A priv addr : Nat) : Int) =
      ((addr : Int) - priv.base_addr + priv.region_start) % (2 : Int) ^ A.physBits :=
  wrap_cast _ _

theorem pil_reloc_round_trip (A : Arch) (priv : pil_priv) (addr : Nat) :
    (((pil_reloc A priv addr : Nat) : Int) - priv.region_start) % (2 : Int) ^ A.physBits =
      ((addr : Int) - priv.base_addr) % (2 : Int) ^ A.physBits := by
  rw [pil_reloc_cast, Int.sub_emod, Int.emod_emod, ← Int.sub_emod]
  congr 1
  ring

theorem wrap_of_nonneg_lt (w : Nat) (x : Int) (h0 : 0 ≤ x) (h1 : x < (2 : Int) ^ w) :
    ((wrap w x : Nat) : Int) = x := by
  rw [wrap_cast]
  exact Int.emod_eq_of_lt h0 h1

theorem two_pow_longBits_ge (A : Arch) : (4294967296 : Int) ≤ (2 : Int) ^ A.longBits := by
  cases A <;> simp only [Arch.longBits] <;> norm_num

theorem phdr_end_eq (A : Arch) (p : elf32_phdr) (h : p.p_paddr + p.p_memsz < 2 ^ A.physBits) :
    phdr_end A p = p.p_paddr + p.p_memsz := Nat.mod_eq_of_lt h


/-! ## Sorting -/

theorem list_sort_merge_perm (cmp : pil_seg → pil_seg → Int) (a : pil_seg) (l : List pil_seg) :
    (list_sort_merge cmp a l).Perm (a :: l) := by
  induction l with
  | nil => simp [list_sort_merge]
  | cons b rest ih =>
    unfold list_sort_merge
    split
    · exact List.Perm.refl _
    · exact (List.Perm.cons b ih).trans (List.Perm.swap a b rest)

theorem list_sort_perm (cmp : pil_seg → pil_seg → Int) (l : List pil_seg) :
    (list_sort cmp l).Perm l := by
  induction l with
  | nil => simp [list_sort]
  | cons a rest ih =>
    unfold list_sort
    exact (list_sort_merge_perm cmp a _).trans (List.Perm.cons a ih)

theorem pil_cmp_seg_le (a b : pil_seg) : pil_cmp_seg a b ≤ 0 ↔ a.paddr ≤ b.paddr := by
  unfold pil_cmp_seg
  split
  · constructor <;> intro _ <;> omega
  · split
    · constructor <;> intro _ <;> omega
    · constructor <;> intro _ <;> omega

theorem list_sort_merge_pairwise (a : pil_seg) (l : List pil_seg)
    (hl : l.Pairwise (fun x y => x.paddr < y.paddr ∨ (x.paddr = y.paddr ∧ x.num < y.num)))
    (ha : ∀ b ∈ l, a.num < b.num) :
    (list_sort_merge pil_cmp_seg a l).Pairwise
      (fun x y => x.paddr < y.paddr ∨ (x.paddr = y.paddr ∧ x.num < y.num)) := by
  induction l with
  | nil => simp [list_sort_merge]
  | cons b rest ih =>
    unfold list_sort_merge
    rw [List.pairwise_cons] at hl
    split
    · rename_i hle
      rw [pil_cmp_seg_le] at hle
      refine List.Pairwise.cons ?_ (List.Pairwise.cons hl.1 hl.2)
      intro x hx
      have hnum := ha x hx
      rcases List.mem_cons.mp hx with rfl | hx
      · omega
      · have := hl.1 x hx
        omega
    · rename_i hle
      rw [pil_cmp_seg_le] at hle
      refine List.Pairwise.cons ?_ (ih hl.2 (fun x hx => ha x (List.mem_cons_of_mem _ hx)))
      intro x hx
      have hx := (list_sort_merge_perm pil_cmp_seg a rest).subset hx
      rcases List.mem_cons.mp hx with rfl | hx
      · omega
      · exact hl.1 x hx

theorem list_sort_pairwise (l : List pil_seg) (hl : l.Pairwise (fun x y => x.num < y.num)) :
    (list_sort pil_cmp_seg l).Pairwise
      (fun x y => x.paddr < y.paddr ∨ (x.paddr = y.paddr ∧ x.num < y.num)) := by
  induction l with
  | nil => simp [list_sort]
  | cons a rest ih =>
    unfold list_sort
    rw [List.pairwise_cons] at hl
    exact list_sort_merge_pairwise a _ (ih hl.2)
      (fun b hb => hl.1 b ((list_sort_perm pil_cmp_seg rest).subset hb))


/-! ## Building the segment list -/

theorem pil_init_seg_num (A : Arch) (env : Env) (priv : pil_priv) (phdr : elf32_phdr)
    (num : Nat) (seg : pil_seg) (h : pil_init_seg A env priv phdr num = .ok seg) :
    seg.num = num := by
  unfold pil_init_seg at h
  simp only at h
  split at h
  · cases h
  · split at h
    · cases h
    · split at h
      · cases h
      · cases h; rfl

theorem pil_init_seg_error_ne_zero (A : Arch) (env : Env) (priv : pil_priv)
    (phdr : elf32_phdr) (num : Nat) (e : Int)
    (h : pil_init_seg A env priv phdr num = .error e) :
    e = -EPERM ∨ e = -EINVAL ∨ e = -ENOMEM := by
  unfold pil_init_seg at h
  simp only at h
  split at h
  · cases h; simp
  · split at h
    · cases h; simp
    · split at h
      · cases h; simp
      · cases h

theorem pil_init_mmap_loop_ok (A : Arch) (env : Env) (priv : pil_priv) (mdt : pil_mdt) :
    ∀ (idx : List Nat) (segs segs' : List pil_seg),
      pil_init_mmap_loop A env priv mdt idx segs = (0, segs') →
      ∃ l, segs' = segs ++ l ∧
        List.Forall₂ (fun i seg => pil_init_seg A env priv (mdt.phdr i) i = .ok seg)
          (idx.filter (fun i => segment_is_loadable (mdt.phdr i))) l := by
  intro idx
  induction idx with
  | nil =>
    intro segs segs' h
    simp only [pil_init_mmap_loop, Prod.mk.injEq, true_and] at h
    exact ⟨[], by simp [h], by simp⟩
  | cons i idx ih =>
    intro segs segs' h
    unfold pil_init_mmap_loop at h
    by_cases hl : segment_is_loadable (mdt.phdr i) = true
    · simp only [hl, Bool.not_true, Bool.false_eq_true, if_false] at h
      cases hseg : pil_init_seg A env priv (mdt.phdr i) i with
      | error e =>
        rw [hseg] at h
        simp only [Prod.mk.injEq] at h
        have := pil_init_seg_error_ne_zero A env priv _ _ _ hseg
        simp only [EPERM, EINVAL, ENOMEM] at this
        omega
      | ok seg =>
        rw [hseg] at h
        obtain ⟨l, hl1, hl2⟩ := ih _ _ h
        refine ⟨seg :: l, by simp [hl1], ?_⟩
        rw [List.filter_cons_of_pos (by simpa using hl)]
        exact List.Forall₂.cons hseg hl2
    · simp only [hl, Bool.not_false, if_true] at h
      simp only [Bool.not_eq_true] at hl
      obtain ⟨l, hl1, hl2⟩ := ih _ _ h
      refine ⟨l, hl1, ?_⟩
      rw [List.filter_cons_of_neg (by simp [hl])]
      exact hl2

theorem forall₂_init_seg_nums (A : Arch) (env : Env) (priv : pil_priv) (mdt : pil_mdt)
    (is : List Nat) (l : List pil_seg)
    (h : List.Forall₂ (fun i seg => pil_init_seg A env priv (mdt.phdr i) i = .ok seg) is l) :
    l.map (fun s => s.num) = is := by
  induction h with
  | nil => rfl
  | cons h _ ih => simp [ih, pil_init_seg_num A env priv _ _ _ h]

/-! ## Frame of the region planner -/

theorem pil_alloc_region_segs (A : Arch) (env : Env) (desc : pil_desc) (priv : pil_priv)
    (min_addr max_addr align : Nat) (w : World) (ret : Int) (p : pil_priv) (w' : World)
    (h : pil_alloc_region A env desc priv min_addr max_addr align w = .done ret p w') :
    p.segs = priv.segs ∧ p.info = priv.info := by
  simp only [pil_alloc_region] at h
  split_ifs at h <;> cases h <;> exact ⟨rfl, rfl⟩

theorem pil_setup_region_info_done (ret : Int) (priv : pil_priv) (w : World) :
    ∃ w', pil_setup_region_info ret priv w = .done ret priv w' := by
  unfold pil_setup_region_info
  split <;> exact ⟨_, rfl⟩

theorem pil_setup_region_segs (A : Arch) (env : Env) (desc : pil_desc) (priv : pil_priv)
    (mdt : pil_mdt) (w : World) (ret : Int) (p : pil_priv) (w' : World)
    (h : pil_setup_region A env desc priv mdt w = .done ret p w') :
    p.segs = priv.segs ∧ p.info = priv.info := by
  simp only [pil_setup_region] at h
  split at h
  · split at h
    · cases h
    · rename_i r p1 w1 ha
      obtain ⟨w2, h2⟩ := pil_setup_region_info_done r p1 w1
      rw [h2] at h
      cases h
      exact pil_alloc_region_segs A env desc priv _ _ _ _ _ _ _ ha
  · simp only [pil_setup_region_info] at h
    split_ifs at h <;> cases h <;> exact ⟨rfl, rfl⟩

theorem pil_init_entry_addr_segs (A : Arch) (desc : pil_desc) (priv : pil_priv)
    (mdt : pil_mdt) : (pil_init_entry_addr A desc priv mdt).2.segs = priv.segs := by
  simp only [pil_init_entry_addr]
  split_ifs <;> rfl

/-- What a successful `pil_init_mmap` went through: planning returned 0, every
loadable entry gave a segment, and the list is the sorted one. -/
theorem pil_init_mmap_ok (A : Arch) (env : Env) (desc : pil_desc) (priv : pil_priv)
    (mdt : pil_mdt) (w : World) (p' : pil_priv)
    (hret : (pil_init_mmap A env desc priv mdt w).ret = some 0)
    (hp : (pil_init_mmap A env desc priv mdt w).priv = some p') :
    ∃ p1 w1 l, pil_setup_region A env desc priv mdt w = .done 0 p1 w1 ∧
      List.Forall₂ (fun i seg => pil_init_seg A env p1 (mdt.phdr i) i = .ok seg)
        ((List.range mdt.hdr.e_phnum).filter (fun i => segment_is_loadable (mdt.phdr i))) l ∧
      p'.segs = list_sort pil_cmp_seg (priv.segs ++ l) ∧
      (pil_init_entry_addr A desc { p1 with segs := list_sort pil_cmp_seg (priv.segs ++ l) }
        mdt) = (0, p') := by
  unfold pil_init_mmap at hret hp
  cases hs : pil_setup_region A env desc priv mdt w with
  | bug w1 => rw [hs] at hret; simp [Run.ret] at hret
  | done ret p1 w1 =>
    rw [hs] at hret hp
    simp only at hret hp
    have hsegs := (pil_setup_region_segs A env desc priv mdt w ret p1 w1 hs).1
    by_cases hr : ret = 0
    · subst hr
      simp only [bne_self_eq_false, Bool.false_eq_true, if_false] at hret hp
      by_cases hl : (pil_init_mmap_loop A env p1 mdt (List.range mdt.hdr.e_phnum) p1.segs).1 = 0
      · simp only [hl, bne_self_eq_false, Bool.false_eq_true, if_false, Run.ret, Run.priv,
          Option.some.injEq] at hret hp
        obtain ⟨l, hl1, hl2⟩ := pil_init_mmap_loop_ok A env p1 mdt _ _
          (pil_init_mmap_loop A env p1 mdt (List.range mdt.hdr.e_phnum) p1.segs).2
          (by rw [← hl])
        refine ⟨p1, w1, l, rfl, hl2, ?_, ?_⟩
        · rw [← hp, pil_init_entry_addr_segs, hl1, hsegs]
        · rw [← hsegs, ← hl1]
          exact Prod.ext hret hp
      · have : ((pil_init_mmap_loop A env p1 mdt (List.range mdt.hdr.e_phnum) p1.segs).1 != 0)
            = true := by simpa using hl
        simp only [this, if_true, Run.ret, Option.some.injEq] at hret
        exact absurd hret hl
    · have : (ret != 0) = true := by simpa using hr
      simp only [this, if_true, Run.ret, Option.some.injEq] at hret
      exact absurd hret hr


/-! ## Image limits -/

theorem pil_setup_region_loop_succ (A : Arch) (mdt : pil_mdt) (n : Nat) :
    pil_setup_region_loop A mdt (n + 1) =
      pil_setup_region_step A mdt (pil_setup_region_loop A mdt n) n := by
  simp [pil_setup_region_loop, List.range_succ, List.foldl_append]

theorem pil_setup_region_step_in (A : Arch) (mdt : pil_mdt) (l : region_limits) (i : Nat)
    (c : Bool) (h : in_class mdt c i) :
    (pil_setup_region_step A mdt l i).min_addr c = min (l.min_addr c) (mdt.phdr i).p_paddr ∧
      (pil_setup_region_step A mdt l i).max_addr c =
        max (l.max_addr c) (phdr_end A (mdt.phdr i)) := by
  obtain ⟨h1, h2⟩ := h
  cases c <;> simp [pil_setup_region_step, h1, h2, region_limits.min_addr, region_limits.max_addr]

theorem pil_setup_region_step_out (A : Arch) (mdt : pil_mdt) (l : region_limits) (i : Nat)
    (c : Bool) (h : ¬ in_class mdt c i) :
    (pil_setup_region_step A mdt l i).min_addr c = l.min_addr c ∧
      (pil_setup_region_step A mdt l i).max_addr c = l.max_addr c := by
  unfold in_class at h
  by_cases h1 : segment_is_loadable (mdt.phdr i) = true
  · have h2 : segment_is_relocatable (mdt.phdr i) = !c := by
      cases c <;> cases hr : segment_is_relocatable (mdt.phdr i) <;> simp_all
    cases c <;>
      simp [pil_setup_region_step, h1, h2, region_limits.min_addr, region_limits.max_addr]
  · simp [pil_setup_region_step, h1]

/-- The limits the loop has found after `n` entries, for either class of
loadable entries: bounds of every entry seen, attained by one of them, and
the initial values when none was seen. -/
theorem pil_setup_region_loop_limits (A : Arch) (mdt : pil_mdt) (c : Bool) (n : Nat)
    (hfits : ∀ i, i < n → (mdt.phdr i).fits) :
    (∀ i, i < n → in_class mdt c i →
        (pil_setup_region_loop A mdt n).min_addr c ≤ (mdt.phdr i).p_paddr ∧
        phdr_end A (mdt.phdr i) ≤ (pil_setup_region_loop A mdt n).max_addr c) ∧
      ((∃ i, i < n ∧ in_class mdt c i) →
        (∃ i, i < n ∧ in_class mdt c i ∧
          (pil_setup_region_loop A mdt n).min_addr c = (mdt.phdr i).p_paddr) ∧
        (∃ i, i < n ∧ in_class mdt c i ∧
          (pil_setup_region_loop A mdt n).max_addr c = phdr_end A (mdt.phdr i))) ∧
      ((¬ ∃ i, i < n ∧ in_class mdt c i) →
        (pil_setup_region_loop A mdt n).min_addr c = 2 ^ A.physBits - 1 ∧
        (pil_setup_region_loop A mdt n).max_addr c = 0) := by
  induction n with
  | zero =>
    refine ⟨fun i hi => absurd hi (Nat.not_lt_zero i), fun ⟨i, hi, _⟩ => absurd hi (Nat.not_lt_zero i), fun _ => ?_⟩
    cases c <;> simp [pil_setup_region_loop, region_limits.min_addr, region_limits.max_addr]
  | succ n ih =>
    obtain ⟨ih1, ih2, ih3⟩ := ih (fun i hi => hfits i (Nat.lt_succ_of_lt hi))
    rw [pil_setup_region_loop_succ]
    by_cases hn : in_class mdt c n
    · obtain ⟨hmin, hmax⟩ := pil_setup_region_step_in A mdt (pil_setup_region_loop A mdt n) n c hn
      rw [hmin, hmax]
      have hpad : (mdt.phdr n).p_paddr ≤ 2 ^ A.physBits - 1 := by
        have := (hfits n (Nat.lt_succ_self n)).2.1
        cases A <;> simp only [Arch.physBits] <;> omega
      refine ⟨?_, fun _ => ⟨?_, ?_⟩, fun hno => absurd ⟨n, Nat.lt_succ_self n, hn⟩ hno⟩
      · intro i hi hc
        rcases Nat.lt_succ_iff_lt_or_eq.mp hi with hi | rfl
        · have := ih1 i hi hc
          omega
        · omega
      · by_cases hex : ∃ i, i < n ∧ in_class mdt c i
        · obtain ⟨⟨i, hi, hc, hm⟩, _⟩ := ih2 hex
          by_cases hlt : (pil_setup_region_loop A mdt n).min_addr c ≤ (mdt.phdr n).p_paddr
          · exact ⟨i, Nat.lt_succ_of_lt hi, hc, by rw [Nat.min_eq_left hlt, hm]⟩
          · exact ⟨n, Nat.lt_succ_self n, hn, Nat.min_eq_right (by omega)⟩
        · have := (ih3 hex).1
          exact ⟨n, Nat.lt_succ_self n, hn, Nat.min_eq_right (by omega)⟩
      · by_cases hex : ∃ i, i < n ∧ in_class mdt c i
        · obtain ⟨_, ⟨i, hi, hc, hm⟩⟩ := ih2 hex
          by_cases hlt : phdr_end A (mdt.phdr n) ≤ (pil_setup_region_loop A mdt n).max_addr c
          · exact ⟨i, Nat.lt_succ_of_lt hi, hc, by rw [Nat.max_eq_left hlt, hm]⟩
          · exact ⟨n, Nat.lt_succ_self n, hn, Nat.max_eq_right (by omega)⟩
        · have := (ih3 hex).2
          exact ⟨n, Nat.lt_succ_self n, hn, Nat.max_eq_right (by omega)⟩
    · obtain ⟨hmin, hmax⟩ := pil_setup_region_step_out A mdt (pil_setup_region_loop A mdt n) n c hn
      rw [hmin, hmax]
      have hiff : (∃ i, i < n + 1 ∧ in_class mdt c i) ↔ (∃ i, i < n ∧ in_class mdt c i) := by
        constructor
        · rintro ⟨i, hi, hc⟩
          rcases Nat.lt_succ_iff_lt_or_eq.mp hi with hi | rfl
          · exact ⟨i, hi, hc⟩
          · exact absurd hc hn
        · rintro ⟨i, hi, hc⟩
          exact ⟨i, Nat.lt_succ_of_lt hi, hc⟩
      refine ⟨?_, fun hex => ?_, fun hno => ih3 (fun h => hno (hiff.mpr h))⟩
      · intro i hi hc
        rcases Nat.lt_succ_iff_lt_or_eq.mp hi with hi | rfl
        · exact ih1 i hi hc
        · exact absurd hc hn
      · obtain ⟨⟨i, hi, hc, hm⟩, ⟨j, hj, hcj, hmj⟩⟩ := ih2 (hiff.mp hex)
        exact ⟨⟨i, Nat.lt_succ_of_lt hi, hc, hm⟩, ⟨j, Nat.lt_succ_of_lt hj, hcj, hmj⟩⟩

/-- The loop sets `relocatable` exactly when it has seen a relocatable
loadable entry. -/
theorem pil_setup_region_loop_relocatable (A : Arch) (mdt : pil_mdt) (n : Nat) :
    (pil_setup_region_loop A mdt n).relocatable = true ↔ ∃ i, i < n ∧ in_class mdt true i := by
  induction n with
  | zero => simp [pil_setup_region_loop]
  | succ n ih =>
    rw [pil_setup_region_loop_succ]
    by_cases hn : in_class mdt true n
    · have : (pil_setup_region_step A mdt (pil_setup_region_loop A mdt n) n).relocatable
          = true := by
        obtain ⟨h1, h2⟩ := hn
        simp [pil_setup_region_step, h1, h2]
      exact ⟨fun _ => ⟨n, Nat.lt_succ_self n, hn⟩, fun _ => this⟩
    · have : (pil_setup_region_step A mdt (pil_setup_region_loop A mdt n) n).relocatable
          = (pil_setup_region_loop A mdt n).relocatable := by
        unfold in_class at hn
        by_cases h1 : segment_is_loadable (mdt.phdr n) = true
        · have h2 : segment_is_relocatable (mdt.phdr n) = false := by
            cases hr : segment_is_relocatable (mdt.phdr n) <;> simp_all
          simp [pil_setup_region_step, h1, h2]
        · simp [pil_setup_region_step, h1]
      rw [this, ih]
      constructor
      · rintro ⟨i, hi, hc⟩
        exact ⟨i, Nat.lt_succ_of_lt hi, hc⟩
      · rintro ⟨i, hi, hc⟩
        rcases Nat.lt_succ_iff_lt_or_eq.mp hi with hi | rfl
        · exact ⟨i, hi, hc⟩
        · exact absurd hc hn


/-! ## Which calls a stage can make -/

theorem filter_log (q : Event → Bool) (w : World) (e : Event) (h : q e = false) :
    (w.log e).trace.filter q = w.trace.filter q := by
  simp [World.log, List.filter_append, h]

theorem pil_release_mmap_filter (q : Event → Bool) (hq : ∀ a b, q (.info_write a b) = false)
    (priv : pil_priv) (w : World) :
    (pil_release_mmap priv w).2.trace.filter q = w.trace.filter q := by
  simp only [pil_release_mmap]
  split
  · exact filter_log q w _ (hq 0 0)
  · rfl

theorem pil_alloc_region_filter (q : Event → Bool)
    (hq : ∀ s r h, q (.dma_alloc_attrs s r h) = false)
    (A : Arch) (env : Env) (desc : pil_desc) (priv : pil_priv)
    (min_addr max_addr align : Nat) (w : World) :
    (pil_alloc_region A env desc priv min_addr max_addr align w).world.trace.filter q =
      w.trace.filter q := by
  simp only [pil_alloc_region]
  split_ifs <;> first | rfl | exact filter_log q w _ (hq _ _ _)

theorem pil_setup_region_info_filter (q : Event → Bool)
    (hq : ∀ a b, q (.info_write a b) = false) (ret : Int) (priv : pil_priv) (w : World) :
    (pil_setup_region_info ret priv w).world.trace.filter q = w.trace.filter q := by
  simp only [pil_setup_region_info]
  split
  · exact filter_log q w _ (hq _ _)
  · rfl

theorem pil_setup_region_filter (q : Event → Bool) (h1 : q .enter_setup_region = false)
    (h2 : ∀ s r h, q (.dma_alloc_attrs s r h) = false)
    (h3 : ∀ a b, q (.info_write a b) = false)
    (A : Arch) (env : Env) (desc : pil_desc) (priv : pil_priv) (mdt : pil_mdt) (w : World) :
    (pil_setup_region A env desc priv mdt w).world.trace.filter q = w.trace.filter q := by
  simp only [pil_setup_region]
  split
  · have ha := pil_alloc_region_filter q h2 A env desc priv
      (pil_setup_region_limits A mdt).min_addr_r
      (ALIGN A.physBits (pil_setup_region_limits A mdt).max_addr_r SZ_4K)
      (pil_setup_region_limits A mdt).align (w.log .enter_setup_region)
    rw [filter_log q w _ h1] at ha
    split
    · rename_i w1 hw
      rw [hw] at ha
      exact ha
    · rename_i r p1 w1 hw
      rw [hw] at ha
      rw [pil_setup_region_info_filter q h3]
      exact ha
  · rw [pil_setup_region_info_filter q h3]
    exact filter_log q w _ h1

theorem pil_init_mmap_world (A : Arch) (env : Env) (desc : pil_desc) (priv : pil_priv)
    (mdt : pil_mdt) (w : World) :
    (pil_init_mmap A env desc priv mdt w).world = (pil_setup_region A env desc priv mdt w).world := by
  simp only [pil_init_mmap]
  split
  · rename_i w1 hw; rw [hw]
  · rename_i r p1 w1 hw
    rw [hw]
    split_ifs <;> rfl

theorem pil_boot_out_filter (q : Event → Bool) (h1 : q .up_read = false)
    (h2 : ∀ s r h, q (.dma_free_attrs s r h) = false)
    (h3 : ∀ a b, q (.info_write a b) = false) (priv : pil_priv) (w : World) (ret : Int) :
    (pil_boot_out priv w ret).world.trace.filter q = w.trace.filter q := by
  simp only [pil_boot_out]
  split_ifs <;> simp only [Run.world]
  · rw [pil_release_mmap_filter q h3, filter_log q _ _ (h2 _ _ _), filter_log q _ _ h1]
  · rw [pil_release_mmap_filter q h3, filter_log q _ _ h1]
  · rw [filter_log q _ _ h1]

theorem pil_boot_release_fw_filter (q : Event → Bool) (h0 : q .release_firmware = false)
    (h1 : q .up_read = false) (h2 : ∀ s r h, q (.dma_free_attrs s r h) = false)
    (h3 : ∀ a b, q (.info_write a b) = false) (priv : pil_priv) (w : World) (ret : Int) :
    (pil_boot_release_fw priv w ret).world.trace.filter q = w.trace.filter q := by
  simp only [pil_boot_release_fw]
  rw [pil_boot_out_filter q h1 h2 h3, filter_log q _ _ h0]

theorem pil_boot_out_ret (priv : pil_priv) (w : World) (ret : Int) :
    (pil_boot_out priv w ret).ret = some ret := by
  simp only [pil_boot_out]
  split_ifs <;> rfl

theorem pil_boot_release_fw_ret (priv : pil_priv) (w : World) (ret : Int) :
    (pil_boot_release_fw priv w ret).ret = some ret := pil_boot_out_ret _ _ _

/-! ## Rejected entries -/

/-- The loop of `pil_init_mmap` stops with an error when one of its entries
is loadable and `pil_init_seg` rejects it; the error is that of the first
rejected entry. -/
theorem pil_init_mmap_loop_rejects (A : Arch) (env : Env) (priv : pil_priv) (mdt : pil_mdt)
    (i : Nat) (e : Int) (hl : segment_is_loadable (mdt.phdr i) = true)
    (he : pil_init_seg A env priv (mdt.phdr i) i = .error e) :
    ∀ (idx : List Nat) (segs : List pil_seg), i ∈ idx →
      ((pil_init_mmap_loop A env priv mdt idx segs).1 = -EPERM ∨
        (pil_init_mmap_loop A env priv mdt idx segs).1 = -EINVAL ∨
        (pil_init_mmap_loop A env priv mdt idx segs).1 = -ENOMEM) ∧
      (idx.Pairwise (fun a b => a < b) →
        (∀ j, j < i → segment_is_loadable (mdt.phdr j) = true →
          ∀ e', pil_init_seg A env priv (mdt.phdr j) j = .error e' → e' = e) →
        (pil_init_mmap_loop A env priv mdt idx segs).1 = e) := by
  intro idx
  induction idx with
  | nil => intro segs hi; cases hi
  | cons j idx ih =>
    intro segs hi
    unfold pil_init_mmap_loop
    by_cases hj : j = i
    · subst hj
      simp only [hl, Bool.not_true, Bool.false_eq_true, if_false, he]
      exact ⟨pil_init_seg_error_ne_zero A env priv _ _ _ he, fun _ _ => trivial⟩
    · have hi' : i ∈ idx := by
        rcases List.mem_cons.mp hi with h | h
        · exact absurd h.symm hj
        · exact h
      by_cases hlj : segment_is_loadable (mdt.phdr j) = true
      · simp only [hlj, Bool.not_true, Bool.false_eq_true, if_false]
        cases hseg : pil_init_seg A env priv (mdt.phdr j) j with
        | error e' =>
          simp only
          refine ⟨pil_init_seg_error_ne_zero A env priv _ _ _ hseg, fun hp hok => ?_⟩
          have hlt : j < i := (List.pairwise_cons.mp hp).1 i hi'
          exact hok j hlt hlj e' hseg
        | ok seg =>
          simp only
          exact ⟨(ih _ hi').1, fun hp hok => (ih _ hi').2 (List.pairwise_cons.mp hp).2 hok⟩
      · simp only [Bool.not_eq_true] at hlj
        simp only [hlj, Bool.not_false, if_true]
        exact ⟨(ih _ hi').1, fun hp hok => (ih _ hi').2 (List.pairwise_cons.mp hp).2 hok⟩

theorem pil_alloc_region_bug (A : Arch) (env : Env) (desc : pil_desc) (priv : pil_priv)
    (min_addr max_addr align : Nat) (w w' : World)
    (h : pil_alloc_region A env desc priv min_addr max_addr align w = .bug w') :
    env.sec_debug = true ∧ desc.name = "venus" := by
  simp only [pil_alloc_region] at h
  split_ifs at h <;> simp_all

theorem pil_setup_region_bug (A : Arch) (env : Env) (desc : pil_desc) (priv : pil_priv)
    (mdt : pil_mdt) (w w' : World) (h : pil_setup_region A env desc priv mdt w = .bug w') :
    env.sec_debug = true ∧ desc.name = "venus" := by
  simp only [pil_setup_region] at h
  split at h
  · split at h
    · rename_i w1 ha
      exact pil_alloc_region_bug A env desc priv _ _ _ _ _ ha
    · rename_i r p1 w1 ha
      obtain ⟨w2, h2⟩ := pil_setup_region_info_done r p1 w1
      rw [h2] at h
      cases h
  · obtain ⟨w2, h2⟩ := pil_setup_region_info_done 0
      { priv with
        region_start := (pil_setup_region_limits A mdt).min_addr_n
        region_end := ALIGN A.physBits (pil_setup_region_limits A mdt).max_addr_n SZ_4K
        base_addr := (pil_setup_region_limits A mdt).min_addr_n } (w.log .enter_setup_region)
    rw [h2] at h
    cases h

theorem pil_init_mmap_bug (A : Arch) (env : Env) (desc : pil_desc) (priv : pil_priv)
    (mdt : pil_mdt) (w w' : World) (h : pil_init_mmap A env desc priv mdt w = .bug w') :
    env.sec_debug = true ∧ desc.name = "venus" := by
  simp only [pil_init_mmap] at h
  split at h
  · rename_i w1 hs
    exact pil_setup_region_bug A env desc priv mdt w w1 hs
  · split_ifs at h

/-- The function `pil_init_mmap` does not return 0 when `pil_init_seg` rejects a loadable
entry of the table. -/
theorem pil_init_mmap_rejects (A : Arch) (env : Env) (desc : pil_desc) (priv : pil_priv)
    (mdt : pil_mdt) (w : World) (i : Nat) (hi : i < mdt.hdr.e_phnum)
    (hl : segment_is_loadable (mdt.phdr i) = true)
    (he : ∀ p : pil_priv, ∃ e, pil_init_seg A env p (mdt.phdr i) i = .error e) :
    (pil_init_mmap A env desc priv mdt w).ret ≠ some 0 := by
  simp only [pil_init_mmap]
  split
  · simp [Run.ret]
  · rename_i ret p1 w1 hs
    by_cases hr : ret = 0
    · subst hr
      simp only [bne_self_eq_false, Bool.false_eq_true, if_false]
      obtain ⟨e, he⟩ := he p1
      have h := (pil_init_mmap_loop_rejects A env p1 mdt i e hl he (List.range mdt.hdr.e_phnum)
        p1.segs (List.mem_range.mpr hi)).1
      have hne : (pil_init_mmap_loop A env p1 mdt (List.range mdt.hdr.e_phnum) p1.segs).1 ≠ 0 := by
        simp only [EPERM, EINVAL, ENOMEM] at h
        omega
      have : ((pil_init_mmap_loop A env p1 mdt (List.range mdt.hdr.e_phnum) p1.segs).1 != 0)
          = true := by simpa using hne
      simp only [this, if_true, Run.ret, ne_eq, Option.some.injEq]
      exact hne
    · have : (ret != 0) = true := by simpa using hr
      simp only [this, if_true, Run.ret, ne_eq, Option.some.injEq]
      exact hr

/-- The function `pil_boot` makes no call of the segment loader and of no hook when
`pil_init_seg` rejects a loadable entry of the table of the header blob: it
returns an error, or it stops in the `BUG_ON` of `pil_alloc_region`. -/
theorem pil_boot_rejects (q : Event → Bool)
    (hq : ∀ e, q e = true → e.is_load = true ∨ e.is_hook = true)
    (A : Arch) (env : Env) (desc : pil_desc) (priv : pil_priv) (w : World) (i : Nat)
    (hi : i < env.request_firmware.2.data.hdr.e_phnum)
    (hl : segment_is_loadable (env.request_firmware.2.data.phdr i) = true)
    (he : ∀ p : pil_priv, ∃ e,
      pil_init_seg A env p (env.request_firmware.2.data.phdr i) i = .error e) :
    ((∃ e, (pil_boot A env desc priv w).ret = some e ∧ e ≠ 0) ∨
        ((pil_boot A env desc priv w).ret = none ∧ env.sec_debug = true ∧
          desc.name = "venus")) ∧
      (pil_boot A env desc priv w).world.trace.filter q = w.trace.filter q := by
  have q0 : ∀ e, e.is_load = false → e.is_hook = false → q e = false := by
    intro e h1 h2
    cases hqe : q e with
    | false => rfl
    | true => rcases hq e hqe with h | h <;> simp_all
  have hstart : (((pil_release_mmap priv w).2.log .down_read).log .request_firmware).trace.filter q
      = w.trace.filter q := by
    rw [filter_log q _ _ (q0 .request_firmware rfl rfl), filter_log q _ _ (q0 .down_read rfl rfl),
      pil_release_mmap_filter q (fun _ _ => q0 _ rfl rfl)]
  have hfw := fun p w' r => pil_boot_release_fw_filter q (q0 .release_firmware rfl rfl)
    (q0 .up_read rfl rfl) (fun _ _ _ => q0 _ rfl rfl) (fun _ _ => q0 _ rfl rfl) p w' r
  have heio : ∀ p w', ∃ e, (pil_boot_release_fw p w' (- EIO)).ret = some e ∧ e ≠ 0 :=
    fun p w' => ⟨- EIO, pil_boot_release_fw_ret _ _ _, by simp [ EIO]⟩
  simp only [pil_boot]
  split_ifs with h1 h2 h3 h4 h5
  · refine ⟨Or.inl ⟨_, pil_boot_out_ret _ _ _, by simpa using h1⟩, ?_⟩
    rw [pil_boot_out_filter q (q0 .up_read rfl rfl) (fun _ _ _ => q0 _ rfl rfl)
      (fun _ _ => q0 _ rfl rfl), hstart]
  · exact ⟨Or.inl (heio _ _), by rw [hfw, hstart]⟩
  · exact ⟨Or.inl (heio _ _), by rw [hfw, hstart]⟩
  · exact ⟨Or.inl (heio _ _), by rw [hfw, hstart]⟩
  · exact ⟨Or.inl (heio _ _), by rw [hfw, hstart]⟩
  · have hne := pil_init_mmap_rejects A env desc (pil_release_mmap priv w).1
      env.request_firmware.2.data
      ((((pil_release_mmap priv w).2.log .down_read).log .request_firmware).log .init_dma_attrs)
      i hi hl he
    have hw := pil_init_mmap_world A env desc (pil_release_mmap priv w).1
      env.request_firmware.2.data
      ((((pil_release_mmap priv w).2.log .down_read).log .request_firmware).log .init_dma_attrs)
    have hf := pil_setup_region_filter q (q0 .enter_setup_region rfl rfl)
      (fun _ _ _ => q0 _ rfl rfl)
      (fun _ _ => q0 _ rfl rfl) A env desc (pil_release_mmap priv w).1
      env.request_firmware.2.data
      ((((pil_release_mmap priv w).2.log .down_read).log .request_firmware).log .init_dma_attrs)
    rw [← hw, filter_log q _ _ (q0 .init_dma_attrs rfl rfl), hstart] at hf
    simp only [pil_boot_image]
    split
    · rename_i w1 hrun
      rw [hrun] at hf
      exact ⟨Or.inr ⟨rfl, pil_init_mmap_bug A env desc _ _ _ _ hrun⟩, hf⟩
    · rename_i ret p1 w1 hrun
      rw [hrun] at hf hne
      simp only [Run.ret, ne_eq, Option.some.injEq] at hne
      have : (ret != 0) = true := by simpa using hne
      simp only [this, if_true]
      exact ⟨Or.inl ⟨ret, pil_boot_release_fw_ret _ _ _, hne⟩, by rw [hfw]; exact hf⟩


/-! ## The stages after planning acquire and release nothing -/

theorem not_resource (q : Event → Bool) (hq : ∀ e, q e = true → e.is_resource = true) (e : Event)
    (h : e.is_resource = false) : q e = false := by
  cases hqe : q e with
  | false => rfl
  | true => rw [hq e hqe] at h; cases h

theorem filter_log_resource (q : Event → Bool) (hq : ∀ e, q e = true → e.is_resource = true)
    (w : World) (e : Event) (h : e.is_resource = false) :
    (w.log e).trace.filter q = w.trace.filter q :=
  filter_log q w e (not_resource q hq e h)

theorem memset_io_filter (q : Event → Bool) (hq : ∀ e, q e = true → e.is_resource = true)
    (paddr buf0 : Nat) (p : Int) (n : Nat) (w : World) :
    (memset_io paddr buf0 p n w).trace.filter q = w.trace.filter q := by
  simp [memset_io, List.filter_append, not_resource q hq (.memset_io p n) rfl]

theorem memset_filter (q : Event → Bool) (hq : ∀ e, q e = true → e.is_resource = true)
    (paddr buf0 : Nat) (p : Int) (n : Nat) (w : World) :
    (memset paddr buf0 p n w).trace.filter q = w.trace.filter q := by
  simp [memset, List.filter_append, not_resource q hq (.memset p n) rfl]

theorem pil_load_seg_window_filter (q : Event → Bool)
    (hq : ∀ e, q e = true → e.is_resource = true) (A : Arch) (paddr buf0 : Nat) (size : Int)
    (w : World) :
    (pil_load_seg_window A paddr buf0 size w).trace.filter q = w.trace.filter q := by
  simp only [pil_load_seg_window]
  split_ifs <;>
    simp only [filter_log_resource q hq, Event.is_resource, memset_filter q hq,
      memset_io_filter q hq]

theorem pil_load_seg_zero_filter (q : Event → Bool)
    (hq : ∀ e, q e = true → e.is_resource = true) (A : Arch) (env : Env) :
    ∀ (fuel paddr : Nat) (count : Int) (h : count ≤ fuel) (w : World),
      (pil_load_seg_zero A env fuel paddr count h w).2.trace.filter q = w.trace.filter q := by
  intro fuel
  induction fuel with
  | zero => intro paddr count h w; rfl
  | succ fuel ih =>
    intro paddr count h w
    unfold pil_load_seg_zero
    by_cases hc : count > 0
    · rw [dif_pos hc]
      simp only
      split_ifs
      · simp only [filter_log_resource q hq, Event.is_resource]
      · simp only [ih, pil_load_seg_window_filter q hq, filter_log_resource q hq,
          Event.is_resource]
    · rw [dif_neg hc]

theorem pil_load_seg_verify_filter (q : Event → Bool)
    (hq : ∀ e, q e = true → e.is_resource = true) (desc : pil_desc) (seg : pil_seg) (w : World) :
    (pil_load_seg_verify desc seg w).2.trace.filter q = w.trace.filter q := by
  unfold pil_load_seg_verify
  cases desc.ops.verify_blob with
  | none => rfl
  | some f => simp only [filter_log_resource q hq, Event.is_resource]

theorem pil_load_seg_trailing_filter (q : Event → Bool)
    (hq : ∀ e, q e = true → e.is_resource = true) (A : Arch) (env : Env) (desc : pil_desc)
    (seg : pil_seg) (w : World) :
    (pil_load_seg_trailing A env desc seg w).2.trace.filter q = w.trace.filter q := by
  simp only [pil_load_seg_trailing]
  split_ifs
  · exact pil_load_seg_zero_filter q hq A env _ _ _ _ w
  · rw [pil_load_seg_verify_filter q hq]
    exact pil_load_seg_zero_filter q hq A env _ _ _ _ w

theorem pil_load_seg_filter (q : Event → Bool) (hq : ∀ e, q e = true → e.is_resource = true)
    (A : Arch) (env : Env) (desc : pil_desc) (seg : pil_seg) (w : World) :
    (pil_load_seg A env desc seg w).2.trace.filter q = w.trace.filter q := by
  have hf : (w.trace ++ [Event.request_firmware_direct seg.num seg.paddr seg.filesz]).filter q
      = w.trace.filter q := by
    simp [List.filter_append, not_resource q hq (.request_firmware_direct _ _ _) rfl]
  simp only [pil_load_seg]
  split_ifs
  · exact hf
  · exact hf
  · rw [pil_load_seg_trailing_filter q hq]
    exact hf
  · exact pil_load_seg_trailing_filter q hq A env desc seg w

theorem pil_boot_load_segs_filter (q : Event → Bool)
    (hq : ∀ e, q e = true → e.is_resource = true) (A : Arch) (env : Env) (desc : pil_desc) :
    ∀ (segs : List pil_seg) (w : World),
      (pil_boot_load_segs A env desc segs w).2.trace.filter q = w.trace.filter q := by
  intro segs
  induction segs with
  | nil => intro w; rfl
  | cons seg rest ih =>
    intro w
    simp only [pil_boot_load_segs]
    split_ifs
    · exact pil_load_seg_filter q hq A env desc seg w
    · rw [ih, pil_load_seg_filter q hq]

theorem pil_proxy_vote_filter (q : Event → Bool) (hq : ∀ e, q e = true → e.is_resource = true)
    (desc : pil_desc) (w : World) :
    (pil_proxy_vote desc w).2.trace.filter q = w.trace.filter q := by
  simp only [pil_proxy_vote]
  cases desc.ops.proxy_vote <;> simp only <;> split_ifs <;>
    simp only [filter_log_resource q hq, Event.is_resource]

theorem pil_proxy_unvote_filter (q : Event → Bool) (hq : ∀ e, q e = true → e.is_resource = true)
    (env : Env) (desc : pil_desc) (immediate : Int) (w : World) :
    (pil_proxy_unvote env desc immediate w).trace.filter q = w.trace.filter q := by
  simp only [pil_proxy_unvote]
  split_ifs <;> simp only [filter_log_resource q hq, Event.is_resource]

/-- Every path of `pil_boot` from the label `err_deinit_image` reaches the
label `release_fw` with the same code and private state, after calls that
acquire and release nothing. -/
theorem pil_boot_err_deinit_image_out (q : Event → Bool)
    (hq : ∀ e, q e = true → e.is_resource = true) (env : Env) (desc : pil_desc)
    (priv : pil_priv) (w : World) (ret : Int) :
    ∃ w', pil_boot_err_deinit_image env desc priv w ret = pil_boot_release_fw priv w' ret ∧
      w'.trace.filter q = w.trace.filter q := by
  refine ⟨_, rfl, ?_⟩
  split_ifs <;>
    simp only [filter_log_resource q hq, Event.is_resource, pil_proxy_unvote_filter q hq]

theorem pil_boot_err_boot_out (q : Event → Bool)
    (hq : ∀ e, q e = true → e.is_resource = true) (env : Env) (desc : pil_desc)
    (priv : pil_priv) (w : World) (ret : Int) :
    ∃ w', pil_boot_err_boot env desc priv w ret = pil_boot_release_fw priv w' ret ∧
      w'.trace.filter q = w.trace.filter q := by
  refine ⟨_, rfl, ?_⟩
  split_ifs <;>
    simp only [filter_log_resource q hq, Event.is_resource, pil_proxy_unvote_filter q hq]

/-- Every path of `pil_boot` from the call of `init_image` on reaches the
label `release_fw` with the same private state, after calls that acquire and
release nothing. -/
theorem pil_boot_hooks_out (q : Event → Bool) (hq : ∀ e, q e = true → e.is_resource = true)
    (A : Arch) (env : Env) (desc : pil_desc) (priv : pil_priv) (w : World) :
    ∃ w' ret, pil_boot_hooks A env desc priv w = pil_boot_release_fw priv w' ret ∧
      w'.trace.filter q = w.trace.filter q := by
  have hinit : ∀ r : Int × World,
      r = (match desc.ops.init_image with
        | some ret => (ret, w.log .init_image)
        | none => (0, w)) → r.2.trace.filter q = w.trace.filter q := by
    intro r hr
    cases hi : desc.ops.init_image <;> rw [hi] at hr <;> subst hr
    · rfl
    · simp only [filter_log_resource q hq, Event.is_resource]
  have hmem : ∀ (w0 : World) (size : Nat) (r : Int × World),
      r = (match desc.ops.mem_setup with
        | some mem_setup =>
          (mem_setup priv.region_start size, w0.log (.mem_setup priv.region_start size))
        | none => (0, w0)) → r.2.trace.filter q = w0.trace.filter q := by
    intro w0 size r hr
    cases hi : desc.ops.mem_setup <;> rw [hi] at hr <;> subst hr
    · rfl
    · simp only [filter_log_resource q hq, Event.is_resource]
  simp only [pil_boot_hooks]
  split_ifs
  · obtain ⟨w', h1, h2⟩ := pil_boot_err_boot_out q hq env desc priv _ _
    exact ⟨w', _, h1, by rw [h2]; exact hinit _ rfl⟩
  · obtain ⟨w', h1, h2⟩ := pil_boot_err_deinit_image_out q hq env desc priv _ _
    exact ⟨w', _, h1, by rw [h2, hmem _ _ _ rfl]; exact hinit _ rfl⟩
  · obtain ⟨w', h1, h2⟩ := pil_boot_err_deinit_image_out q hq env desc priv _ _
    exact ⟨w', _, h1, by
      rw [h2, pil_boot_load_segs_filter q hq, hmem _ _ _ rfl]; exact hinit _ rfl⟩
  · obtain ⟨w', h1, h2⟩ := pil_boot_err_deinit_image_out q hq env desc priv _ _
    exact ⟨w', _, h1, by
      rw [h2, filter_log_resource q hq _ .auth_and_reset rfl, pil_boot_load_segs_filter q hq,
        hmem _ _ _ rfl]
      exact hinit _ rfl⟩


/-! ## Accounting for the region -/

/-- What `pil_alloc_region` adds to the trace and what it leaves in
`priv->region`: nothing when a region is held; otherwise one allocator call,
whose pointer becomes the region when it is not `NULL`. -/
theorem pil_alloc_region_account (A : Arch) (env : Env) (desc : pil_desc) (priv : pil_priv)
    (min_addr max_addr align : Nat) (w : World) :
    ∃ allocs,
      (pil_alloc_region A env desc priv min_addr max_addr align w).world.trace =
        w.trace ++ allocs ∧
      ((allocs = [] ∧
          ∀ p1, (pil_alloc_region A env desc priv min_addr max_addr align w).priv = some p1 →
            p1.region = priv.region) ∨
        (priv.region = 0 ∧ ∃ s h, allocs = [.dma_alloc_attrs s 0 h] ∧
          (pil_alloc_region A env desc priv min_addr max_addr align w).ret ≠ some 0 ∧
          ∀ p1, (pil_alloc_region A env desc priv min_addr max_addr align w).priv = some p1 →
            p1.region = 0) ∨
        (priv.region = 0 ∧ ∃ s r h, r ≠ 0 ∧ allocs = [.dma_alloc_attrs s r h] ∧
          ∃ p1, (pil_alloc_region A env desc priv min_addr max_addr align w).priv = some p1 ∧
            p1.region = r ∧ p1.region_size = s ∧ p1.region_start = h)) := by
  by_cases hreg : priv.region = 0
  · have hb : (priv.region != 0) = false := by simp [hreg]
    simp only [pil_alloc_region, hb, Bool.false_eq_true, if_false]
    generalize hsz : (if align > SZ_4M then
        ALIGN A.longBits (wrap A.longBits (wrap A.physBits ((max_addr : Int) - min_addr))) SZ_4M
      else ALIGN A.longBits (wrap A.longBits (wrap A.physBits ((max_addr : Int) - min_addr)))
        SZ_1M) = aligned
    by_cases hr : (env.dma_alloc_attrs aligned priv.region_start).1 = 0
    · have hb1 : ((env.dma_alloc_attrs aligned priv.region_start).1 == 0) = true := by
        simp [hr]
      simp only [hb1, if_true]
      refine ⟨[.dma_alloc_attrs aligned (env.dma_alloc_attrs aligned priv.region_start).1
        (env.dma_alloc_attrs aligned priv.region_start).2], ?_,
        Or.inr (Or.inl ⟨hreg, aligned, (env.dma_alloc_attrs aligned priv.region_start).2,
          ?_, ?_, ?_⟩)⟩
      · split_ifs <;> rfl
      · rw [hr]
      · split_ifs <;> simp [Run.ret, ENOMEM]
      · intro p1 hp1
        split_ifs at hp1
        · cases hp1
        · simp only [Run.priv, Option.some.injEq] at hp1
          rw [← hp1]
          exact hreg
    · have hb1 : ((env.dma_alloc_attrs aligned priv.region_start).1 == 0) = false := by
        simp [hr]
      simp only [hb1, Bool.false_eq_true, if_false]
      exact ⟨_, rfl, Or.inr (Or.inr ⟨hreg, aligned,
        (env.dma_alloc_attrs aligned priv.region_start).1,
        (env.dma_alloc_attrs aligned priv.region_start).2, hr, rfl, _, rfl, rfl, rfl, rfl⟩)⟩
  · have hb : (priv.region != 0) = true := by simp [hreg]
    simp only [pil_alloc_region, hb, if_true]
    refine ⟨[], ?_, Or.inl ⟨rfl, ?_⟩⟩
    · split_ifs <;> simp [Run.world]
    · intro p1 hp1
      split_ifs at hp1 <;> simp only [Run.priv, Option.some.injEq] at hp1 <;> rw [← hp1]

theorem pil_setup_region_info_run (ret : Int) (priv : pil_priv) (w : World) :
    (pil_setup_region_info ret priv w).ret = some ret ∧
      (pil_setup_region_info ret priv w).priv = some priv ∧
      ∀ q : Event → Bool, (∀ e, q e = true → e.is_resource = true) →
        (pil_setup_region_info ret priv w).world.trace.filter q = w.trace.filter q := by
  unfold pil_setup_region_info
  split_ifs
  · exact ⟨rfl, rfl, fun q hq => by
      simp only [Run.world, filter_log_resource q hq, Event.is_resource]⟩
  · exact ⟨rfl, rfl, fun q hq => rfl⟩

/-- What `pil_setup_region` adds to the trace, seen through a filter on the
resource events, and what it leaves in `priv->region`. -/
theorem pil_setup_region_account (A : Arch) (env : Env) (desc : pil_desc) (priv : pil_priv)
    (mdt : pil_mdt) (w : World) :
    ∃ allocs,
      (∀ q : Event → Bool, (∀ e, q e = true → e.is_resource = true) →
        (pil_setup_region A env desc priv mdt w).world.trace.filter q =
          w.trace.filter q ++ (Event.enter_setup_region :: allocs).filter q) ∧
      ((allocs = [] ∧
          ∀ p1, (pil_setup_region A env desc priv mdt w).priv = some p1 →
            p1.region = priv.region) ∨
        (priv.region = 0 ∧ ∃ s h, allocs = [.dma_alloc_attrs s 0 h] ∧
          (pil_setup_region A env desc priv mdt w).ret ≠ some 0 ∧
          ∀ p1, (pil_setup_region A env desc priv mdt w).priv = some p1 → p1.region = 0) ∨
        (priv.region = 0 ∧ ∃ s r h, r ≠ 0 ∧ allocs = [.dma_alloc_attrs s r h] ∧
          ∃ p1, (pil_setup_region A env desc priv mdt w).priv = some p1 ∧
            p1.region = r ∧ p1.region_size = s ∧ p1.region_start = h)) := by
  simp only [pil_setup_region]
  split_ifs
  · obtain ⟨allocs, htr, hcase⟩ := pil_alloc_region_account A env desc priv
      (pil_setup_region_limits A mdt).min_addr_r
      (ALIGN A.physBits (pil_setup_region_limits A mdt).max_addr_r SZ_4K)
      (pil_setup_region_limits A mdt).align (w.log .enter_setup_region)
    refine ⟨allocs, ?_, ?_⟩
    · intro q hq
      cases hrun : pil_alloc_region A env desc priv (pil_setup_region_limits A mdt).min_addr_r
        (ALIGN A.physBits (pil_setup_region_limits A mdt).max_addr_r SZ_4K)
        (pil_setup_region_limits A mdt).align (w.log .enter_setup_region) with
      | bug w1 =>
        rw [hrun] at htr
        simp only [Run.world] at htr ⊢
        rw [htr]
        simp [World.log, List.filter_append]
      | done r p1 w1 =>
        rw [hrun] at htr
        simp only [Run.world] at htr
        simp only
        rw [(pil_setup_region_info_run r p1 w1).2.2 q hq, htr]
        simp [World.log, List.filter_append]
    · cases hrun : pil_alloc_region A env desc priv (pil_setup_region_limits A mdt).min_addr_r
        (ALIGN A.physBits (pil_setup_region_limits A mdt).max_addr_r SZ_4K)
        (pil_setup_region_limits A mdt).align (w.log .enter_setup_region) with
      | bug w1 =>
        rw [hrun] at hcase
        simpa [Run.priv, Run.ret] using hcase
      | done r p1 w1 =>
        rw [hrun] at hcase
        simp only
        rw [(pil_setup_region_info_run r p1 w1).1, (pil_setup_region_info_run r p1 w1).2.1]
        exact hcase
  · refine ⟨[], ?_, Or.inl ⟨rfl, ?_⟩⟩
    · intro q hq
      rw [(pil_setup_region_info_run _ _ _).2.2 q hq]
      simp [World.log, List.filter_append]
    · intro p1 hp1
      rw [(pil_setup_region_info_run _ _ _).2.1] at hp1
      simp only [Option.some.injEq] at hp1
      rw [← hp1]

/-- The function `pil_init_mmap` returns with the world of `pil_setup_region` and, after a
planning error, with its code; the region fields are those planning left. -/
theorem pil_init_mmap_region (A : Arch) (env : Env) (desc : pil_desc) (priv : pil_priv)
    (mdt : pil_mdt) (w : World) (ret : Int) (p : pil_priv) (w' : World)
    (h : pil_init_mmap A env desc priv mdt w = .done ret p w') :
    ∃ r1 p1, pil_setup_region A env desc priv mdt w = .done r1 p1 w' ∧
      p.region = p1.region ∧ p.region_size = p1.region_size ∧
      p.region_start = p1.region_start ∧ (r1 ≠ 0 → ret = r1) := by
  simp only [pil_init_mmap] at h
  split at h
  · cases h
  · rename_i r1 p1 w1 hs
    refine ⟨r1, p1, ?_⟩
    split_ifs at h with h1 h2
    · cases h
      exact ⟨hs, rfl, rfl, rfl, fun _ => rfl⟩
    · cases h
      exact ⟨hs, rfl, rfl, rfl, fun hne => absurd (by simpa using hne) h1⟩
    · have h3 : r1 = 0 := by simpa using h1
      simp only [Run.done.injEq] at h
      obtain ⟨_, hp, hw⟩ := h
      subst hw
      refine ⟨hs, ?_, ?_, ?_, fun hne => absurd h3 hne⟩
      all_goals
        rw [← hp]
        simp only [pil_init_entry_addr]
        split_ifs <;> rfl


/-! ## The ways through `pil_boot` -/

theorem filter_of_resource (q : Event → Bool) (hq : ∀ e, q e = true → e.is_resource = true)
    (l : List Event) : (l.filter Event.is_resource).filter q = l.filter q := by
  rw [List.filter_filter]
  congr 1
  funext e
  cases hqe : q e with
  | false => simp
  | true => simp [hq e hqe]

/-- The function `pil_boot` from the label `out` with a nonzero code: the region, when one
is held, is freed and forgotten, and the segment list is emptied. -/
theorem pil_boot_out_error (priv : pil_priv) (w : World) (ret : Int) (hret : ret ≠ 0) :
    ∃ p' w', pil_boot_out priv w ret = .done ret p' w' ∧ p'.region = 0 ∧ p'.segs = [] ∧
      w'.trace.filter Event.is_resource = w.trace.filter Event.is_resource ++
        (if priv.region ≠ 0 then
          [.dma_free_attrs priv.region_size priv.region priv.region_start] else []) := by
  have hb : (ret != 0) = true := by simpa using hret
  by_cases hreg : priv.region = 0
  · have hb2 : (priv.region != 0) = false := by simp [hreg]
    rw [if_neg (not_not.mpr hreg)]
    simp only [pil_boot_out, hb, if_true, pil_release_mmap, hb2, Bool.false_eq_true, if_false]
    refine ⟨_, _, rfl, hreg, rfl, ?_⟩
    split_ifs <;> simp [World.log, List.filter_append, Event.is_resource]
  · have hb2 : (priv.region != 0) = true := by simp [hreg]
    rw [if_pos hreg]
    simp only [pil_boot_out, hb, if_true, pil_release_mmap, hb2]
    refine ⟨_, _, rfl, rfl, rfl, ?_⟩
    split_ifs <;> simp [World.log, List.filter_append, Event.is_resource]

/-- The function `pil_boot` from the label `release_fw` with a nonzero code: the header
blob is released, then as from `out`. -/
theorem pil_boot_release_fw_error (priv : pil_priv) (w : World) (ret : Int) (hret : ret ≠ 0) :
    ∃ p' w', pil_boot_release_fw priv w ret = .done ret p' w' ∧ p'.region = 0 ∧
      p'.segs = [] ∧
      w'.trace.filter Event.is_resource = w.trace.filter Event.is_resource ++
        Event.release_firmware ::
          (if priv.region ≠ 0 then
            [.dma_free_attrs priv.region_size priv.region priv.region_start] else []) := by
  obtain ⟨p', w', h1, h2, h3, h4⟩ := pil_boot_out_error priv (w.log .release_firmware) ret hret
  refine ⟨p', w', h1, h2, h3, ?_⟩
  rw [h4]
  simp [World.log, List.filter_append, Event.is_resource]

/-- The function `pil_boot` after the header checks either stops in `BUG_ON` inside
`pil_init_mmap`, or reaches the label `release_fw` with the region fields
`pil_init_mmap` left, after calls that acquire and release nothing. -/
theorem pil_boot_image_cases (A : Arch) (env : Env) (desc : pil_desc) (priv : pil_priv)
    (mdt : pil_mdt) (w : World) :
    (∃ w1, pil_init_mmap A env desc priv mdt (w.log .init_dma_attrs) = .bug w1 ∧
        pil_boot_image A env desc priv mdt w = .bug w1) ∨
      (∃ r1 p1 w1 p2 w2 ret,
        pil_init_mmap A env desc priv mdt (w.log .init_dma_attrs) = .done r1 p1 w1 ∧
        pil_boot_image A env desc priv mdt w = pil_boot_release_fw p2 w2 ret ∧
        (r1 ≠ 0 → ret = r1) ∧
        p2.region = p1.region ∧ p2.region_size = p1.region_size ∧
        p2.region_start = p1.region_start ∧
        w2.trace.filter Event.is_resource = w1.trace.filter Event.is_resource) := by
  simp only [pil_boot_image]
  cases hrun : pil_init_mmap A env desc priv mdt (w.log .init_dma_attrs) with
  | bug w1 => exact Or.inl ⟨w1, rfl, rfl⟩
  | done r1 p1 w1 =>
    right
    simp only
    split_ifs with h1 h2
    · exact ⟨r1, p1, w1, p1, w1, r1, rfl, rfl, fun _ => rfl, rfl, rfl, rfl, rfl⟩
    · have h0 : r1 = 0 := by simpa using h1
      exact ⟨r1, p1, w1, _, _, _, rfl, rfl, fun h => absurd h0 h, rfl, rfl, rfl,
        pil_proxy_vote_filter Event.is_resource (fun _ h => h) desc w1⟩
    · have h0 : r1 = 0 := by simpa using h1
      obtain ⟨w', ret, h3, h4⟩ := pil_boot_hooks_out Event.is_resource (fun _ h => h) A env desc
        { p1 with unvoted_flag := 0 } (pil_proxy_vote desc w1).2
      exact ⟨r1, p1, w1, _, w', ret, rfl, h3, fun h => absurd h0 h, rfl, rfl, rfl, by
        rw [h4]; exact pil_proxy_vote_filter Event.is_resource (fun _ h => h) desc w1⟩


/-! ## Zeroing the trailing memory -/

theorem zero_mapped_eq_zero (m : Mem) (paddr buf0 : Nat) (p : Int) (n : Nat) (a : Nat)
    (h : m a = 0 ∨ (p ≤ (a : Int) - paddr + buf0 ∧ (a : Int) - paddr + buf0 < p + n)) :
    zero_mapped m paddr buf0 p n a = 0 := by
  unfold zero_mapped
  split_ifs with hc
  · rfl
  · rcases h with h | h
    · exact h
    · exact absurd h hc

/-- One pass of the zeroing loop leaves zero every byte of its window, and
every byte that was zero before. -/
theorem pil_load_seg_window_mem (A : Arch) (paddr buf0 : Nat) (size : Int) (w : World)
    (hs : 0 < size) (hs2 : size ≤ 1048576) (a : Nat)
    (ha : w.mem a = 0 ∨ (paddr ≤ a ∧ (a : Int) < paddr + size)) :
    (pil_load_seg_window A paddr buf0 size w).mem a = 0 := by
  have hl := two_pow_longBits_ge A
  by_cases hb : buf0 % 8 = 0
  · -- the buffer is aligned
    have hbb : (buf0 % 8 != 0) = false := by simp [hb]
    by_cases hsz : size % 8 = 0
    · have hab : (size % 8 != 0) = false := by simp [hsz]
      simp only [pil_load_seg_window, hbb, hab, Bool.false_eq_true, if_false, World.log, memset]
      apply zero_mapped_eq_zero
      have hw := wrap_of_nonneg_lt A.longBits size (by omega) (by omega)
      rcases ha with ha | ha
      · exact Or.inl ha
      · right; omega
    · have hab : (size % 8 != 0) = true := by simp [hsz]
      simp only [pil_load_seg_window, hbb, hab, Bool.false_eq_true, if_false, if_true, World.log,
        memset, memset_io]
      have hw := wrap_of_nonneg_lt A.longBits (size - ((size % 8).toNat : Int)) (by omega)
        (by omega)
      apply zero_mapped_eq_zero
      by_cases hmid : (a : Int) - paddr + buf0 < (buf0 : Int) + (size - ((size % 8).toNat : Int))
      · rcases ha with ha | ha
        · left; exact zero_mapped_eq_zero _ _ _ _ _ _ (Or.inl ha)
        · right; omega
      · left
        apply zero_mapped_eq_zero
        rcases ha with ha | ha
        · exact Or.inl ha
        · right; omega
  · -- the buffer is not aligned: the first fringe ends at the next multiple of 8
    have hbb : (buf0 % 8 != 0) = true := by simp [hb]
    have hbefore : ((8 - buf0 % 8 : Nat) : Int) = 8 - (buf0 : Int) % 8 := by omega
    by_cases hfirst : (a : Int) - paddr + buf0 < (buf0 : Int) + ((8 - buf0 % 8 : Nat) : Int) ∨
        w.mem a = 0
    · -- the byte lies in the first fringe, or was zero: later writes keep it zero
      have h1 : (memset_io paddr buf0 buf0 (8 - buf0 % 8) w).mem a = 0 := by
        simp only [memset_io]
        apply zero_mapped_eq_zero
        rcases ha with ha | ha
        · exact Or.inl ha
        · rcases hfirst with hf | hf
          · right; omega
          · exact Or.inl hf
      simp only [pil_load_seg_window, hbb, if_true, World.log, memset]
      apply zero_mapped_eq_zero
      left
      split_ifs
      · simp only [memset_io] at h1 ⊢
        exact zero_mapped_eq_zero _ _ _ _ _ _ (Or.inl h1)
      · exact h1
    · -- the byte lies beyond the first fringe, so the window is longer than it
      have hin : (paddr ≤ a ∧ (a : Int) < paddr + size) := by
        rcases ha with ha | ha
        · exact absurd (Or.inr ha) hfirst
        · exact ha
      have hlong : (a : Int) - paddr + buf0 ≥ (buf0 : Int) + ((8 - buf0 % 8 : Nat) : Int) := by
        by_contra hc
        exact hfirst (Or.inl (by omega))
      by_cases hsz : (size - ((8 - buf0 % 8 : Nat) : Int)) % 8 = 0
      · have hab : ((size - ((8 - buf0 % 8 : Nat) : Int)) % 8 != 0) = false := by simp [hsz]
        simp only [pil_load_seg_window, hbb, hab, Bool.false_eq_true, if_false, if_true,
          World.log, memset]
        have hw := wrap_of_nonneg_lt A.longBits (size - ((8 - buf0 % 8 : Nat) : Int))
          (by omega) (by omega)
        apply zero_mapped_eq_zero
        right; omega
      · have hab : ((size - ((8 - buf0 % 8 : Nat) : Int)) % 8 != 0) = true := by simp [hsz]
        simp only [pil_load_seg_window, hbb, hab, if_true, World.log, memset, memset_io]
        have hw := wrap_of_nonneg_lt A.longBits
          (size - ((8 - buf0 % 8 : Nat) : Int) -
            (((size - ((8 - buf0 % 8 : Nat) : Int)) % 8).toNat : Int))
          (by omega) (by omega)
        apply zero_mapped_eq_zero
        by_cases hmid : (a : Int) - paddr + buf0 <
            (buf0 : Int) + ((8 - buf0 % 8 : Nat) : Int) +
              (size - ((8 - buf0 % 8 : Nat) : Int) -
                (((size - ((8 - buf0 % 8 : Nat) : Int)) % 8).toNat : Int))
        · right; omega
        · left
          apply zero_mapped_eq_zero
          right; omega

/-- The zeroing loop, when every mapping succeeds, returns 0 and leaves zero
every byte of the `count` bytes from `paddr`, and every byte that was zero
before. -/
theorem pil_load_seg_zero_mem (A : Arch) (env : Env) (hmap : ∀ p s, env.map_fw_mem p s ≠ 0) :
    ∀ (fuel paddr : Nat) (count : Int) (h : count ≤ fuel) (w : World),
      (paddr : Int) + count ≤ (2 : Int) ^ A.physBits →
      (pil_load_seg_zero A env fuel paddr count h w).1 = 0 ∧
      ∀ a : Nat, (w.mem a = 0 ∨ (paddr ≤ a ∧ (a : Int) < paddr + count)) →
        (pil_load_seg_zero A env fuel paddr count h w).2.mem a = 0 := by
  intro fuel
  induction fuel with
  | zero =>
    intro paddr count h w _
    refine ⟨rfl, fun a ha => ?_⟩
    simp only [pil_load_seg_zero]
    rcases ha with ha | ha
    · exact ha
    · simp only [Nat.cast_zero] at h
      omega
  | succ fuel ih =>
    intro paddr count h w hfit
    unfold pil_load_seg_zero
    by_cases hc : count > 0
    · rw [dif_pos hc]
      have hb : (env.map_fw_mem paddr (min (IOMAP_SIZE : Int) count) == 0) = false := by
        simpa using hmap paddr (min (IOMAP_SIZE : Int) count)
      simp only [hb, Bool.false_eq_true, if_false]
      have hsize : 0 < min (IOMAP_SIZE : Int) count ∧ min (IOMAP_SIZE : Int) count ≤ 1048576 ∧
          min (IOMAP_SIZE : Int) count ≤ count := by
        simp only [IOMAP_SIZE, SZ_1M]
        omega
      set size := min (IOMAP_SIZE : Int) count with hsz
      have hnext : (((paddr + size.toNat) % 2 ^ A.physBits : Nat) : Int) + (count - size) ≤
          (2 : Int) ^ A.physBits ∧
          (0 < count - size →
            (((paddr + size.toNat) % 2 ^ A.physBits : Nat) : Int) = paddr + size) := by
        cases A <;> simp only [Arch.physBits] at hfit ⊢ <;> norm_num at hfit ⊢ <;> omega
      obtain ⟨ih1, ih2⟩ := ih ((paddr + size.toNat) % 2 ^ A.physBits) (count - size)
        (by push_cast at h; omega)
        (pil_load_seg_window A paddr (env.map_fw_mem paddr size) size
          (w.log (.map_fw_mem paddr size))) hnext.1
      refine ⟨ih1, fun a ha => ih2 a ?_⟩
      by_cases hwin : w.mem a = 0 ∨ (paddr ≤ a ∧ (a : Int) < paddr + size)
      · left
        exact pil_load_seg_window_mem A paddr _ size _ hsize.1 hsize.2.1 a hwin
      · right
        have hin : paddr ≤ a ∧ (a : Int) < paddr + count := by
          rcases ha with ha | ha
          · exact absurd (Or.inl ha) hwin
          · exact ha
        have hpos : 0 < count - size := by
          by_contra hcon
          exact hwin (Or.inr ⟨hin.1, by omega⟩)
        have hP := hnext.2 hpos
        constructor
        · have : ((paddr : Int) + size) ≤ a := by
            by_contra hcon
            exact hwin (Or.inr ⟨hin.1, by omega⟩)
          omega
        · omega
    · rw [dif_neg hc]
      refine ⟨rfl, fun a ha => ?_⟩
      rcases ha with ha | ha
      · exact ha
      · omega

theorem to_int_of_small (x : Int) (h0 : 0 ≤ x) (h1 : x < 2147483648) : to_int x = x := by
  unfold to_int
  have : x % 4294967296 = x := Int.emod_eq_of_lt h0 (by omega)
  rw [this, if_neg (by omega)]

theorem pil_load_seg_count_eq (A : Arch) (seg : pil_seg) (hd : seg.filesz ≤ seg.sz)
    (hsmall : seg.sz - seg.filesz < 2 ^ 31) :
    pil_load_seg_count A seg = (seg.sz : Int) - seg.filesz := by
  have hl := two_pow_longBits_ge A
  unfold pil_load_seg_count
  rw [wrap_of_nonneg_lt A.longBits _ (by omega) (by omega)]
  exact to_int_of_small _ (by omega) (by omega)

theorem pil_load_seg_verify_mem (desc : pil_desc) (seg : pil_seg) (w : World) :
    (pil_load_seg_verify desc seg w).2.mem = w.mem := by
  unfold pil_load_seg_verify
  cases desc.ops.verify_blob <;> rfl

/-- The trailing part of `pil_load_seg` zeroes `[paddr + filesz, paddr + sz)`
when the difference of the sizes fits an `int` and every mapping succeeds. -/
theorem pil_load_seg_trailing_mem (A : Arch) (env : Env) (desc : pil_desc) (seg : pil_seg)
    (w : World) (hd : seg.filesz ≤ seg.sz) (hsmall : seg.sz - seg.filesz < 2 ^ 31)
    (hfit : seg.paddr + seg.sz ≤ 2 ^ A.physBits) (hmap : ∀ p s, env.map_fw_mem p s ≠ 0)
    (a : Nat) (h1 : seg.paddr + seg.filesz ≤ a) (h2 : a < seg.paddr + seg.sz) :
    (pil_load_seg_trailing A env desc seg w).2.mem a = 0 := by
  have hcount := pil_load_seg_count_eq A seg hd hsmall
  have hstart : ((seg.paddr + seg.filesz) % 2 ^ A.physBits : Nat) = seg.paddr + seg.filesz ∨
      seg.filesz = seg.sz := by
    by_cases heq : seg.filesz = seg.sz
    · exact Or.inr heq
    · exact Or.inl (Nat.mod_eq_of_lt (by omega))
  rcases hstart with hstart | hstart
  · have hfit' : (((seg.paddr + seg.filesz) % 2 ^ A.physBits : Nat) : Int) +
        pil_load_seg_count A seg ≤ (2 : Int) ^ A.physBits := by
      rw [hstart, hcount]
      have : ((seg.paddr + seg.sz : Nat) : Int) ≤ ((2 ^ A.physBits : Nat) : Int) := by
        exact_mod_cast hfit
      push_cast at this ⊢
      omega
    obtain ⟨hz1, hz2⟩ := pil_load_seg_zero_mem A env hmap (pil_load_seg_count A seg).toNat
      ((seg.paddr + seg.filesz) % 2 ^ A.physBits) (pil_load_seg_count A seg)
      (Int.self_le_toNat _) w hfit'
    have hza := hz2 a (Or.inr ⟨by rw [hstart]; exact h1, by rw [hstart, hcount]; omega⟩)
    simp only [pil_load_seg_trailing]
    split_ifs
    · exact hza
    · rw [pil_load_seg_verify_mem]
      exact hza
  · omega

/-- For a segment whose trailing part is shorter than 2 GiB, `pil_load_seg`
leaves every byte of `[paddr + filesz, paddr + sz)` zero when the blob fetch
returns `filesz` and every mapping succeeds, whatever the alignment of the
mapped buffers. -/
theorem pil_load_seg_zero_fill (A : Arch) (env : Env) (desc : pil_desc) (seg : pil_seg)
    (w : World) (hd : seg.filesz < seg.sz) (hsmall : seg.sz - seg.filesz < 2 ^ 31)
    (hfit : seg.paddr + seg.sz ≤ 2 ^ A.physBits)
    (hfetch : seg.filesz ≠ 0 →
      env.request_firmware_direct seg.num seg.paddr seg.filesz = seg.filesz)
    (hlong : seg.filesz < 2 ^ A.longBits)
    (hmap : ∀ p s, env.map_fw_mem p s ≠ 0)
    (a : Nat) (h1 : seg.paddr + seg.filesz ≤ a) (h2 : a < seg.paddr + seg.sz) :
    (pil_load_seg A env desc seg w).2.mem a = 0 := by
  simp only [pil_load_seg]
  split_ifs with h3 h4 h5
  · rw [hfetch (by simpa using h3)] at h4
    omega
  · rw [hfetch (by simpa using h3)] at h5
    have hw : wrap A.longBits (seg.filesz : Int) = seg.filesz := by
      have := wrap_of_nonneg_lt A.longBits (seg.filesz : Int) (by omega)
        (by exact_mod_cast hlong)
      exact_mod_cast this
    rw [hw] at h5
    simp at h5
  · exact pil_load_seg_trailing_mem A env desc seg _ (by omega) hsmall hfit hmap a h1 h2
  · exact pil_load_seg_trailing_mem A env desc seg _ (by omega) hsmall hfit hmap a h1 h2

theorem pil_load_seg_zero_fill_witness :
    (pil_load_seg .arm (ex_env (ex_fw 0x10 ex_phdrs_tie)) ex_desc
      { paddr := 0x90000001, sz := 0x1000, filesz := 0x600, num := 1, relocated := true }
      ex_world).2.mem 0x90000601 = 0 :=
  pil_load_seg_zero_fill .arm (ex_env (ex_fw 0x10 ex_phdrs_tie)) ex_desc
    { paddr := 0x90000001, sz := 0x1000, filesz := 0x600, num := 1, relocated := true }
    ex_world (by decide) (by decide) (by decide) (fun _ => rfl) (by decide)
    (fun p s => by simp [ex_env]) 0x90000601 (by decide) (by decide)


/-! ## A freshly allocated region holds the relocated segments -/

theorem pil_init_entry_addr_frame (A : Arch) (desc : pil_desc) (priv : pil_priv)
    (mdt : pil_mdt) :
    (pil_init_entry_addr A desc priv mdt).2.region_start = priv.region_start ∧
      (pil_init_entry_addr A desc priv mdt).2.region_end = priv.region_end ∧
      (pil_init_entry_addr A desc priv mdt).2.base_addr = priv.base_addr ∧
      (pil_init_entry_addr A desc priv mdt).2.region = priv.region ∧
      (pil_init_entry_addr A desc priv mdt).2.region_size = priv.region_size := by
  simp only [pil_init_entry_addr]
  split_ifs <;> exact ⟨rfl, rfl, rfl, rfl, rfl⟩

/-- The state a successful fresh allocation leaves. -/
theorem pil_alloc_region_fresh (A : Arch) (env : Env) (desc : pil_desc) (priv : pil_priv)
    (min_addr max_addr align : Nat) (w : World) (p1 : pil_priv) (w1 : World)
    (hreg : priv.region = 0)
    (h : pil_alloc_region A env desc priv min_addr max_addr align w = .done 0 p1 w1) :
    ∃ aligned,
      (aligned = ALIGN A.longBits
          (wrap A.longBits (wrap A.physBits ((max_addr : Int) - min_addr))) SZ_4M ∨
        aligned = ALIGN A.longBits
          (wrap A.longBits (wrap A.physBits ((max_addr : Int) - min_addr))) SZ_1M) ∧
      p1.region_start = (env.dma_alloc_attrs aligned priv.region_start).2 ∧
      p1.region_end = (p1.region_start +
        wrap A.longBits (wrap A.physBits ((max_addr : Int) - min_addr))) % 2 ^ A.physBits ∧
      p1.base_addr = min_addr ∧ p1.region_size = aligned := by
  have hb : (priv.region != 0) = false := by simp [hreg]
  simp only [pil_alloc_region, hb, Bool.false_eq_true, if_false] at h
  have hal : (if align > SZ_4M then
        ALIGN A.longBits (wrap A.longBits (wrap A.physBits ((max_addr : Int) - min_addr))) SZ_4M
      else ALIGN A.longBits (wrap A.longBits (wrap A.physBits ((max_addr : Int) - min_addr)))
        SZ_1M) =
        ALIGN A.longBits
          (wrap A.longBits (wrap A.physBits ((max_addr : Int) - min_addr))) SZ_4M ∨
      (if align > SZ_4M then
        ALIGN A.longBits (wrap A.longBits (wrap A.physBits ((max_addr : Int) - min_addr))) SZ_4M
      else ALIGN A.longBits (wrap A.longBits (wrap A.physBits ((max_addr : Int) - min_addr)))
        SZ_1M) =
        ALIGN A.longBits
          (wrap A.longBits (wrap A.physBits ((max_addr : Int) - min_addr))) SZ_1M := by
    by_cases h4 : align > SZ_4M
    · exact Or.inl (if_pos h4)
    · exact Or.inr (if_neg h4)
  generalize (if align > SZ_4M then
      ALIGN A.longBits (wrap A.longBits (wrap A.physBits ((max_addr : Int) - min_addr))) SZ_4M
    else ALIGN A.longBits (wrap A.longBits (wrap A.physBits ((max_addr : Int) - min_addr)))
      SZ_1M) = aligned at h hal
  by_cases hr : (env.dma_alloc_attrs aligned priv.region_start).1 = 0
  · have hb1 : ((env.dma_alloc_attrs aligned priv.region_start).1 == 0) = true := by
      simp [hr]
    simp only [hb1, if_true] at h
    split_ifs at h
    simp only [Run.done.injEq] at h
    have h0 := h.1
    simp [ENOMEM] at h0
  · have hb1 : ((env.dma_alloc_attrs aligned priv.region_start).1 == 0) = false := by
      simp [hr]
    simp only [hb1, Bool.false_eq_true, if_false, Run.done.injEq, true_and] at h
    obtain ⟨hp, _⟩ := h
    subst hp
    exact ⟨aligned, hal, rfl, rfl, rfl, rfl⟩

theorem pil_setup_region_relocatable (A : Arch) (env : Env) (desc : pil_desc)
    (priv : pil_priv) (mdt : pil_mdt) (w : World) (ret : Int) (p1 : pil_priv) (w1 : World)
    (hrel : (pil_setup_region_limits A mdt).relocatable = true)
    (h : pil_setup_region A env desc priv mdt w = .done ret p1 w1) :
    ∃ w', pil_alloc_region A env desc priv (pil_setup_region_limits A mdt).min_addr_r
      (ALIGN A.physBits (pil_setup_region_limits A mdt).max_addr_r SZ_4K)
      (pil_setup_region_limits A mdt).align (w.log .enter_setup_region) = .done ret p1 w' := by
  simp only [pil_setup_region, hrel, if_true] at h
  split at h
  · cases h
  · rename_i r p2 w2 ha
    have hi := pil_setup_region_info_run r p2 w2
    have h1 : (pil_setup_region_info r p2 w2).ret = some ret := by rw [h]; rfl
    have h2 : (pil_setup_region_info r p2 w2).priv = some p1 := by rw [h]; rfl
    rw [hi.1] at h1
    rw [hi.2.1] at h2
    simp only [Option.some.injEq] at h1 h2
    subst h1; subst h2
    exact ⟨w2, ha⟩

theorem forall₂_exists_left {α β : Type} (R : α → β → Prop) (l1 : List α) (l2 : List β)
    (h : List.Forall₂ R l1 l2) : ∀ b, b ∈ l2 → ∃ a, a ∈ l1 ∧ R a b := by
  induction h with
  | nil => intro b hb; cases hb
  | cons hab _ ih =>
    intro b hb
    rcases List.mem_cons.mp hb with rfl | hb
    · exact ⟨_, List.mem_cons_self _ _, hab⟩
    · obtain ⟨a, ha, hr⟩ := ih b hb
      exact ⟨a, List.mem_cons_of_mem _ ha, hr⟩

/-- The arithmetic of a fresh region: with every relocatable end below 2 GiB
and the allocated block inside the address space, nothing wraps. -/
theorem fresh_region_arith (A : Arch) (min_r max_r start memsz padd aligned : Nat)
    (h1 : min_r ≤ padd) (h2 : padd + memsz ≤ max_r) (h3 : max_r < 2 ^ 31)
    (hal : aligned = ALIGN A.longBits
        (wrap A.longBits (wrap A.physBits ((ALIGN A.physBits max_r SZ_4K : Nat) - (min_r : Int))))
        SZ_4M ∨
      aligned = ALIGN A.longBits
        (wrap A.longBits (wrap A.physBits ((ALIGN A.physBits max_r SZ_4K : Nat) - (min_r : Int))))
        SZ_1M)
    (h4 : start + aligned < 2 ^ A.physBits) :
    start ≤ wrap A.physBits ((padd : Int) - min_r + start) ∧
      wrap A.physBits ((padd : Int) - min_r + start) + memsz ≤
        (start + wrap A.longBits
          (wrap A.physBits ((ALIGN A.physBits max_r SZ_4K : Nat) - (min_r : Int)))) %
          2 ^ A.physBits := by
  have hM : ALIGN A.physBits max_r SZ_4K = (max_r + 4095) / 4096 * 4096 := by
    unfold ALIGN SZ_4K
    apply Nat.mod_eq_of_lt
    cases A <;> simp only [Arch.physBits] <;> omega
  rw [hM] at hal ⊢
  have hsize : wrap A.longBits
      (wrap A.physBits ((((max_r + 4095) / 4096 * 4096 : Nat) : Int) - (min_r : Int))) =
      (max_r + 4095) / 4096 * 4096 - min_r := by
    have e1 := wrap_of_nonneg_lt A.physBits
      ((((max_r + 4095) / 4096 * 4096 : Nat) : Int) - (min_r : Int)) (by omega)
      (by cases A <;> simp only [Arch.physBits] <;> norm_num <;> omega)
    rw [e1]
    have e2 := wrap_of_nonneg_lt A.longBits
      ((((max_r + 4095) / 4096 * 4096 : Nat) : Int) - (min_r : Int)) (by omega)
      (by cases A <;> simp only [Arch.longBits] <;> norm_num <;> omega)
    omega
  rw [hsize] at hal ⊢
  have haligned : (max_r + 4095) / 4096 * 4096 - min_r ≤ aligned := by
    rcases hal with h | h
    · rw [h]
      unfold ALIGN SZ_4M
      rw [Nat.mod_eq_of_lt (by cases A <;> simp only [Arch.longBits] <;> omega)]
      omega
    · rw [h]
      unfold ALIGN SZ_1M
      rw [Nat.mod_eq_of_lt (by cases A <;> simp only [Arch.longBits] <;> omega)]
      omega
  have hend : (start + ((max_r + 4095) / 4096 * 4096 - min_r)) % 2 ^ A.physBits =
      start + ((max_r + 4095) / 4096 * 4096 - min_r) := Nat.mod_eq_of_lt (by omega)
  rw [hend]
  have hpad := wrap_of_nonneg_lt A.physBits ((padd : Int) - min_r + start) (by omega)
    (by
      have : ((start + aligned : Nat) : Int) < ((2 ^ A.physBits : Nat) : Int) := by
        exact_mod_cast h4
      push_cast at this
      omega)
  omega

/-- After a successful `pil_init_mmap` that allocated the region afresh, every
relocated segment lies inside the region, provided every relocatable loadable
entry ends below 2 GiB and the allocated block `[region_start, region_start +
region_size)` ends inside the physical address space. -/
theorem pil_init_mmap_fresh_inside (A : Arch) (env : Env) (desc : pil_desc) (priv : pil_priv)
    (mdt : pil_mdt) (w : World) (p' : pil_priv)
    (hreg : priv.region = 0) (hempty : priv.segs = [])
    (hfits : ∀ i, i < mdt.hdr.e_phnum → (mdt.phdr i).fits)
    (hlow : ∀ i, i < mdt.hdr.e_phnum → in_class mdt true i →
      (mdt.phdr i).p_paddr + (mdt.phdr i).p_memsz < 2 ^ 31)
    (hret : (pil_init_mmap A env desc priv mdt w).ret = some 0)
    (hp : (pil_init_mmap A env desc priv mdt w).priv = some p')
    (halloc : p'.region_start + p'.region_size < 2 ^ A.physBits) :
    ∀ seg, seg ∈ p'.segs → seg.relocated = true →
      p'.region_start ≤ seg.paddr ∧ seg.paddr + seg.sz ≤ p'.region_end := by
  intro seg hseg hrelo
  obtain ⟨p1, w1, l, hsetup, hl, hsegs, hentry⟩ := pil_init_mmap_ok A env desc priv mdt w p' hret hp
  rw [hempty, List.nil_append] at hsegs hentry
  -- the segment comes from a relocatable loadable entry
  have hmem : seg ∈ l := by
    rw [hsegs] at hseg
    exact (list_sort_perm pil_cmp_seg l).subset hseg
  obtain ⟨i, hi, hinit⟩ := forall₂_exists_left _ _ _ hl seg hmem
  obtain ⟨hin, hload⟩ := List.mem_filter.mp hi
  have hin := List.mem_range.mp hin
  have hshape : seg.relocated = segment_is_relocatable (mdt.phdr i) ∧ seg.sz = (mdt.phdr i).p_memsz ∧
      seg.paddr = if segment_is_relocatable (mdt.phdr i) then
        pil_reloc A p1 (mdt.phdr i).p_paddr else (mdt.phdr i).p_paddr := by
    simp only [pil_init_seg] at hinit
    split_ifs at hinit <;> cases hinit <;> simp_all
  have hrel : segment_is_relocatable (mdt.phdr i) = true := by rw [← hshape.1]; exact hrelo
  have hcls : in_class mdt true i := ⟨hload, hrel⟩
  -- so planning allocated
  have hLrel : (pil_setup_region_limits A mdt).relocatable = true :=
    (pil_setup_region_loop_relocatable A mdt _).mpr ⟨i, hin, hcls⟩
  obtain ⟨w', halloc'⟩ := pil_setup_region_relocatable A env desc priv mdt w 0 p1 w1 hLrel hsetup
  obtain ⟨aligned, hal, _, hend, hbase, hsize⟩ :=
    pil_alloc_region_fresh A env desc priv _ _ _ _ p1 w' hreg halloc'
  -- the limits
  obtain ⟨hb, hatt, _⟩ := pil_setup_region_loop_limits A mdt true mdt.hdr.e_phnum hfits
  have hpend : ∀ k, k < mdt.hdr.e_phnum → in_class mdt true k →
      phdr_end A (mdt.phdr k) = (mdt.phdr k).p_paddr + (mdt.phdr k).p_memsz := by
    intro k hk hc
    apply phdr_end_eq
    have := hlow k hk hc
    cases A <;> simp only [Arch.physBits] <;> omega
  have hmin : (pil_setup_region_limits A mdt).min_addr_r ≤ (mdt.phdr i).p_paddr :=
    (hb i hin hcls).1
  have hmax : (mdt.phdr i).p_paddr + (mdt.phdr i).p_memsz ≤
      (pil_setup_region_limits A mdt).max_addr_r := by
    rw [← hpend i hin hcls]
    exact (hb i hin hcls).2
  have hmaxlt : (pil_setup_region_limits A mdt).max_addr_r < 2 ^ 31 := by
    obtain ⟨_, ⟨j, hj, hcj, hmj⟩⟩ := hatt ⟨i, hin, hcls⟩
    have hj' : (pil_setup_region_limits A mdt).max_addr_r = phdr_end A (mdt.phdr j) := hmj
    rw [hj', hpend j hj hcj]
    exact hlow j hj hcj
  -- the fields of the final state are those planning left
  have hframe := pil_init_entry_addr_frame A desc
    { p1 with segs := list_sort pil_cmp_seg l } mdt
  rw [hentry] at hframe
  simp only at hframe
  obtain ⟨hf1, hf2, _, _, hf5⟩ := hframe
  rw [hf1, hf5, hsize] at halloc
  rw [hf1, hf2, hshape.2.2, hshape.2.1, hrel, if_pos rfl, hend]
  unfold pil_reloc
  rw [hbase]
  have h4 : p1.region_start + aligned < 2 ^ A.physBits := halloc
  exact fresh_region_arith A _ _ p1.region_start _ _ aligned hmin hmax hmaxlt hal h4

theorem pil_init_mmap_fresh_inside_witness :
    ∀ seg, seg ∈ ex_priv_tie.segs → seg.relocated = true →
      ex_priv_tie.region_start ≤ seg.paddr ∧ seg.paddr + seg.sz ≤ ex_priv_tie.region_end :=
  pil_init_mmap_fresh_inside .arm (ex_env (ex_fw 0x10 ex_phdrs_tie)) ex_desc ex_priv
    (ex_fw 0x10 ex_phdrs_tie).data ex_world ex_priv_tie rfl rfl (by decide) (by decide)
    (by decide) (by decide) (by decide)


/-! ## The built segment list -/

theorem segment_is_loadable_iff (p : elf32_phdr) :
    segment_is_loadable p = true ↔
      p.p_type = PT_LOAD ∧ segment_is_hash p.p_flags = false ∧ p.p_memsz ≠ 0 := by
  simp [segment_is_loadable, and_assoc]

/-- C1: when `pil_init_mmap` starts from an empty segment list and returns 0,
the segment list has as many elements as the table has loadable entries (the
segment numbers are exactly the indices of those entries), is sorted
non-decreasing by `paddr`, and segments with equal `paddr` stand in increasing
`num` order. -/
theorem pil_init_mmap_segs_sorted (A : Arch) (env : Env) (desc : pil_desc) (priv : pil_priv)
    (mdt : pil_mdt) (w : World) (p' : pil_priv)
    (hempty : priv.segs = [])
    (hret : (pil_init_mmap A env desc priv mdt w).ret = some 0)
    (hp : (pil_init_mmap A env desc priv mdt w).priv = some p') :
    p'.segs.length =
        ((List.range mdt.hdr.e_phnum).filter
          (fun i => segment_is_loadable (mdt.phdr i))).length ∧
      (p'.segs.map (fun s => s.num)).Perm
        ((List.range mdt.hdr.e_phnum).filter (fun i => segment_is_loadable (mdt.phdr i))) ∧
      p'.segs.Pairwise (fun a b => a.paddr ≤ b.paddr) ∧
      p'.segs.Pairwise (fun a b => a.paddr = b.paddr → a.num < b.num) := by
  obtain ⟨p1, w1, l, _, hl, hsegs, _⟩ := pil_init_mmap_ok A env desc priv mdt w p' hret hp
  rw [hempty, List.nil_append] at hsegs
  have hnums := forall₂_init_seg_nums A env p1 mdt _ l hl
  have hperm := list_sort_perm pil_cmp_seg l
  have hinc : l.Pairwise (fun x y => x.num < y.num) := by
    have h1 : (l.map (fun s => s.num)).Pairwise (fun x y => x < y) := by
      rw [hnums]
      exact List.Pairwise.filter _ (List.pairwise_lt_range _)
    exact (List.pairwise_map.mp h1)
  have hsorted := list_sort_pairwise l hinc
  rw [hsegs]
  refine ⟨?_, ?_, ?_, ?_⟩
  · rw [hperm.length_eq, ← hnums, List.length_map]
  · rw [← hnums]
    exact hperm.map _
  · exact hsorted.imp (fun h => by omega)
  · exact hsorted.imp (fun h => by omega)

theorem pil_init_mmap_segs_sorted_witness :
    (ex_priv.segs = [] ∧
      (pil_init_mmap .arm (ex_env (ex_fw 0x10 ex_phdrs_tie)) ex_desc ex_priv
        (ex_fw 0x10 ex_phdrs_tie).data ex_world).ret = some 0 ∧
      (pil_init_mmap .arm (ex_env (ex_fw 0x10 ex_phdrs_tie)) ex_desc ex_priv
        (ex_fw 0x10 ex_phdrs_tie).data ex_world).priv = some ex_priv_tie) ∧
    (ex_priv_tie.segs.length =
        ((List.range (ex_fw 0x10 ex_phdrs_tie).data.hdr.e_phnum).filter
          (fun i => segment_is_loadable ((ex_fw 0x10 ex_phdrs_tie).data.phdr i))).length ∧
      (ex_priv_tie.segs.map (fun s => s.num)).Perm
        ((List.range (ex_fw 0x10 ex_phdrs_tie).data.hdr.e_phnum).filter
          (fun i => segment_is_loadable ((ex_fw 0x10 ex_phdrs_tie).data.phdr i))) ∧
      ex_priv_tie.segs.Pairwise (fun a b => a.paddr ≤ b.paddr) ∧
      ex_priv_tie.segs.Pairwise (fun a b => a.paddr = b.paddr → a.num < b.num)) :=
  ⟨⟨rfl, by decide, by decide⟩,
    pil_init_mmap_segs_sorted .arm (ex_env (ex_fw 0x10 ex_phdrs_tie)) ex_desc ex_priv
      (ex_fw 0x10 ex_phdrs_tie).data ex_world ex_priv_tie rfl (by decide) (by decide)⟩


/-! ## Region planning without relocation -/

/-- C2 fails as stated where an end leaves `phys_addr_t`: on 32-bit ARM, for
the fixed entries `[0xfffff000, +0x2000)` and `[0x2000, +0x800)`,
`pil_setup_region` returns 0 with `region_start = 0x2000` and
`region_end = 0x3000`, while the greatest `p_paddr + p_memsz` rounded up to
4 KiB is `0x100001000`, which a 32-bit `phys_addr_t` cannot hold. -/
theorem pil_setup_region_fixed_wraps :
    (∀ i, i < (ex_fw 0x2000 ex_phdrs_wrap).data.hdr.e_phnum →
        ((ex_fw 0x2000 ex_phdrs_wrap).data.phdr i).fits ∧
        (segment_is_loadable ((ex_fw 0x2000 ex_phdrs_wrap).data.phdr i) = true →
          segment_is_relocatable ((ex_fw 0x2000 ex_phdrs_wrap).data.phdr i) = false)) ∧
      (pil_setup_region .arm (ex_env (ex_fw 0x2000 ex_phdrs_wrap)) ex_desc ex_priv
        (ex_fw 0x2000 ex_phdrs_wrap).data ex_world).ret = some 0 ∧
      (pil_setup_region .arm (ex_env (ex_fw 0x2000 ex_phdrs_wrap)) ex_desc ex_priv
        (ex_fw 0x2000 ex_phdrs_wrap).data ex_world).priv.map
          (fun p => (p.region_start, p.region_end)) = some (0x2000, 0x3000) ∧
      ((ex_phdrs_wrap.map (fun p => p.p_paddr + p.p_memsz)).foldl max 0 + 4095) / 4096 * 4096 =
        0x100001000 ∧
      (pil_setup_region .arm (ex_env (ex_fw 0x2000 ex_phdrs_wrap)) ex_desc ex_priv
        (ex_fw 0x2000 ex_phdrs_wrap).data ex_world).priv.map (fun p => p.region_end) ≠
          some (((ex_phdrs_wrap.map (fun p => p.p_paddr + p.p_memsz)).foldl max 0 + 4095) /
            4096 * 4096) := by
  refine ⟨by decide, by decide, by decide, by decide, by decide⟩

/-- C2, amended: when no loadable entry of the table is relocatable,
`pil_setup_region` returns 0 without calling the allocator; `region_start` is
the least `p_paddr` of the loadable entries and `region_end` is the greatest
`p_paddr + p_memsz` of the loadable entries, the sum taken in `phys_addr_t`
(bound `m`), rounded up in `phys_addr_t` to the next multiple of 4 KiB. When
every loadable entry has `p_paddr + p_memsz + 4095 < 2 ^ physBits`, that is
when the rounded end fits `phys_addr_t`, `region_end` is the least multiple of
4 KiB that is at least every `p_paddr + p_memsz`. -/
theorem pil_setup_region_fixed (A : Arch) (env : Env) (desc : pil_desc) (priv : pil_priv)
    (mdt : pil_mdt) (w : World)
    (hfits : ∀ i, i < mdt.hdr.e_phnum → (mdt.phdr i).fits)
    (hfixed : ∀ i, i < mdt.hdr.e_phnum → segment_is_loadable (mdt.phdr i) = true →
      segment_is_relocatable (mdt.phdr i) = false) :
    ∃ p' w' m,
      pil_setup_region A env desc priv mdt w = .done 0 p' w' ∧
      w'.trace.filter Event.is_alloc = w.trace.filter Event.is_alloc ∧
      p'.region = priv.region ∧
      p'.base_addr = p'.region_start ∧
      (∀ i, i < mdt.hdr.e_phnum → segment_is_loadable (mdt.phdr i) = true →
        p'.region_start ≤ (mdt.phdr i).p_paddr ∧ phdr_end A (mdt.phdr i) ≤ m) ∧
      ((∃ i, i < mdt.hdr.e_phnum ∧ segment_is_loadable (mdt.phdr i) = true) →
        (∃ i, i < mdt.hdr.e_phnum ∧ segment_is_loadable (mdt.phdr i) = true ∧
          p'.region_start = (mdt.phdr i).p_paddr) ∧
        (∃ i, i < mdt.hdr.e_phnum ∧ segment_is_loadable (mdt.phdr i) = true ∧
          m = phdr_end A (mdt.phdr i))) ∧
      p'.region_end = ((m + 4095) / 4096 * 4096) % 2 ^ A.physBits ∧
      ((∀ i, i < mdt.hdr.e_phnum → segment_is_loadable (mdt.phdr i) = true →
          (mdt.phdr i).p_paddr + (mdt.phdr i).p_memsz + 4095 < 2 ^ A.physBits) →
        p'.region_end % 4096 = 0 ∧
        (∀ i, i < mdt.hdr.e_phnum → segment_is_loadable (mdt.phdr i) = true →
          (mdt.phdr i).p_paddr + (mdt.phdr i).p_memsz ≤ p'.region_end) ∧
        ((∃ i, i < mdt.hdr.e_phnum ∧ segment_is_loadable (mdt.phdr i) = true) →
          ∃ i, i < mdt.hdr.e_phnum ∧ segment_is_loadable (mdt.phdr i) = true ∧
            p'.region_end < (mdt.phdr i).p_paddr + (mdt.phdr i).p_memsz + 4096)) := by
  have hcls : ∀ i, i < mdt.hdr.e_phnum →
      (in_class mdt false i ↔ segment_is_loadable (mdt.phdr i) = true) := fun i hi =>
    ⟨fun h => h.1, fun h => ⟨h, hfixed i hi h⟩⟩
  have hnorel : (pil_setup_region_limits A mdt).relocatable = false := by
    cases hr : (pil_setup_region_limits A mdt).relocatable with
    | false => rfl
    | true =>
      obtain ⟨i, hi, hl, hrel⟩ := (pil_setup_region_loop_relocatable A mdt _).mp hr
      rw [hfixed i hi hl] at hrel
      cases hrel
  obtain ⟨hb, hatt, _⟩ := pil_setup_region_loop_limits A mdt false mdt.hdr.e_phnum hfits
  have hmin : (pil_setup_region_limits A mdt).min_addr_n =
      (pil_setup_region_loop A mdt mdt.hdr.e_phnum).min_addr false := rfl
  have hmax : (pil_setup_region_limits A mdt).max_addr_n =
      (pil_setup_region_loop A mdt mdt.hdr.e_phnum).max_addr false := rfl
  have hres : ∃ w', pil_setup_region A env desc priv mdt w = .done 0
      { priv with
        region_start := (pil_setup_region_limits A mdt).min_addr_n
        region_end := ALIGN A.physBits (pil_setup_region_limits A mdt).max_addr_n SZ_4K
        base_addr := (pil_setup_region_limits A mdt).min_addr_n } w' ∧
      w'.trace.filter Event.is_alloc = w.trace.filter Event.is_alloc := by
    simp only [pil_setup_region, hnorel, pil_setup_region_info, Bool.false_eq_true, if_false]
    split
    · exact ⟨_, rfl, by simp [World.log, List.filter_append, Event.is_alloc]⟩
    · exact ⟨_, rfl, by simp [World.log, List.filter_append, Event.is_alloc]⟩
  obtain ⟨w', hrun, htrace⟩ := hres
  have hb' : ∀ i, i < mdt.hdr.e_phnum → segment_is_loadable (mdt.phdr i) = true →
      (pil_setup_region_limits A mdt).min_addr_n ≤ (mdt.phdr i).p_paddr ∧
        phdr_end A (mdt.phdr i) ≤ (pil_setup_region_limits A mdt).max_addr_n := fun i hi hl => by
    rw [hmin, hmax]; exact hb i hi ((hcls i hi).mpr hl)
  have hatt' : (∃ i, i < mdt.hdr.e_phnum ∧ segment_is_loadable (mdt.phdr i) = true) →
      (∃ i, i < mdt.hdr.e_phnum ∧ segment_is_loadable (mdt.phdr i) = true ∧
        (pil_setup_region_limits A mdt).min_addr_n = (mdt.phdr i).p_paddr) ∧
      (∃ i, i < mdt.hdr.e_phnum ∧ segment_is_loadable (mdt.phdr i) = true ∧
        (pil_setup_region_limits A mdt).max_addr_n = phdr_end A (mdt.phdr i)) := by
    rintro ⟨i, hi, hl⟩
    obtain ⟨⟨a, ha, hca, hma⟩, ⟨b, hb, hcb, hmb⟩⟩ := hatt ⟨i, hi, (hcls i hi).mpr hl⟩
    exact ⟨⟨a, ha, hca.1, by rw [hmin, hma]⟩, ⟨b, hb, hcb.1, by rw [hmax, hmb]⟩⟩
  refine ⟨_, w', (pil_setup_region_limits A mdt).max_addr_n, hrun, htrace, rfl, rfl, hb', hatt',
    by simp [ALIGN, SZ_4K], ?_⟩
  intro hnowrap
  simp only [ALIGN, SZ_4K]
  by_cases hex : ∃ i, i < mdt.hdr.e_phnum ∧ segment_is_loadable (mdt.phdr i) = true
  · obtain ⟨_, ⟨b, hb1, hbl, hbm⟩⟩ := hatt' hex
    have hbe := phdr_end_eq A (mdt.phdr b) (by have := hnowrap b hb1 hbl; omega)
    have hlt := hnowrap b hb1 hbl
    rw [hbm, hbe]
    have hmod : ((mdt.phdr b).p_paddr + (mdt.phdr b).p_memsz + (4096 - 1)) / 4096 * 4096 %
        2 ^ A.physBits =
        ((mdt.phdr b).p_paddr + (mdt.phdr b).p_memsz + (4096 - 1)) / 4096 * 4096 :=
      Nat.mod_eq_of_lt (by omega)
    rw [hmod]
    refine ⟨by omega, ?_, fun _ => ⟨b, hb1, hbl, by omega⟩⟩
    intro i hi hl
    have h1 := (hb' i hi hl).2
    rw [hbm, hbe, phdr_end_eq A (mdt.phdr i) (by have := hnowrap i hi hl; omega)] at h1
    omega
  · refine ⟨?_, fun i hi hl => absurd ⟨i, hi, hl⟩ hex, fun h => absurd h hex⟩
    have h4 : (4096 : Nat) ∣ 2 ^ A.physBits := by
      cases A <;> simp only [Arch.physBits] <;> decide
    rw [Nat.mod_mod_of_dvd _ h4]
    exact Nat.mul_mod_left _ _

theorem pil_setup_region_fixed_witness :
    ((∀ i, i < (ex_fw 0x1000 ex_phdrs_fixed).data.hdr.e_phnum →
        ((ex_fw 0x1000 ex_phdrs_fixed).data.phdr i).fits) ∧
      (∀ i, i < (ex_fw 0x1000 ex_phdrs_fixed).data.hdr.e_phnum →
        segment_is_loadable ((ex_fw 0x1000 ex_phdrs_fixed).data.phdr i) = true →
        segment_is_relocatable ((ex_fw 0x1000 ex_phdrs_fixed).data.phdr i) = false) ∧
      (∀ i, i < (ex_fw 0x1000 ex_phdrs_fixed).data.hdr.e_phnum →
        segment_is_loadable ((ex_fw 0x1000 ex_phdrs_fixed).data.phdr i) = true →
        ((ex_fw 0x1000 ex_phdrs_fixed).data.phdr i).p_paddr +
          ((ex_fw 0x1000 ex_phdrs_fixed).data.phdr i).p_memsz + 4095 <
            2 ^ Arch.arm.physBits)) ∧
    (pil_setup_region .arm (ex_env (ex_fw 0x1000 ex_phdrs_fixed)) ex_desc ex_priv
        (ex_fw 0x1000 ex_phdrs_fixed).data ex_world).ret = some 0 ∧
    ((pil_setup_region .arm (ex_env (ex_fw 0x1000 ex_phdrs_fixed)) ex_desc ex_priv
        (ex_fw 0x1000 ex_phdrs_fixed).data ex_world).priv.map
          (fun p => (p.region_start, p.region_end))) = some (0x1000, 0x9000) ∧
    (∃ p' w', pil_setup_region .arm (ex_env (ex_fw 0x1000 ex_phdrs_fixed)) ex_desc ex_priv
        (ex_fw 0x1000 ex_phdrs_fixed).data ex_world = .done 0 p' w' ∧
      p'.region_end % 4096 = 0 ∧
      (∀ i, i < (ex_fw 0x1000 ex_phdrs_fixed).data.hdr.e_phnum →
        segment_is_loadable ((ex_fw 0x1000 ex_phdrs_fixed).data.phdr i) = true →
        ((ex_fw 0x1000 ex_phdrs_fixed).data.phdr i).p_paddr +
          ((ex_fw 0x1000 ex_phdrs_fixed).data.phdr i).p_memsz ≤ p'.region_end)) := by
  have hfits : ∀ i, i < (ex_fw 0x1000 ex_phdrs_fixed).data.hdr.e_phnum →
      ((ex_fw 0x1000 ex_phdrs_fixed).data.phdr i).fits := by decide
  have hfixed : ∀ i, i < (ex_fw 0x1000 ex_phdrs_fixed).data.hdr.e_phnum →
      segment_is_loadable ((ex_fw 0x1000 ex_phdrs_fixed).data.phdr i) = true →
      segment_is_relocatable ((ex_fw 0x1000 ex_phdrs_fixed).data.phdr i) = false := by decide
  have hnowrap : ∀ i, i < (ex_fw 0x1000 ex_phdrs_fixed).data.hdr.e_phnum →
      segment_is_loadable ((ex_fw 0x1000 ex_phdrs_fixed).data.phdr i) = true →
      ((ex_fw 0x1000 ex_phdrs_fixed).data.phdr i).p_paddr +
        ((ex_fw 0x1000 ex_phdrs_fixed).data.phdr i).p_memsz + 4095 <
          2 ^ Arch.arm.physBits := by decide
  obtain ⟨p', w', m, hrun, -, -, -, -, -, -, hplain⟩ := pil_setup_region_fixed .arm
    (ex_env (ex_fw 0x1000 ex_phdrs_fixed)) ex_desc ex_priv (ex_fw 0x1000 ex_phdrs_fixed).data
    ex_world hfits hfixed
  obtain ⟨hmult, hcover, -⟩ := hplain hnowrap
  exact ⟨⟨hfits, hfixed, hnowrap⟩, by rw [hrun]; rfl, by decide, p', w', hrun, hmult, hcover⟩


/-! ## Relocation -/

/-- C3: a segment built by `pil_init_seg` from a relocatable entry has
`paddr = p_paddr - base_addr + region_start` in `phys_addr_t` arithmetic, so
that `paddr - region_start` and `p_paddr - base_addr` agree in that
arithmetic; a segment built from any other entry keeps `paddr = p_paddr`; and
`pil_init_entry_addr` stores `e_entry - base_addr + region_start` when the
descriptor holds a region, `e_entry` itself otherwise. -/
theorem pil_init_seg_reloc (A : Arch) (env : Env) (desc : pil_desc) (priv : pil_priv)
    (mdt : pil_mdt) (phdr : elf32_phdr) (num : Nat) (seg : pil_seg)
    (h : pil_init_seg A env priv phdr num = .ok seg) :
    (segment_is_relocatable phdr = true →
      seg.relocated = true ∧
      (seg.paddr : Int) =
        ((phdr.p_paddr : Int) - priv.base_addr + priv.region_start) % (2 : Int) ^ A.physBits ∧
      ((seg.paddr : Int) - priv.region_start) % (2 : Int) ^ A.physBits =
        ((phdr.p_paddr : Int) - priv.base_addr) % (2 : Int) ^ A.physBits) ∧
    (segment_is_relocatable phdr = false →
      seg.relocated = false ∧ seg.paddr = phdr.p_paddr) ∧
    (priv.region ≠ 0 →
      ((pil_init_entry_addr A desc priv mdt).2.entry_addr : Int) =
        ((mdt.hdr.e_entry : Int) - priv.base_addr + priv.region_start) %
          (2 : Int) ^ A.physBits) ∧
    (priv.region = 0 → (pil_init_entry_addr A desc priv mdt).2.entry_addr = mdt.hdr.e_entry) := by
  have hseg : seg.relocated = segment_is_relocatable phdr ∧
      seg.paddr = if segment_is_relocatable phdr then pil_reloc A priv phdr.p_paddr
        else phdr.p_paddr := by
    simp only [pil_init_seg] at h
    split_ifs at h <;> cases h <;> simp_all
  have hentry : (pil_init_entry_addr A desc priv mdt).2.entry_addr =
      if priv.region != 0 then pil_reloc A priv mdt.hdr.e_entry else mdt.hdr.e_entry := by
    simp only [pil_init_entry_addr]
    split_ifs <;> rfl
  refine ⟨fun hr => ?_, fun hr => ?_, fun hreg => ?_, fun hreg => ?_⟩
  · rw [hr] at hseg
    simp only [if_true] at hseg
    rw [hseg.2]
    exact ⟨hseg.1, pil_reloc_cast A priv _, pil_reloc_round_trip A priv _⟩
  · rw [hr] at hseg
    simpa using hseg
  · rw [hentry]
    have : (priv.region != 0) = true := by simpa using hreg
    rw [this, if_pos rfl]
    exact pil_reloc_cast A priv _
  · rw [hentry, hreg]
    rfl

theorem pil_init_seg_reloc_witness :
    pil_init_seg .arm (ex_env (ex_fw 0x10 ex_phdrs_tie)) ex_priv_tie
        ((ex_fw 0x10 ex_phdrs_tie).data.phdr 1) 1 =
      .ok { paddr := 0x90000000, sz := 0x1000, filesz := 0x600, num := 1, relocated := true } ∧
    ((0x90000000 : Int) - ex_priv_tie.region_start) % (2 : Int) ^ Arch.arm.physBits =
      ((((ex_fw 0x10 ex_phdrs_tie).data.phdr 1).p_paddr : Int) - ex_priv_tie.base_addr) %
        (2 : Int) ^ Arch.arm.physBits ∧
    (pil_init_entry_addr .arm ex_desc ex_priv_tie (ex_fw 0x10 ex_phdrs_tie).data).2.entry_addr
      = 0x90000010 :=
  have h : pil_init_seg .arm (ex_env (ex_fw 0x10 ex_phdrs_tie)) ex_priv_tie
        ((ex_fw 0x10 ex_phdrs_tie).data.phdr 1) 1 =
      .ok { paddr := 0x90000000, sz := 0x1000, filesz := 0x600, num := 1, relocated := true } :=
    rfl
  ⟨h, ((pil_init_seg_reloc .arm (ex_env (ex_fw 0x10 ex_phdrs_tie)) ex_desc ex_priv_tie
      (ex_fw 0x10 ex_phdrs_tie).data _ 1 _ h).1 (by decide)).2.2, by decide⟩


/-! ## Reuse of a region -/

/-- C4 (the code at the failing input): after a first boot has left a region
whose `base_addr` is `0x1000`, booting an image whose only relocatable entry
lies at `0x5000` reuses the region with the stale `base_addr`; both
`pil_init_mmap` and `pil_boot` return 0, and the relocated segment lies at
`0x90004000`, beyond `region_end = 0x90001000`. -/
theorem pil_init_mmap_reuse_outside_region :
    (pil_boot .arm (ex_env (ex_fw 0x1000 ex_phdrs_first)) ex_desc ex_priv ex_world).ret
        = some 0 ∧
    (pil_boot .arm (ex_env (ex_fw 0x1000 ex_phdrs_first)) ex_desc ex_priv ex_world).priv
        = some ex_priv_first ∧
    (pil_init_mmap .arm (ex_env (ex_fw 0x5000 ex_phdrs_second)) ex_desc
        (pil_release_mmap ex_priv_first ex_world).1 (ex_fw 0x5000 ex_phdrs_second).data
        ex_world).ret = some 0 ∧
    (pil_init_mmap .arm (ex_env (ex_fw 0x5000 ex_phdrs_second)) ex_desc
        (pil_release_mmap ex_priv_first ex_world).1 (ex_fw 0x5000 ex_phdrs_second).data
        ex_world).priv = some ex_priv_second ∧
    (pil_boot .arm (ex_env (ex_fw 0x5000 ex_phdrs_second)) ex_desc ex_priv_first
        ex_world).ret = some 0 ∧
    (pil_boot .arm (ex_env (ex_fw 0x5000 ex_phdrs_second)) ex_desc ex_priv_first
        ex_world).priv = some ex_priv_second ∧
    ∃ seg, seg ∈ ex_priv_second.segs ∧ seg.relocated = true ∧
      ¬ (ex_priv_second.region_start ≤ seg.paddr ∧
        seg.paddr + seg.sz ≤ ex_priv_second.region_end) := by
  refine ⟨by decide, by decide, by decide, by decide, by decide, by decide, ?_⟩
  exact ⟨_, List.mem_singleton.mpr rfl, rfl, by decide⟩


/-! ## Overlap with host memory -/

theorem pil_init_seg_filesz (A : Arch) (env : Env) (priv : pil_priv) (phdr : elf32_phdr)
    (num : Nat) (h : phdr.p_memsz < phdr.p_filesz) :
    ∃ e, pil_init_seg A env priv phdr num = .error e := by
  simp only [pil_init_seg]
  split_ifs
  · exact ⟨_, rfl⟩
  · exact ⟨_, rfl⟩

/-- C7 (as amended): when the table of the header blob has a loadable entry
with `p_filesz > p_memsz`, `pil_boot` does not return 0: it returns an error
or, for the image named "venus" with the debug level on, stops in the
`BUG_ON` of a failed region allocation; during the call no blob is fetched, no
destination memory is mapped, zeroed or verified, and none of the hooks
`proxy_vote`, `init_image`, `mem_setup`, `auth_and_reset` is called. -/
theorem pil_boot_filesz_rejected (A : Arch) (env : Env) (desc : pil_desc) (priv : pil_priv)
    (w : World) (i : Nat)
    (hi : i < env.request_firmware.2.data.hdr.e_phnum)
    (hl : segment_is_loadable (env.request_firmware.2.data.phdr i) = true)
    (hsz : (env.request_firmware.2.data.phdr i).p_memsz <
      (env.request_firmware.2.data.phdr i).p_filesz) :
    ((∃ e, (pil_boot A env desc priv w).ret = some e ∧ e ≠ 0) ∨
        ((pil_boot A env desc priv w).ret = none ∧ env.sec_debug = true ∧
          desc.name = "venus")) ∧
      (pil_boot A env desc priv w).world.trace.filter Event.is_load =
        w.trace.filter Event.is_load ∧
      (pil_boot A env desc priv w).world.trace.filter Event.is_hook =
        w.trace.filter Event.is_hook := by
  have h1 := pil_boot_rejects Event.is_load (fun e h => Or.inl h) A env desc priv w i hi hl
    (fun p => pil_init_seg_filesz A env p _ i hsz)
  have h2 := pil_boot_rejects Event.is_hook (fun e h => Or.inr h) A env desc priv w i hi hl
    (fun p => pil_init_seg_filesz A env p _ i hsz)
  exact ⟨h1.1, h1.2, h2.2⟩

theorem pil_boot_filesz_rejected_witness :
    (0 < (ex_env (ex_fw 0x1000 ex_phdrs_overlap)).request_firmware.2.data.hdr.e_phnum ∧
      segment_is_loadable ((ex_env (ex_fw 0x1000 ex_phdrs_overlap)).request_firmware.2.data.phdr 0)
        = true ∧
      ((ex_env (ex_fw 0x1000 ex_phdrs_overlap)).request_firmware.2.data.phdr 0).p_memsz <
        ((ex_env (ex_fw 0x1000 ex_phdrs_overlap)).request_firmware.2.data.phdr 0).p_filesz) ∧
    (pil_boot .arm (ex_env (ex_fw 0x1000 ex_phdrs_overlap)) ex_desc ex_priv ex_world).ret =
      some (-EINVAL) ∧
    (pil_boot .arm (ex_env (ex_fw 0x1000 ex_phdrs_overlap)) ex_desc ex_priv
      ex_world).world.trace.filter Event.is_hook = ex_world.trace.filter Event.is_hook :=
  ⟨⟨by decide, by decide, by decide⟩, by decide,
    (pil_boot_filesz_rejected .arm (ex_env (ex_fw 0x1000 ex_phdrs_overlap)) ex_desc ex_priv
      ex_world 0 (by decide) (by decide) (by decide)).2.2⟩

/-- C7 (the claim as stated fails): the table `ex_phdrs_filesz` has a loadable
entry with `p_filesz > p_memsz`; for the image named "venus", with the debug
level on and the allocator failing, `pil_boot` stops in `BUG_ON` and returns
no error. -/
theorem pil_boot_filesz_bug :
    (0 < (ex_fw 0x1000 ex_phdrs_filesz).data.hdr.e_phnum ∧
      segment_is_loadable ((ex_fw 0x1000 ex_phdrs_filesz).data.phdr 0) = true ∧
      ((ex_fw 0x1000 ex_phdrs_filesz).data.phdr 0).p_memsz <
        ((ex_fw 0x1000 ex_phdrs_filesz).data.phdr 0).p_filesz) ∧
    (ex_env_nomem (ex_fw 0x1000 ex_phdrs_filesz)).request_firmware =
      (0, ex_fw 0x1000 ex_phdrs_filesz) ∧
    ¬ ∃ e, (pil_boot .arm (ex_env_nomem (ex_fw 0x1000 ex_phdrs_filesz)) ex_desc_venus ex_priv
      ex_world).ret = some e := by
  refine ⟨⟨by decide, by decide, by decide⟩, rfl, ?_⟩
  have h : (pil_boot .arm (ex_env_nomem (ex_fw 0x1000 ex_phdrs_filesz)) ex_desc_venus ex_priv
      ex_world).ret = none := by decide
  rw [h]
  simp


/-! ## A trailing part too long for `int count` -/

/-- C8 (the code at the failing input): for a segment with `filesz = 0` and
`sz = 0x80000000` the `int count` of `pil_load_seg` is negative, the zeroing
loop is not entered, and `pil_load_seg` returns 0 with the destination
untouched: no mapping, no `memset`, and the byte at `paddr` still `0xff`. The
same happens inside `pil_boot`, which builds this segment from
`ex_phdrs_huge` and returns 0. -/
theorem pil_load_seg_count_negative :
    ex_seg_huge.filesz < ex_seg_huge.sz ∧
    pil_load_seg_count .arm ex_seg_huge = -2147483648 ∧
    (pil_load_seg .arm (ex_env (ex_fw 0 ex_phdrs_huge)) ex_desc ex_seg_huge ex_world).1 = 0 ∧
    (pil_load_seg .arm (ex_env (ex_fw 0 ex_phdrs_huge)) ex_desc ex_seg_huge ex_world).2.trace =
      [.verify_blob 0 0x80000000] ∧
    (pil_load_seg .arm (ex_env (ex_fw 0 ex_phdrs_huge)) ex_desc ex_seg_huge ex_world).2.mem
      (ex_seg_huge.paddr + ex_seg_huge.filesz) = 0xff ∧
    (pil_boot .arm (ex_env (ex_fw 0 ex_phdrs_huge)) ex_desc ex_priv ex_world).ret = some 0 ∧
    ((pil_boot .arm (ex_env (ex_fw 0 ex_phdrs_huge)) ex_desc ex_priv ex_world).priv.map
      (fun p => p.segs)) = some [ex_seg_huge] ∧
    (pil_boot .arm (ex_env (ex_fw 0 ex_phdrs_huge)) ex_desc ex_priv ex_world).world.trace.filter
      Event.is_load = [.verify_blob 0 0x80000000] ∧
    (pil_boot .arm (ex_env (ex_fw 0 ex_phdrs_huge)) ex_desc ex_priv ex_world).world.mem 0
      = 0xff := by
  refine ⟨by decide, by decide, by decide, by decide, by decide, by decide, by decide,
    by decide, by decide⟩


/-! ## Header validation -/

theorem pil_boot_start_filter (q : Event → Bool) (h1 : q .down_read = false)
    (h2 : q .request_firmware = false) (h3 : ∀ a b, q (.info_write a b) = false)
    (priv : pil_priv) (w : World) :
    (((pil_release_mmap priv w).2.log .down_read).log .request_firmware).trace.filter q =
      w.trace.filter q := by
  rw [filter_log q _ _ h2, filter_log q _ _ h1, pil_release_mmap_filter q h3]

/-- The resource events of `pil_init_mmap`: it enters region planning, which
calls the allocator at most once. -/
theorem pil_init_mmap_plan (A : Arch) (env : Env) (desc : pil_desc) (priv : pil_priv)
    (mdt : pil_mdt) (w : World) :
    ∃ allocs, (pil_init_mmap A env desc priv mdt w).world.trace.filter Event.is_resource =
        w.trace.filter Event.is_resource ++ Event.enter_setup_region :: allocs ∧
      allocs.filter Event.is_plan = allocs := by
  obtain ⟨allocs, h1, h2⟩ := pil_setup_region_account A env desc priv mdt w
  refine ⟨allocs, ?_, ?_⟩
  · rw [pil_init_mmap_world, h1 Event.is_resource (fun _ h => h)]
    rcases h2 with ⟨h, _⟩ | ⟨_, s, h0, h, _⟩ | ⟨_, s, r, h0, _, h, _⟩ <;> subst h <;>
      simp [Event.is_resource]
  · rcases h2 with ⟨h, _⟩ | ⟨_, s, h0, h, _⟩ | ⟨_, s, r, h0, _, h, _⟩ <;> subst h <;>
      simp [Event.is_plan]

/-- C9: once the header blob is fetched, `pil_boot` returns -EIO, releases the
blob, and neither enters region planning, nor calls the allocator, nor calls
any implementation hook (`Event.is_ops`: every member of `desc->ops` and the
descriptor's `map_fw_mem` and `unmap_fw_mem`), when the blob is smaller than an
ELF32 header, or does not start with the ELF magic, or has `e_phnum = 0`, or is
smaller than the header followed by `e_phnum` program headers; when none of
the four holds, it enters region planning. -/
theorem pil_boot_header_checks (A : Arch) (env : Env) (desc : pil_desc) (priv : pil_priv)
    (w : World) (hfetch : env.request_firmware.1 = 0) :
    ((env.request_firmware.2.size < sizeof_elf32_hdr ∨
        env.request_firmware.2.data.hdr.e_ident.take 4 ≠ ELFMAG ∨
        env.request_firmware.2.data.hdr.e_phnum = 0 ∨
        sizeof_elf32_hdr + env.request_firmware.2.data.hdr.e_phnum * sizeof_elf32_phdr >
          env.request_firmware.2.size) →
      (pil_boot A env desc priv w).ret = some (- EIO) ∧
      (pil_boot A env desc priv w).world.trace.filter Event.is_release_fw =
        w.trace.filter Event.is_release_fw ++ [.release_firmware] ∧
      (pil_boot A env desc priv w).world.trace.filter Event.is_plan =
        w.trace.filter Event.is_plan ∧
      (pil_boot A env desc priv w).world.trace.filter Event.is_hook =
        w.trace.filter Event.is_hook ∧
      (pil_boot A env desc priv w).world.trace.filter Event.is_ops =
        w.trace.filter Event.is_ops) ∧
    (¬ (env.request_firmware.2.size < sizeof_elf32_hdr ∨
        env.request_firmware.2.data.hdr.e_ident.take 4 ≠ ELFMAG ∨
        env.request_firmware.2.data.hdr.e_phnum = 0 ∨
        sizeof_elf32_hdr + env.request_firmware.2.data.hdr.e_phnum * sizeof_elf32_phdr >
          env.request_firmware.2.size) →
      ∃ rest, (pil_boot A env desc priv w).world.trace.filter Event.is_plan =
        w.trace.filter Event.is_plan ++ Event.enter_setup_region :: rest) := by
  have hb : (env.request_firmware.1 != 0) = false := by simp [hfetch]
  constructor
  · intro hbad
    have hrun : pil_boot A env desc priv w =
        pil_boot_release_fw (pil_release_mmap priv w).1
          (((pil_release_mmap priv w).2.log .down_read).log .request_firmware) (- EIO) := by
      simp only [pil_boot, hb, Bool.false_eq_true, if_false]
      split_ifs with h1 h2 h3 h4
      · rfl
      · rfl
      · rfl
      · rfl
      · exfalso
        rcases hbad with h | h | h | h
        · exact h1 h
        · exact h2 (by simpa using h)
        · exact h3 (by simpa using h)
        · exact h4 (by simp only [sizeof_elf32_hdr, sizeof_elf32_phdr] at h ⊢; omega)
    rw [hrun]
    refine ⟨pil_boot_release_fw_ret _ _ _, ?_, ?_, ?_, ?_⟩
    · obtain ⟨p', w', h1, _, _, h4⟩ := pil_boot_release_fw_error (pil_release_mmap priv w).1
        (((pil_release_mmap priv w).2.log .down_read).log .request_firmware) (- EIO)
        (by simp [ EIO])
      rw [h1]
      simp only [Run.world]
      rw [← filter_of_resource Event.is_release_fw (by intro e h; cases e <;> simp_all [Event.is_release_fw, Event.is_resource]), h4,
        List.filter_append, filter_of_resource Event.is_release_fw (by intro e h; cases e <;> simp_all [Event.is_release_fw, Event.is_resource]),
        pil_boot_start_filter Event.is_release_fw rfl rfl (fun _ _ => rfl)]
      split_ifs <;> simp [Event.is_release_fw]
    · rw [pil_boot_release_fw_filter Event.is_plan rfl rfl (fun _ _ _ => rfl) (fun _ _ => rfl),
        pil_boot_start_filter Event.is_plan rfl rfl (fun _ _ => rfl)]
    · rw [pil_boot_release_fw_filter Event.is_hook rfl rfl (fun _ _ _ => rfl) (fun _ _ => rfl),
        pil_boot_start_filter Event.is_hook rfl rfl (fun _ _ => rfl)]
    · rw [pil_boot_release_fw_filter Event.is_ops rfl rfl (fun _ _ _ => rfl) (fun _ _ => rfl),
        pil_boot_start_filter Event.is_ops rfl rfl (fun _ _ => rfl)]
  · intro hgood
    have hplan_res : ∀ e : Event, e.is_plan = true → e.is_resource = true := by
      intro e h; cases e <;> simp_all [Event.is_plan, Event.is_resource]
    have hrun : pil_boot A env desc priv w =
        pil_boot_image A env desc (pil_release_mmap priv w).1 env.request_firmware.2.data
          (((pil_release_mmap priv w).2.log .down_read).log .request_firmware) := by
      simp only [pil_boot, hb, Bool.false_eq_true, if_false]
      split_ifs with h1 h2 h3 h4
      · exact absurd (Or.inl h1) hgood
      · exact absurd (Or.inr (Or.inl (by simpa using h2))) hgood
      · exact absurd (Or.inr (Or.inr (Or.inl (by simpa using h3)))) hgood
      · exact absurd (Or.inr (Or.inr (Or.inr
          (by simp only [sizeof_elf32_hdr, sizeof_elf32_phdr] at h4 ⊢; omega)))) hgood
      · rfl
    obtain ⟨allocs, hres, hallocs⟩ := pil_init_mmap_plan A env desc (pil_release_mmap priv w).1
      env.request_firmware.2.data
      ((((pil_release_mmap priv w).2.log .down_read).log .request_firmware).log .init_dma_attrs)
    have hinit : (pil_init_mmap A env desc (pil_release_mmap priv w).1
        env.request_firmware.2.data
        ((((pil_release_mmap priv w).2.log .down_read).log .request_firmware).log
          .init_dma_attrs)).world.trace.filter Event.is_plan =
        w.trace.filter Event.is_plan ++ Event.enter_setup_region :: allocs := by
      rw [← filter_of_resource Event.is_plan hplan_res, hres, List.filter_append,
        filter_of_resource Event.is_plan hplan_res,
        filter_log Event.is_plan _ .init_dma_attrs rfl,
        pil_boot_start_filter Event.is_plan rfl rfl (fun _ _ => rfl)]
      simp [List.filter_cons, Event.is_plan, hallocs]
    refine ⟨allocs, ?_⟩
    rw [hrun]
    rcases pil_boot_image_cases A env desc (pil_release_mmap priv w).1
      env.request_firmware.2.data
      (((pil_release_mmap priv w).2.log .down_read).log .request_firmware) with
      ⟨w1, h1, h2⟩ | ⟨r1, p1, w1, p2, w2, ret, h1, h2, _, _, _, _, h3⟩
    · rw [h2]
      rw [h1] at hinit
      exact hinit
    · rw [h2, pil_boot_release_fw_filter Event.is_plan rfl rfl (fun _ _ _ => rfl)
        (fun _ _ => rfl), ← filter_of_resource Event.is_plan hplan_res, h3,
        filter_of_resource Event.is_plan hplan_res]
      rw [h1] at hinit
      exact hinit

theorem pil_boot_header_checks_witness :
    (ex_env (ex_fw 0x10 [])).request_firmware.1 = 0 ∧
    (ex_env (ex_fw 0x10 [])).request_firmware.2.data.hdr.e_phnum = 0 ∧
    (pil_boot .arm (ex_env (ex_fw 0x10 [])) ex_desc ex_priv ex_world).ret = some (- EIO) ∧
    (pil_boot .arm (ex_env (ex_fw 0x10 [])) ex_desc ex_priv ex_world).world.trace.filter
      Event.is_plan = ex_world.trace.filter Event.is_plan ∧
    (pil_boot .arm (ex_env (ex_fw 0x10 [])) ex_desc ex_priv ex_world).world.trace.filter
      Event.is_ops = ex_world.trace.filter Event.is_ops :=
  ⟨rfl, rfl,
    ((pil_boot_header_checks .arm (ex_env (ex_fw 0x10 [])) ex_desc ex_priv ex_world rfl).1
      (Or.inr (Or.inr (Or.inl rfl)))).1,
    ((pil_boot_header_checks .arm (ex_env (ex_fw 0x10 [])) ex_desc ex_priv ex_world rfl).1
      (Or.inr (Or.inr (Or.inl rfl)))).2.2.1,
    ((pil_boot_header_checks .arm (ex_env (ex_fw 0x10 [])) ex_desc ex_priv ex_world rfl).1
      (Or.inr (Or.inr (Or.inl rfl)))).2.2.2.2⟩


/-! ## Errors leave nothing behind -/

theorem is_alloc_resource (e : Event) (h : e.is_alloc = true) : e.is_resource = true := by
  cases e <;> simp_all [Event.is_alloc, Event.is_resource]

theorem is_free_resource (e : Event) (h : e.is_free = true) : e.is_resource = true := by
  cases e <;> simp_all [Event.is_free, Event.is_resource]

theorem is_release_fw_resource (e : Event) (h : e.is_release_fw = true) :
    e.is_resource = true := by
  cases e <;> simp_all [Event.is_release_fw, Event.is_resource]

/-- C10: when `pil_boot` returns a nonzero code, `priv->region` is `NULL` and
the segment list is empty; the header blob, when it was fetched, has been
released once; a region held on entry has been freed once and none allocated;
a region allocated during the call has been freed once, with the size,
pointer and bus address of its allocation; and nothing else was freed. -/
theorem pil_boot_error_releases (A : Arch) (env : Env) (desc : pil_desc) (priv : pil_priv)
    (w : World) (e : Int) (p' : pil_priv)
    (hret : (pil_boot A env desc priv w).ret = some e) (he : e ≠ 0)
    (hp : (pil_boot A env desc priv w).priv = some p') :
    p'.region = 0 ∧ p'.segs = [] ∧
      (pil_boot A env desc priv w).world.trace.filter Event.is_release_fw =
        w.trace.filter Event.is_release_fw ++
          (if env.request_firmware.1 = 0 then [.release_firmware] else []) ∧
      ∃ allocs frees,
        (pil_boot A env desc priv w).world.trace.filter Event.is_alloc =
          w.trace.filter Event.is_alloc ++ allocs ∧
        (pil_boot A env desc priv w).world.trace.filter Event.is_free =
          w.trace.filter Event.is_free ++ frees ∧
        (priv.region ≠ 0 → allocs = [] ∧ ∃ s h, frees = [.dma_free_attrs s priv.region h]) ∧
        (priv.region = 0 →
          (allocs = [] ∧ frees = []) ∨
          (∃ s h, allocs = [.dma_alloc_attrs s 0 h] ∧ frees = []) ∨
          (∃ s r h, r ≠ 0 ∧ allocs = [.dma_alloc_attrs s r h] ∧
            frees = [.dma_free_attrs s r h])) := by
  have hstart : (((pil_release_mmap priv w).2.log .down_read).log .request_firmware).trace.filter
      Event.is_resource = w.trace.filter Event.is_resource ++ [.request_firmware] := by
    simp only [pil_release_mmap]
    split_ifs <;> simp [World.log, List.filter_append, Event.is_resource]
  have hreg0 : (pil_release_mmap priv w).1.region = priv.region := rfl
  -- the shape of the resource events of the whole call, from which all follows
  have key : ∀ (p2 : pil_priv) (plan : List Event) (rel : List Event),
      (pil_boot A env desc priv w).world.trace.filter Event.is_resource =
        w.trace.filter Event.is_resource ++ Event.request_firmware :: (plan ++ rel ++
          (if p2.region ≠ 0 then
            [.dma_free_attrs p2.region_size p2.region p2.region_start] else [])) →
      rel = (if env.request_firmware.1 = 0 then [.release_firmware] else []) →
      ((plan = [] ∧ p2.region = priv.region) ∨
        (∃ allocs, plan = Event.enter_setup_region :: allocs ∧
          ((allocs = [] ∧ p2.region = priv.region) ∨
            (priv.region = 0 ∧ ∃ s h, allocs = [.dma_alloc_attrs s 0 h] ∧ p2.region = 0) ∨
            (priv.region = 0 ∧ ∃ s r h, r ≠ 0 ∧ allocs = [.dma_alloc_attrs s r h] ∧
              p2.region = r ∧ p2.region_size = s ∧ p2.region_start = h)))) →
      (pil_boot A env desc priv w).world.trace.filter Event.is_release_fw =
        w.trace.filter Event.is_release_fw ++
          (if env.request_firmware.1 = 0 then [.release_firmware] else []) ∧
      ∃ allocs frees,
        (pil_boot A env desc priv w).world.trace.filter Event.is_alloc =
          w.trace.filter Event.is_alloc ++ allocs ∧
        (pil_boot A env desc priv w).world.trace.filter Event.is_free =
          w.trace.filter Event.is_free ++ frees ∧
        (priv.region ≠ 0 → allocs = [] ∧ ∃ s h, frees = [.dma_free_attrs s priv.region h]) ∧
        (priv.region = 0 →
          (allocs = [] ∧ frees = []) ∨
          (∃ s h, allocs = [.dma_alloc_attrs s 0 h] ∧ frees = []) ∨
          (∃ s r h, r ≠ 0 ∧ allocs = [.dma_alloc_attrs s r h] ∧
            frees = [.dma_free_attrs s r h])) := by
    intro p2 plan rel htrace hrel hplan
    have hfw := congrArg (List.filter Event.is_release_fw) htrace
    have hal := congrArg (List.filter Event.is_alloc) htrace
    have hfr := congrArg (List.filter Event.is_free) htrace
    rw [filter_of_resource _ is_release_fw_resource, List.filter_append,
      filter_of_resource _ is_release_fw_resource] at hfw
    rw [filter_of_resource _ is_alloc_resource, List.filter_append,
      filter_of_resource _ is_alloc_resource] at hal
    rw [filter_of_resource _ is_free_resource, List.filter_append,
      filter_of_resource _ is_free_resource] at hfr
    rw [hfw, hal, hfr, hrel]
    refine ⟨?_, _, _, rfl, rfl, ?_, ?_⟩
    · rcases hplan with ⟨h, _⟩ | ⟨allocs, h, ⟨h2, _⟩ | ⟨_, s, h0, h2, _⟩ | ⟨_, s, r, h0, _, h2, _⟩⟩ <;>
        subst h <;> (try subst h2) <;> split_ifs <;>
        simp [List.filter_cons, Event.is_release_fw]
    · intro hheld
      rcases hplan with ⟨h, hr⟩ | ⟨allocs, h, ⟨h2, hr⟩ | ⟨h0, _⟩ | ⟨h0, _⟩⟩
      · subst h
        rw [hr, if_pos hheld]
        refine ⟨by split_ifs <;> simp [List.filter_cons, Event.is_alloc],
          p2.region_size, p2.region_start, ?_⟩
        split_ifs <;> simp [List.filter_cons, Event.is_free]
      · subst h; subst h2
        rw [hr, if_pos hheld]
        refine ⟨by split_ifs <;> simp [List.filter_cons, Event.is_alloc],
          p2.region_size, p2.region_start, ?_⟩
        split_ifs <;> simp [List.filter_cons, Event.is_free]
      · exact absurd h0 hheld
      · exact absurd h0 hheld
    · intro hnone
      rcases hplan with ⟨h, hr⟩ | ⟨allocs, h, ⟨h2, hr⟩ | ⟨_, s, h0, h2, hr⟩ |
        ⟨_, s, r, h0, hr0, h2, hr, hs, hh⟩⟩
      · subst h
        rw [hr, hnone, if_neg (not_not.mpr rfl)]
        left
        split_ifs <;> simp [List.filter_cons, Event.is_alloc, Event.is_free]
      · subst h; subst h2
        rw [hr, hnone, if_neg (not_not.mpr rfl)]
        left
        split_ifs <;> simp [List.filter_cons, Event.is_alloc, Event.is_free]
      · subst h; subst h2
        rw [hr, if_neg (not_not.mpr rfl)]
        right; left
        refine ⟨s, h0, ?_, ?_⟩ <;>
          split_ifs <;> simp [List.filter_cons, Event.is_alloc, Event.is_free]
      · subst h; subst h2
        rw [hr, hs, hh, if_pos hr0]
        right; right
        refine ⟨s, r, h0, hr0, ?_, ?_⟩ <;>
          split_ifs <;> simp [List.filter_cons, Event.is_alloc, Event.is_free]
  by_cases hfetch : env.request_firmware.1 = 0
  · have hb : (env.request_firmware.1 != 0) = false := by simp [hfetch]
    -- either a header check fails or the image is processed
    have hrun : (pil_boot A env desc priv w =
          pil_boot_release_fw (pil_release_mmap priv w).1
            (((pil_release_mmap priv w).2.log .down_read).log .request_firmware) (- EIO)) ∨
        (pil_boot A env desc priv w =
          pil_boot_image A env desc (pil_release_mmap priv w).1 env.request_firmware.2.data
            (((pil_release_mmap priv w).2.log .down_read).log .request_firmware)) := by
      simp only [pil_boot, hb, Bool.false_eq_true, if_false]
      split_ifs
      · exact Or.inl rfl
      · exact Or.inl rfl
      · exact Or.inl rfl
      · exact Or.inl rfl
      · exact Or.inr rfl
    rcases hrun with hrun | hrun
    · obtain ⟨p3, w3, h1, h2, h3, h4⟩ := pil_boot_release_fw_error (pil_release_mmap priv w).1
        (((pil_release_mmap priv w).2.log .down_read).log .request_firmware) (- EIO)
        (by simp [ EIO])
      rw [hrun, h1] at hp
      simp only [Run.priv, Option.some.injEq] at hp
      subst hp
      refine ⟨h2, h3, key (pil_release_mmap priv w).1 [] [.release_firmware] ?_ (by simp [hfetch])
        (Or.inl ⟨rfl, rfl⟩)⟩
      rw [hrun, h1]
      simp only [Run.world]
      rw [h4, hstart]
      simp
    · rcases pil_boot_image_cases A env desc (pil_release_mmap priv w).1
        env.request_firmware.2.data
        (((pil_release_mmap priv w).2.log .down_read).log .request_firmware) with
        ⟨w1, _, h2⟩ | ⟨r1, p1, w1, p2, w2, ret, h1, h2, hr1, hreg, hsz, hst, hw2⟩
      · rw [hrun, h2] at hret
        cases hret
      · have hret' : ret = e := by
          rw [hrun, h2, pil_boot_release_fw_ret] at hret
          simpa using hret
        subst hret'
        obtain ⟨p3, w3, h3, h4, h5, h6⟩ := pil_boot_release_fw_error p2 w2 ret he
        rw [hrun, h2, h3] at hp
        simp only [Run.priv, Option.some.injEq] at hp
        subst hp
        obtain ⟨s1, q1, hs1, hq1, hq2, hq3, hq4⟩ := pil_init_mmap_region A env desc _ _ _ _ _ _ h1
        obtain ⟨allocs, hacc, hcase⟩ := pil_setup_region_account A env desc
          (pil_release_mmap priv w).1 env.request_firmware.2.data
          ((((pil_release_mmap priv w).2.log .down_read).log .request_firmware).log
            .init_dma_attrs)
        rw [hs1] at hacc hcase
        simp only [Run.world, hreg0] at hacc hcase
        have hacc' := hacc Event.is_resource (fun _ h => h)
        rw [filter_log Event.is_resource _ .init_dma_attrs rfl, hstart] at hacc'
        refine ⟨h4, h5, key p2 (Event.enter_setup_region :: allocs) [.release_firmware] ?_
          (by simp [hfetch]) (Or.inr ⟨allocs, rfl, ?_⟩)⟩
        · rw [hrun, h2, h3]
          simp only [Run.world]
          rw [h6, hw2, hacc']
          rcases hcase with ⟨h, _⟩ | ⟨_, s, h0, h, _⟩ | ⟨_, s, r, h0, _, h, _⟩ <;> subst h <;>
            simp [Event.is_resource]
        · rcases hcase with ⟨h, hr⟩ | ⟨h0, s, hh, h, _, hr⟩ |
            ⟨h0, s, r, hh, hr0, h, p4, hp4, hr, hs, hh2⟩
          · exact Or.inl ⟨h, by rw [hreg, hq1, hr q1 rfl]⟩
          · exact Or.inr (Or.inl ⟨h0, s, hh, h, by rw [hreg, hq1, hr q1 rfl]⟩)
          · simp only [Run.priv, Option.some.injEq] at hp4
            subst hp4
            exact Or.inr (Or.inr ⟨h0, s, r, hh, hr0, h, by rw [hreg, hq1, hr],
              by rw [hsz, hq2, hs], by rw [hst, hq3, hh2]⟩)
  · have hb : (env.request_firmware.1 != 0) = true := by simpa using hfetch
    have hrun : pil_boot A env desc priv w =
        pil_boot_out (pil_release_mmap priv w).1
          (((pil_release_mmap priv w).2.log .down_read).log .request_firmware)
          env.request_firmware.1 := by
      simp only [pil_boot, hb, if_true]
    obtain ⟨p3, w3, h1, h2, h3, h4⟩ := pil_boot_out_error (pil_release_mmap priv w).1
      (((pil_release_mmap priv w).2.log .down_read).log .request_firmware)
      env.request_firmware.1 hfetch
    rw [hrun, h1] at hp
    simp only [Run.priv, Option.some.injEq] at hp
    subst hp
    refine ⟨h2, h3, key (pil_release_mmap priv w).1 [] [] ?_ (by simp [hfetch])
      (Or.inl ⟨rfl, rfl⟩)⟩
    rw [hrun, h1]
    simp only [Run.world]
    rw [h4, hstart]
    simp

theorem pil_boot_error_releases_witness :
    ((pil_boot .arm (ex_env_short (ex_fw 0x1000 ex_phdrs_first)) ex_desc ex_priv ex_world).ret
        = some (-EPERM) ∧
      (pil_boot .arm (ex_env_short (ex_fw 0x1000 ex_phdrs_first)) ex_desc ex_priv
        ex_world).priv = some ex_priv_failed) ∧
    ex_priv_failed.region = 0 ∧ ex_priv_failed.segs = [] ∧
    (pil_boot .arm (ex_env_short (ex_fw 0x1000 ex_phdrs_first)) ex_desc ex_priv
        ex_world).world.trace.filter Event.is_free =
      [.dma_free_attrs 0x100000 0xd0000000 0x90000000] :=
  have h := pil_boot_error_releases .arm (ex_env_short (ex_fw 0x1000 ex_phdrs_first)) ex_desc
    ex_priv ex_world (-EPERM) ex_priv_failed (by decide) (by decide) (by decide)
  ⟨⟨by decide, by decide⟩, h.1, h.2.1, by decide⟩


/-! ## Reusing a held region -/

/-- C13: when `kmalloc_array` succeeds, `pil_do_ramdump` calls `do_elf_ramdump`
once, on as many pairs as the list has segments, the `i`-th pair being
(`paddr`, `sz`) of the `i`-th segment, and returns what that call returns;
when `kmalloc_array` fails it returns `-ENOMEM` and calls nothing. Either way
the private state, and with it the segment list, is as before. -/
theorem pil_do_ramdump_pairs (env : Env) (priv : pil_priv) (w : World) :
    ∃ pairs : List (Nat × Nat),
      pairs.length = priv.segs.length ∧
      (∀ i : Nat, pairs[i]? = (priv.segs[i]?).map (fun seg : pil_seg => (seg.paddr, seg.sz))) ∧
      pil_do_ramdump env priv w =
        if env.kmalloc_array priv.segs.length then
          .done (env.do_elf_ramdump pairs) priv
            { w with trace := w.trace ++ [.do_elf_ramdump pairs] }
        else .done (-ENOMEM) priv w := by
  refine ⟨priv.segs.map (fun seg => (seg.paddr, seg.sz)), by simp, fun i => List.getElem?_map _ _ _, ?_⟩
  have htake : (priv.segs.map (fun seg => (seg.paddr, seg.sz))).take priv.segs.length =
      priv.segs.map (fun seg => (seg.paddr, seg.sz)) :=
    List.take_of_length_le (by simp)
  simp only [pil_do_ramdump, htake, World.log]
  cases env.kmalloc_array priv.segs.length <;> rfl


/-! ## Loading stops at the first failure -/

theorem extends_by_refl (q : Event → Bool) (t : List Event) : extends_by q t t :=
  ⟨[], by simp, by simp⟩

theorem extends_by_trans (q : Event → Bool) (t1 t2 t3 : List Event)
    (h1 : extends_by q t1 t2) (h2 : extends_by q t2 t3) : extends_by q t1 t3 := by
  obtain ⟨e1, h1, q1⟩ := h1
  obtain ⟨e2, h2, q2⟩ := h2
  refine ⟨e1 ++ e2, by rw [h2, h1, List.append_assoc], fun e he => ?_⟩
  rcases List.mem_append.mp he with h | h
  · exact q1 e h
  · exact q2 e h

theorem extends_by_log (q : Event → Bool) (w : World) (e : Event) (h : q e = true) :
    extends_by q w.trace (w.log e).trace :=
  ⟨[e], rfl, by simpa using h⟩

theorem extends_by_mono (q q' : Event → Bool) (hq : ∀ e, q e = true → q' e = true)
    (t t' : List Event) (h : extends_by q t t') : extends_by q' t t' := by
  obtain ⟨evs, h1, h2⟩ := h
  exact ⟨evs, h1, fun e he => hq e (h2 e he)⟩

theorem extends_by_filter (q q' : Event → Bool) (hq : ∀ e, q e = true → q' e = false)
    (t t' : List Event) (h : extends_by q t t') : t'.filter q' = t.filter q' := by
  obtain ⟨evs, h1, h2⟩ := h
  rw [h1, List.filter_append]
  have : evs.filter q' = [] := by
    rw [List.filter_eq_nil_iff]
    intro e he
    rw [hq e (h2 e he)]
    simp
  rw [this, List.append_nil]

theorem pil_load_seg_window_loads (A : Arch) (paddr buf0 : Nat) (size : Int) (w : World) :
    extends_by Event.is_load w.trace (pil_load_seg_window A paddr buf0 size w).trace := by
  simp only [pil_load_seg_window]
  refine extends_by_trans _ _ _ _ ?_ (extends_by_log _ _ _ rfl)
  refine extends_by_trans _ _ _ _ ?_ ⟨[_], rfl, by simp [Event.is_load]⟩
  refine extends_by_trans _ _ w.trace _ ?_ ?_
  · exact extends_by_refl _ _
  · split_ifs
    · exact extends_by_trans _ _ _ _ ⟨[_], rfl, by simp [Event.is_load]⟩
        ⟨[_], rfl, by simp [Event.is_load]⟩
    · exact ⟨[_], rfl, by simp [Event.is_load]⟩
    · exact ⟨[_], rfl, by simp [Event.is_load]⟩
    · exact extends_by_refl _ _

theorem pil_load_seg_zero_loads (A : Arch) (env : Env) :
    ∀ (fuel paddr : Nat) (count : Int) (h : count ≤ fuel) (w : World),
      extends_by Event.is_load w.trace (pil_load_seg_zero A env fuel paddr count h w).2.trace := by
  intro fuel
  induction fuel with
  | zero => intro paddr count h w; exact extends_by_refl _ _
  | succ fuel ih =>
    intro paddr count h w
    unfold pil_load_seg_zero
    by_cases hc : count > 0
    · rw [dif_pos hc]
      simp only
      split_ifs
      · exact extends_by_log _ _ _ rfl
      · exact extends_by_trans _ _ _ _ (extends_by_log _ w (.map_fw_mem _ _) rfl)
          (extends_by_trans _ _ _ _ (pil_load_seg_window_loads A _ _ _ _) (ih _ _ _ _))
    · rw [dif_neg hc]
      exact extends_by_refl _ _

theorem pil_load_seg_verify_loads (desc : pil_desc) (seg : pil_seg) (w : World) :
    extends_by Event.is_load w.trace (pil_load_seg_verify desc seg w).2.trace := by
  unfold pil_load_seg_verify
  cases desc.ops.verify_blob with
  | none => exact extends_by_refl _ _
  | some f => exact extends_by_log _ _ _ rfl

theorem pil_load_seg_trailing_loads (A : Arch) (env : Env) (desc : pil_desc) (seg : pil_seg)
    (w : World) :
    extends_by Event.is_load w.trace (pil_load_seg_trailing A env desc seg w).2.trace := by
  simp only [pil_load_seg_trailing]
  split_ifs
  · exact pil_load_seg_zero_loads A env _ _ _ _ w
  · exact extends_by_trans _ _ _ _ (pil_load_seg_zero_loads A env _ _ _ _ w)
      (pil_load_seg_verify_loads desc seg _)

theorem pil_load_seg_loads (A : Arch) (env : Env) (desc : pil_desc) (seg : pil_seg)
    (w : World) :
    extends_by Event.is_load w.trace (pil_load_seg A env desc seg w).2.trace := by
  have hf : extends_by Event.is_load w.trace
      (w.trace ++ [Event.request_firmware_direct seg.num seg.paddr seg.filesz]) :=
    ⟨[_], rfl, by simp [Event.is_load]⟩
  simp only [pil_load_seg]
  split_ifs
  · exact hf
  · exact hf
  · exact extends_by_trans _ _ _ _ hf (pil_load_seg_trailing_loads A env desc seg _)
  · exact pil_load_seg_trailing_loads A env desc seg w

theorem pil_boot_load_segs_loads (A : Arch) (env : Env) (desc : pil_desc) :
    ∀ (segs : List pil_seg) (w : World),
      extends_by Event.is_load w.trace (pil_boot_load_segs A env desc segs w).2.trace := by
  intro segs
  induction segs with
  | nil => intro w; exact extends_by_refl _ _
  | cons seg rest ih =>
    intro w
    simp only [pil_boot_load_segs]
    split_ifs
    · exact pil_load_seg_loads A env desc seg w
    · exact extends_by_trans _ _ _ _ (pil_load_seg_loads A env desc seg w) (ih _)

/-- The loop over the segments stops at the first segment whose load fails:
its result is that of this segment, loaded in the world the segments before
it have left. -/
theorem pil_boot_load_segs_stops (A : Arch) (env : Env) (desc : pil_desc) :
    ∀ (pre : List pil_seg) (s : pil_seg) (post : List pil_seg) (w w3 : World),
      pil_boot_load_segs A env desc pre w = (0, w3) →
      (pil_load_seg A env desc s w3).1 ≠ 0 →
      pil_boot_load_segs A env desc (pre ++ s :: post) w = pil_load_seg A env desc s w3 := by
  intro pre
  induction pre with
  | nil =>
    intro s post w w3 hpre hfail
    simp only [pil_boot_load_segs, Prod.mk.injEq, true_and] at hpre
    subst hpre
    simp only [List.nil_append, pil_boot_load_segs]
    rw [if_pos (by simpa using hfail)]
  | cons a pre ih =>
    intro s post w w3 hpre hfail
    simp only [List.cons_append, pil_boot_load_segs] at hpre ⊢
    by_cases ha : (pil_load_seg A env desc a w).1 = 0
    · have hb : ((pil_load_seg A env desc a w).1 != 0) = false := by simp [ha]
      rw [hb] at hpre ⊢
      simp only [Bool.false_eq_true, if_false] at hpre ⊢
      exact ih s post _ w3 hpre hfail
    · have hb : ((pil_load_seg A env desc a w).1 != 0) = true := by simp [ha]
      rw [hb] at hpre
      simp only [if_true] at hpre
      rw [hpre] at ha
      exact absurd rfl ha

/-- The function `pil_boot` from its loop over the segments on. -/
theorem pil_boot_of_loading (A : Arch) (env : Env) (desc : pil_desc) (priv : pil_priv)
    (w : World) (p : pil_priv) (w2 : World)
    (h : pil_boot_loading A env desc priv w = some (p, w2)) :
    pil_boot A env desc priv w =
      if (pil_boot_load_segs A env desc p.segs w2).1 != 0 then
        pil_boot_err_deinit_image env desc p (pil_boot_load_segs A env desc p.segs w2).2
          (pil_boot_load_segs A env desc p.segs w2).1
      else
        pil_boot_err_deinit_image env desc p
          ((pil_boot_load_segs A env desc p.segs w2).2.log .auth_and_reset)
          desc.ops.auth_and_reset := by
  simp only [pil_boot_loading] at h
  simp only [pil_boot, pil_boot_image]
  by_cases h1 : (env.request_firmware.1 != 0) = true
  · rw [if_pos h1] at h; cases h
  rw [if_neg h1] at h ⊢
  by_cases h2 : env.request_firmware.2.size < sizeof_elf32_hdr
  · rw [if_pos h2] at h; cases h
  rw [if_neg h2] at h ⊢
  by_cases h3 : (env.request_firmware.2.data.hdr.e_ident.take 4 != ELFMAG) = true
  · rw [if_pos h3] at h; cases h
  rw [if_neg h3] at h ⊢
  by_cases h4 : (env.request_firmware.2.data.hdr.e_phnum == 0) = true
  · rw [if_pos h4] at h; cases h
  rw [if_neg h4] at h ⊢
  by_cases h5 : sizeof_elf32_phdr * env.request_firmware.2.data.hdr.e_phnum + sizeof_elf32_hdr >
      env.request_firmware.2.size
  · rw [if_pos h5] at h; cases h
  rw [if_neg h5] at h ⊢
  generalize pil_init_mmap A env desc (pil_release_mmap priv w).1 env.request_firmware.2.data
    ((((pil_release_mmap priv w).2.log Event.down_read).log Event.request_firmware).log
      Event.init_dma_attrs) = run at h ⊢
  cases run with
  | bug w1 => cases h
  | done ret p1 w1 =>
    simp only at h ⊢
    by_cases h6 : (ret != 0) = true
    · rw [if_pos h6] at h; cases h
    rw [if_neg h6] at h ⊢
    by_cases h7 : ((pil_proxy_vote desc w1).1 != 0) = true
    · rw [if_pos h7] at h; cases h
    rw [if_neg h7] at h ⊢
    simp only [pil_boot_hooks]
    split_ifs at h with h8 h9
    simp only [Option.some.injEq, Prod.mk.injEq] at h
    obtain ⟨hp, hw⟩ := h
    rw [if_neg h8, if_neg h9, hp, hw]
    have hsegs : p.segs = p1.segs := by rw [← hp]
    rw [hsegs]

theorem not_load_auth (q : Event → Bool)
    (hq : ∀ e, q e = true → e.is_load = true ∨ e.is_auth = true) (e : Event)
    (h1 : e.is_load = false) (h2 : e.is_auth = false) : q e = false := by
  cases hqe : q e with
  | false => rfl
  | true =>
    rcases hq e hqe with h | h
    · rw [h] at h1; cases h1
    · rw [h] at h2; cases h2

theorem filter_log_quiet (q : Event → Bool)
    (hq : ∀ e, q e = true → e.is_load = true ∨ e.is_auth = true) (w : World) (e : Event)
    (h1 : e.is_load = false) (h2 : e.is_auth = false) :
    (w.log e).trace.filter q = w.trace.filter q :=
  filter_log q w e (not_load_auth q hq e h1 h2)

theorem pil_proxy_vote_quiet (q : Event → Bool)
    (hq : ∀ e, q e = true → e.is_load = true ∨ e.is_auth = true) (desc : pil_desc) (w : World) :
    (pil_proxy_vote desc w).2.trace.filter q = w.trace.filter q := by
  simp only [pil_proxy_vote]
  cases desc.ops.proxy_vote <;> simp only <;> split_ifs <;>
    simp only [filter_log_quiet q hq, Event.is_load, Event.is_auth]

theorem pil_proxy_unvote_quiet (q : Event → Bool)
    (hq : ∀ e, q e = true → e.is_load = true ∨ e.is_auth = true) (env : Env) (desc : pil_desc)
    (immediate : Int) (w : World) :
    (pil_proxy_unvote env desc immediate w).trace.filter q = w.trace.filter q := by
  simp only [pil_proxy_unvote]
  split_ifs <;> simp only [filter_log_quiet q hq, Event.is_load, Event.is_auth]

/-- The labels `err_deinit_image`, `err_boot`, `release_fw` and `out` of
`pil_boot` load nothing and do not call `auth_and_reset`. -/
theorem pil_boot_err_deinit_image_quiet (q : Event → Bool)
    (hq : ∀ e, q e = true → e.is_load = true ∨ e.is_auth = true) (env : Env) (desc : pil_desc)
    (priv : pil_priv) (w : World) (ret : Int) :
    (pil_boot_err_deinit_image env desc priv w ret).ret = some ret ∧
      (pil_boot_err_deinit_image env desc priv w ret).world.trace.filter q =
        w.trace.filter q := by
  refine ⟨pil_boot_release_fw_ret _ _ _, ?_⟩
  simp only [pil_boot_err_deinit_image, pil_boot_err_boot]
  rw [pil_boot_release_fw_filter q (not_load_auth q hq _ rfl rfl) (not_load_auth q hq _ rfl rfl)
    (fun _ _ _ => not_load_auth q hq _ rfl rfl) (fun _ _ => not_load_auth q hq _ rfl rfl),
    pil_proxy_unvote_quiet q hq]
  split_ifs <;> simp only [filter_log_quiet q hq, Event.is_load, Event.is_auth]

/-- Up to its loop over the segments `pil_boot` loads nothing and does not
call `auth_and_reset`. -/
theorem pil_boot_loading_quiet (q : Event → Bool)
    (hq : ∀ e, q e = true → e.is_load = true ∨ e.is_auth = true) (A : Arch) (env : Env)
    (desc : pil_desc) (priv : pil_priv) (w : World) (p : pil_priv) (w2 : World)
    (h : pil_boot_loading A env desc priv w = some (p, w2)) :
    w2.trace.filter q = w.trace.filter q := by
  simp only [pil_boot_loading] at h
  by_cases h1 : (env.request_firmware.1 != 0) = true
  · rw [if_pos h1] at h; cases h
  rw [if_neg h1] at h
  by_cases h2 : env.request_firmware.2.size < sizeof_elf32_hdr
  · rw [if_pos h2] at h; cases h
  rw [if_neg h2] at h
  by_cases h3 : (env.request_firmware.2.data.hdr.e_ident.take 4 != ELFMAG) = true
  · rw [if_pos h3] at h; cases h
  rw [if_neg h3] at h
  by_cases h4 : (env.request_firmware.2.data.hdr.e_phnum == 0) = true
  · rw [if_pos h4] at h; cases h
  rw [if_neg h4] at h
  by_cases h5 : sizeof_elf32_phdr * env.request_firmware.2.data.hdr.e_phnum + sizeof_elf32_hdr >
      env.request_firmware.2.size
  · rw [if_pos h5] at h; cases h
  rw [if_neg h5] at h
  split at h
  · cases h
  · rename_i ret p1 w1 hm
    have hw1 : w1.trace.filter q = w.trace.filter q := by
      have := pil_init_mmap_world A env desc (pil_release_mmap priv w).1
        env.request_firmware.2.data
        ((((pil_release_mmap priv w).2.log .down_read).log .request_firmware).log
          .init_dma_attrs)
      rw [hm] at this
      have hw : w1 = (pil_setup_region A env desc (pil_release_mmap priv w).1
          env.request_firmware.2.data
          ((((pil_release_mmap priv w).2.log .down_read).log .request_firmware).log
            .init_dma_attrs)).world := this
      rw [hw, pil_setup_region_filter q (not_load_auth q hq _ rfl rfl)
        (fun _ _ _ => not_load_auth q hq _ rfl rfl) (fun _ _ => not_load_auth q hq _ rfl rfl),
        filter_log_quiet q hq _ .init_dma_attrs rfl rfl,
        pil_boot_start_filter q (not_load_auth q hq _ rfl rfl) (not_load_auth q hq _ rfl rfl)
          (fun _ _ => not_load_auth q hq _ rfl rfl)]
    by_cases h6 : (ret != 0) = true
    · rw [if_pos h6] at h; cases h
    rw [if_neg h6] at h
    by_cases h7 : ((pil_proxy_vote desc w1).1 != 0) = true
    · rw [if_pos h7] at h; cases h
    rw [if_neg h7] at h
    split_ifs at h with h8 h9
    simp only [Option.some.injEq, Prod.mk.injEq] at h
    obtain ⟨-, hw⟩ := h
    rw [← hw, ← hw1, ← pil_proxy_vote_quiet q hq desc w1]
    cases desc.ops.mem_setup <;> cases desc.ops.init_image <;>
      simp only [filter_log_quiet q hq, Event.is_load, Event.is_auth]

/-! ## Why a segment fails to load -/

/-- The zeroing loop returns -ENOMEM when the mapping of one of its windows
fails: window `k` starts `k` MiB after `paddr` and is 1 MiB long, or what is
left of `count`. -/
theorem pil_load_seg_zero_enomem (A : Arch) (env : Env) :
    ∀ (fuel paddr : Nat) (count : Int) (h : count ≤ fuel) (w : World),
      paddr < 2 ^ A.physBits →
      (∃ k : Nat, (k : Int) * IOMAP_SIZE < count ∧
        env.map_fw_mem ((paddr + k * IOMAP_SIZE) % 2 ^ A.physBits)
          (min (IOMAP_SIZE : Int) (count - k * IOMAP_SIZE)) = 0) →
      (pil_load_seg_zero A env fuel paddr count h w).1 = -ENOMEM := by
  intro fuel
  induction fuel with
  | zero =>
    intro paddr count h w _ hk
    obtain ⟨k, hk, _⟩ := hk
    exfalso
    have : (0 : Int) ≤ (k : Int) * IOMAP_SIZE := by positivity
    simp only [Nat.cast_zero] at h
    omega
  | succ fuel ih =>
    intro paddr count h w hp hex
    obtain ⟨k, hk, hmap⟩ := hex
    have hk0 : (0 : Int) ≤ (k : Int) * IOMAP_SIZE := by positivity
    have hc : count > 0 := by omega
    unfold pil_load_seg_zero
    rw [dif_pos hc]
    simp only
    by_cases h0 : env.map_fw_mem paddr (min (IOMAP_SIZE : Int) count) = 0
    · rw [if_pos (by simpa using h0)]
    · rw [if_neg (by simpa using h0)]
      cases k with
      | zero =>
        exfalso
        apply h0
        simp only [Nat.zero_mul, Nat.add_zero, Nat.cast_zero, Int.zero_mul, Int.sub_zero,
          zero_mul, sub_zero, add_zero] at hmap
        rw [Nat.mod_eq_of_lt hp] at hmap
        exact hmap
      | succ k =>
        have hM : (IOMAP_SIZE : Int) < count := by
          simp only [IOMAP_SIZE, SZ_1M] at hk ⊢
          push_cast at hk ⊢
          have : (0 : Int) ≤ (k : Int) := Int.natCast_nonneg k
          nlinarith
        have hmin : min (IOMAP_SIZE : Int) count = (IOMAP_SIZE : Int) := min_eq_left (le_of_lt hM)
        apply ih
        · exact Nat.mod_lt _ (by positivity)
        · refine ⟨k, ?_, ?_⟩
          · rw [hmin]
            push_cast at hk ⊢
            linarith
          · rw [hmin]
            have e1 : ((paddr + (IOMAP_SIZE : Int).toNat) % 2 ^ A.physBits + k * IOMAP_SIZE) %
                2 ^ A.physBits = (paddr + (k + 1) * IOMAP_SIZE) % 2 ^ A.physBits := by
              have : (IOMAP_SIZE : Int).toNat = IOMAP_SIZE := Int.toNat_natCast _
              rw [this, Nat.add_mod, Nat.mod_mod, ← Nat.add_mod]
              congr 1
              ring
            have e2 : count - (IOMAP_SIZE : Int) - (k : Int) * IOMAP_SIZE =
                count - ((k + 1 : Nat) : Int) * IOMAP_SIZE := by
              push_cast
              ring
            rw [e1, e2]
            exact hmap

/-- The zeroing loop returns 0 when the mapping of each of its windows
succeeds. -/
theorem pil_load_seg_zero_mapped (A : Arch) (env : Env) :
    ∀ (fuel paddr : Nat) (count : Int) (h : count ≤ fuel) (w : World),
      paddr < 2 ^ A.physBits →
      (∀ k : Nat, (k : Int) * IOMAP_SIZE < count →
        env.map_fw_mem ((paddr + k * IOMAP_SIZE) % 2 ^ A.physBits)
          (min (IOMAP_SIZE : Int) (count - k * IOMAP_SIZE)) ≠ 0) →
      (pil_load_seg_zero A env fuel paddr count h w).1 = 0 := by
  intro fuel
  induction fuel with
  | zero => intro paddr count h w _ _; rfl
  | succ fuel ih =>
    intro paddr count h w hp hall
    unfold pil_load_seg_zero
    by_cases hc : count > 0
    · rw [dif_pos hc]
      simp only
      have h0 := hall 0 (by simpa using hc)
      simp only [Nat.zero_mul, Nat.add_zero, Nat.cast_zero, Int.zero_mul, Int.sub_zero,
        zero_mul, sub_zero, add_zero] at h0
      rw [Nat.mod_eq_of_lt hp] at h0
      rw [if_neg (by simpa using h0)]
      apply ih
      · exact Nat.mod_lt _ (by positivity)
      · intro k hk
        have hpos : (0 : Int) ≤ (k : Int) * IOMAP_SIZE := by positivity
        have hM : (IOMAP_SIZE : Int) < count := by
          by_contra hle
          rw [min_eq_right (by omega)] at hk
          omega
        have hmin : min (IOMAP_SIZE : Int) count = (IOMAP_SIZE : Int) := min_eq_left (le_of_lt hM)
        rw [hmin] at hk ⊢
        have e1 : ((paddr + (IOMAP_SIZE : Int).toNat) % 2 ^ A.physBits + k * IOMAP_SIZE) %
            2 ^ A.physBits = (paddr + (k + 1) * IOMAP_SIZE) % 2 ^ A.physBits := by
          have : (IOMAP_SIZE : Int).toNat = IOMAP_SIZE := Int.toNat_natCast _
          rw [this, Nat.add_mod, Nat.mod_mod, ← Nat.add_mod]
          congr 1
          ring
        have e2 : count - (IOMAP_SIZE : Int) - (k : Int) * IOMAP_SIZE =
            count - ((k + 1 : Nat) : Int) * IOMAP_SIZE := by
          push_cast
          ring
        rw [e1, e2]
        apply hall
        push_cast
        linarith
    · rw [dif_neg hc]

/-- What the part of `pil_load_seg` after the fetch returns: -ENOMEM when the
mapping of a window of the trailing range fails, and else the result of
`verify_blob`, 0 without the hook. -/
theorem pil_load_seg_trailing_ret (A : Arch) (env : Env) (desc : pil_desc) (s : pil_seg)
    (w : World) :
    ((∃ k : Nat, (k : Int) * IOMAP_SIZE < pil_load_seg_count A s ∧
        env.map_fw_mem ((s.paddr + s.filesz + k * IOMAP_SIZE) % 2 ^ A.physBits)
          (min (IOMAP_SIZE : Int) (pil_load_seg_count A s - k * IOMAP_SIZE)) = 0) →
      (pil_load_seg_trailing A env desc s w).1 = -ENOMEM) ∧
    ((∀ k : Nat, (k : Int) * IOMAP_SIZE < pil_load_seg_count A s →
        env.map_fw_mem ((s.paddr + s.filesz + k * IOMAP_SIZE) % 2 ^ A.physBits)
          (min (IOMAP_SIZE : Int) (pil_load_seg_count A s - k * IOMAP_SIZE)) ≠ 0) →
      (∀ f, desc.ops.verify_blob = some f →
        (pil_load_seg_trailing A env desc s w).1 = f s.paddr s.sz) ∧
      (desc.ops.verify_blob = none → (pil_load_seg_trailing A env desc s w).1 = 0)) := by
  have hp : (s.paddr + s.filesz) % 2 ^ A.physBits < 2 ^ A.physBits :=
    Nat.mod_lt _ (by positivity)
  constructor
  · rintro ⟨k, hk, hmap⟩
    have hz := pil_load_seg_zero_enomem A env (pil_load_seg_count A s).toNat
      ((s.paddr + s.filesz) % 2 ^ A.physBits) (pil_load_seg_count A s)
      (Int.self_le_toNat _) w hp ⟨k, hk, by rw [Nat.mod_add_mod]; exact hmap⟩
    simp only [pil_load_seg_trailing]
    rw [if_pos (by rw [hz]; decide)]
    exact hz
  · intro hall
    have hz := pil_load_seg_zero_mapped A env (pil_load_seg_count A s).toNat
      ((s.paddr + s.filesz) % 2 ^ A.physBits) (pil_load_seg_count A s)
      (Int.self_le_toNat _) w hp (fun k hk => by rw [Nat.mod_add_mod]; exact hall k hk)
    simp only [pil_load_seg_trailing]
    rw [if_neg (by rw [hz]; decide)]
    unfold pil_load_seg_verify
    constructor
    · intro f hf
      rw [hf]
    · intro hf
      rw [hf]

/-- What `pil_load_seg` returns, by cause: the negative result of the fetch;
-EPERM when the fetch returns another length than `filesz`; -ENOMEM when the
mapping of a window of the trailing range fails; and else the result of
`verify_blob`, 0 without the hook. -/
theorem pil_load_seg_ret (A : Arch) (env : Env) (desc : pil_desc) (s : pil_seg) (w : World) :
    (s.filesz ≠ 0 → env.request_firmware_direct s.num s.paddr s.filesz < 0 →
      (pil_load_seg A env desc s w).1 = env.request_firmware_direct s.num s.paddr s.filesz) ∧
    (s.filesz ≠ 0 → 0 ≤ env.request_firmware_direct s.num s.paddr s.filesz →
      wrap A.longBits (env.request_firmware_direct s.num s.paddr s.filesz) ≠ s.filesz →
      (pil_load_seg A env desc s w).1 = -EPERM) ∧
    ((s.filesz = 0 ∨ (0 ≤ env.request_firmware_direct s.num s.paddr s.filesz ∧
        wrap A.longBits (env.request_firmware_direct s.num s.paddr s.filesz) = s.filesz)) →
      ((∃ k : Nat, (k : Int) * IOMAP_SIZE < pil_load_seg_count A s ∧
          env.map_fw_mem ((s.paddr + s.filesz + k * IOMAP_SIZE) % 2 ^ A.physBits)
            (min (IOMAP_SIZE : Int) (pil_load_seg_count A s - k * IOMAP_SIZE)) = 0) →
        (pil_load_seg A env desc s w).1 = -ENOMEM) ∧
      ((∀ k : Nat, (k : Int) * IOMAP_SIZE < pil_load_seg_count A s →
          env.map_fw_mem ((s.paddr + s.filesz + k * IOMAP_SIZE) % 2 ^ A.physBits)
            (min (IOMAP_SIZE : Int) (pil_load_seg_count A s - k * IOMAP_SIZE)) ≠ 0) →
        (∀ f, desc.ops.verify_blob = some f →
          (pil_load_seg A env desc s w).1 = f s.paddr s.sz) ∧
        (desc.ops.verify_blob = none → (pil_load_seg A env desc s w).1 = 0))) := by
  refine ⟨?_, ?_, ?_⟩
  · intro hf hneg
    simp only [pil_load_seg]
    rw [if_pos (by simpa using hf), if_pos hneg]
  · intro hf hpos hne
    simp only [pil_load_seg]
    rw [if_pos (by simpa using hf), if_neg (by omega), if_pos (by simpa using hne)]
  · intro hok
    have hrun : ∃ w0, pil_load_seg A env desc s w = pil_load_seg_trailing A env desc s w0 := by
      simp only [pil_load_seg]
      rcases hok with h0 | ⟨hpos, heq⟩
      · rw [if_neg (by simp [h0])]
        exact ⟨_, rfl⟩
      · by_cases hf : s.filesz = 0
        · rw [if_neg (by simp [hf])]
          exact ⟨_, rfl⟩
        · rw [if_pos (by simpa using hf), if_neg (by omega), if_neg (by simp [heq])]
          exact ⟨_, rfl⟩
    obtain ⟨w0, hrun⟩ := hrun
    rw [hrun]
    exact pil_load_seg_trailing_ret A env desc s w0

/-- The function `pil_load_seg` fails for the four causes and no other: the
fetch returns an error, or another length than `filesz`, or the mapping of a
window of the trailing range fails, or `verify_blob` returns a nonzero
code. -/
theorem pil_load_seg_fails_iff (A : Arch) (env : Env) (desc : pil_desc) (s : pil_seg)
    (w : World) :
    (pil_load_seg A env desc s w).1 ≠ 0 ↔
      ((s.filesz ≠ 0 ∧ env.request_firmware_direct s.num s.paddr s.filesz < 0) ∨
        (s.filesz ≠ 0 ∧
          wrap A.longBits (env.request_firmware_direct s.num s.paddr s.filesz) ≠ s.filesz) ∨
        (∃ k : Nat, (k : Int) * IOMAP_SIZE < pil_load_seg_count A s ∧
          env.map_fw_mem ((s.paddr + s.filesz + k * IOMAP_SIZE) % 2 ^ A.physBits)
            (min (IOMAP_SIZE : Int) (pil_load_seg_count A s - k * IOMAP_SIZE)) = 0) ∨
        (∃ f, desc.ops.verify_blob = some f ∧ f s.paddr s.sz ≠ 0)) := by
  obtain ⟨h1, h2, h3⟩ := pil_load_seg_ret A env desc s w
  by_cases hneg : s.filesz ≠ 0 ∧ env.request_firmware_direct s.num s.paddr s.filesz < 0
  · have e := h1 hneg.1 hneg.2
    exact ⟨fun _ => Or.inl hneg, fun _ => by rw [e]; omega⟩
  by_cases hlen : s.filesz ≠ 0 ∧
      wrap A.longBits (env.request_firmware_direct s.num s.paddr s.filesz) ≠ s.filesz
  · have hpos : 0 ≤ env.request_firmware_direct s.num s.paddr s.filesz := by
      by_contra hc
      exact hneg ⟨hlen.1, by omega⟩
    have e := h2 hlen.1 hpos hlen.2
    exact ⟨fun _ => Or.inr (Or.inl hlen), fun _ => by rw [e]; decide⟩
  have hok : s.filesz = 0 ∨ (0 ≤ env.request_firmware_direct s.num s.paddr s.filesz ∧
      wrap A.longBits (env.request_firmware_direct s.num s.paddr s.filesz) = s.filesz) := by
    by_cases hf : s.filesz = 0
    · exact Or.inl hf
    · refine Or.inr ⟨?_, ?_⟩
      · by_contra hc
        exact hneg ⟨hf, by omega⟩
      · by_contra hc
        exact hlen ⟨hf, hc⟩
  obtain ⟨h3a, h3b⟩ := h3 hok
  by_cases hmap : ∃ k : Nat, (k : Int) * IOMAP_SIZE < pil_load_seg_count A s ∧
      env.map_fw_mem ((s.paddr + s.filesz + k * IOMAP_SIZE) % 2 ^ A.physBits)
        (min (IOMAP_SIZE : Int) (pil_load_seg_count A s - k * IOMAP_SIZE)) = 0
  · have e := h3a hmap
    exact ⟨fun _ => Or.inr (Or.inr (Or.inl hmap)), fun _ => by rw [e]; decide⟩
  have hall : ∀ k : Nat, (k : Int) * IOMAP_SIZE < pil_load_seg_count A s →
      env.map_fw_mem ((s.paddr + s.filesz + k * IOMAP_SIZE) % 2 ^ A.physBits)
        (min (IOMAP_SIZE : Int) (pil_load_seg_count A s - k * IOMAP_SIZE)) ≠ 0 :=
    fun k hk h0 => hmap ⟨k, hk, h0⟩
  obtain ⟨hv1, hv2⟩ := h3b hall
  cases hv : desc.ops.verify_blob with
  | none =>
    have e := hv2 hv
    constructor
    · intro h; exact absurd e h
    · rintro (h | h | h | ⟨f, hf, _⟩)
      · exact absurd h hneg
      · exact absurd h hlen
      · exact absurd h hmap
      · cases hf
  | some f =>
    have e := hv1 f hv
    constructor
    · intro h
      exact Or.inr (Or.inr (Or.inr ⟨f, rfl, by rw [← e]; exact h⟩))
    · rintro (h | h | h | ⟨g, hg, hne⟩)
      · exact absurd h hneg
      · exact absurd h hlen
      · exact absurd h hmap
      · cases hg
        rw [e]
        exact hne

/-- The loop of `pil_boot` stops at the first segment for which `pil_load_seg`
returns a nonzero code: with the list `pre ++ s :: post`, the segments of
`pre` loading and `s` returning a nonzero code, `pil_boot` returns the code of
`s`, the loader events of the whole call end with those of `s`, and
`auth_and_reset` is not called. -/
theorem pil_boot_load_stops (A : Arch) (env : Env) (desc : pil_desc) (priv : pil_priv)
    (w : World) (p : pil_priv) (w2 : World) (pre : List pil_seg) (s : pil_seg)
    (post : List pil_seg)
    (hload : pil_boot_loading A env desc priv w = some (p, w2))
    (hsegs : p.segs = pre ++ s :: post)
    (hpre : (pil_boot_load_segs A env desc pre w2).1 = 0)
    (hfail : (pil_load_seg A env desc s (pil_boot_load_segs A env desc pre w2).2).1 ≠ 0) :
    pil_boot_load_segs A env desc p.segs w2 =
        pil_load_seg A env desc s (pil_boot_load_segs A env desc pre w2).2 ∧
      (pil_boot A env desc priv w).ret =
        some (pil_load_seg A env desc s (pil_boot_load_segs A env desc pre w2).2).1 ∧
      w2.trace.filter Event.is_load = w.trace.filter Event.is_load ∧
      (pil_boot A env desc priv w).world.trace.filter Event.is_load =
        (pil_load_seg A env desc s (pil_boot_load_segs A env desc pre w2).2).2.trace.filter
          Event.is_load ∧
      (pil_boot A env desc priv w).world.trace.filter Event.is_auth =
        w.trace.filter Event.is_auth := by
  have hstop := pil_boot_load_segs_stops A env desc pre s post w2
    (pil_boot_load_segs A env desc pre w2).2 (Prod.ext hpre rfl) hfail
  rw [← hsegs] at hstop
  have hrun := pil_boot_of_loading A env desc priv w p w2 hload
  rw [hstop, if_pos (by simpa using hfail)] at hrun
  have hl := pil_boot_err_deinit_image_quiet Event.is_load (fun _ h => Or.inl h) env desc p
    (pil_load_seg A env desc s (pil_boot_load_segs A env desc pre w2).2).2
    (pil_load_seg A env desc s (pil_boot_load_segs A env desc pre w2).2).1
  have ha := pil_boot_err_deinit_image_quiet Event.is_auth (fun _ h => Or.inr h) env desc p
    (pil_load_seg A env desc s (pil_boot_load_segs A env desc pre w2).2).2
    (pil_load_seg A env desc s (pil_boot_load_segs A env desc pre w2).2).1
  have hna : ∀ e : Event, e.is_load = true → e.is_auth = false := by
    intro e he
    cases e <;> simp_all [Event.is_load, Event.is_auth]
  refine ⟨hstop, by rw [hrun]; exact hl.1,
    pil_boot_loading_quiet Event.is_load (fun _ h => Or.inl h) A env desc priv w p w2 hload,
    by rw [hrun]; exact hl.2, ?_⟩
  rw [hrun, ha.2, extends_by_filter _ _ hna _ _ (pil_load_seg_loads A env desc s _),
    extends_by_filter _ _ hna _ _ (pil_boot_load_segs_loads A env desc pre w2)]
  exact pil_boot_loading_quiet Event.is_auth (fun _ h => Or.inr h) A env desc priv w p w2 hload

/-- C14: `pil_boot` loads the segments in list order, each in the world the
one before has left, and stops at the first one for which `pil_load_seg`
fails. With the list `pre ++ s :: post` and the segments of `pre` loading:
`pil_load_seg` returns a nonzero code for `s` exactly when the fetch of its
blob returns an error, or the fetch returns another length than `filesz`, or
the mapping of a window of its trailing range fails, or `verify_blob` returns
a nonzero code; the code is then, in this order of precedence, the error of
the fetch, -EPERM, -ENOMEM, the code of `verify_blob`. In each of these cases
`pil_boot` returns the code of `s`, the loader events of the whole call end
with those of `s` (nothing of `post` is fetched, mapped, zeroed or verified),
and `auth_and_reset` is not called. -/
theorem pil_boot_load_failure (A : Arch) (env : Env) (desc : pil_desc) (priv : pil_priv)
    (w : World) (p : pil_priv) (w2 : World) (pre : List pil_seg) (s : pil_seg)
    (post : List pil_seg)
    (hload : pil_boot_loading A env desc priv w = some (p, w2))
    (hsegs : p.segs = pre ++ s :: post)
    (hpre : (pil_boot_load_segs A env desc pre w2).1 = 0) :
    ((pil_load_seg A env desc s (pil_boot_load_segs A env desc pre w2).2).1 ≠ 0 ↔
      ((s.filesz ≠ 0 ∧ env.request_firmware_direct s.num s.paddr s.filesz < 0) ∨
        (s.filesz ≠ 0 ∧
          wrap A.longBits (env.request_firmware_direct s.num s.paddr s.filesz) ≠ s.filesz) ∨
        (∃ k : Nat, (k : Int) * IOMAP_SIZE < pil_load_seg_count A s ∧
          env.map_fw_mem ((s.paddr + s.filesz + k * IOMAP_SIZE) % 2 ^ A.physBits)
            (min (IOMAP_SIZE : Int) (pil_load_seg_count A s - k * IOMAP_SIZE)) = 0) ∨
        (∃ f, desc.ops.verify_blob = some f ∧ f s.paddr s.sz ≠ 0))) ∧
    ((s.filesz ≠ 0 → env.request_firmware_direct s.num s.paddr s.filesz < 0 →
        (pil_load_seg A env desc s (pil_boot_load_segs A env desc pre w2).2).1 =
          env.request_firmware_direct s.num s.paddr s.filesz) ∧
      (s.filesz ≠ 0 → 0 ≤ env.request_firmware_direct s.num s.paddr s.filesz →
        wrap A.longBits (env.request_firmware_direct s.num s.paddr s.filesz) ≠ s.filesz →
        (pil_load_seg A env desc s (pil_boot_load_segs A env desc pre w2).2).1 = -EPERM) ∧
      ((s.filesz = 0 ∨ (0 ≤ env.request_firmware_direct s.num s.paddr s.filesz ∧
          wrap A.longBits (env.request_firmware_direct s.num s.paddr s.filesz) = s.filesz)) →
        ((∃ k : Nat, (k : Int) * IOMAP_SIZE < pil_load_seg_count A s ∧
            env.map_fw_mem ((s.paddr + s.filesz + k * IOMAP_SIZE) % 2 ^ A.physBits)
              (min (IOMAP_SIZE : Int) (pil_load_seg_count A s - k * IOMAP_SIZE)) = 0) →
          (pil_load_seg A env desc s (pil_boot_load_segs A env desc pre w2).2).1 = -ENOMEM) ∧
        ((∀ k : Nat, (k : Int) * IOMAP_SIZE < pil_load_seg_count A s →
            env.map_fw_mem ((s.paddr + s.filesz + k * IOMAP_SIZE) % 2 ^ A.physBits)
              (min (IOMAP_SIZE : Int) (pil_load_seg_count A s - k * IOMAP_SIZE)) ≠ 0) →
          ∀ f, desc.ops.verify_blob = some f →
            (pil_load_seg A env desc s (pil_boot_load_segs A env desc pre w2).2).1 = f s.paddr s.sz))) ∧
    ((((s.filesz ≠ 0 ∧ env.request_firmware_direct s.num s.paddr s.filesz < 0) ∨
        (s.filesz ≠ 0 ∧
          wrap A.longBits (env.request_firmware_direct s.num s.paddr s.filesz) ≠ s.filesz) ∨
        (∃ k : Nat, (k : Int) * IOMAP_SIZE < pil_load_seg_count A s ∧
          env.map_fw_mem ((s.paddr + s.filesz + k * IOMAP_SIZE) % 2 ^ A.physBits)
            (min (IOMAP_SIZE : Int) (pil_load_seg_count A s - k * IOMAP_SIZE)) = 0) ∨
        (∃ f, desc.ops.verify_blob = some f ∧ f s.paddr s.sz ≠ 0))) →
      (pil_load_seg A env desc s (pil_boot_load_segs A env desc pre w2).2).1 ≠ 0 ∧
      pil_boot_load_segs A env desc p.segs w2 =
        pil_load_seg A env desc s (pil_boot_load_segs A env desc pre w2).2 ∧
      (pil_boot A env desc priv w).ret =
        some (pil_load_seg A env desc s (pil_boot_load_segs A env desc pre w2).2).1 ∧
      w2.trace.filter Event.is_load = w.trace.filter Event.is_load ∧
      (pil_boot A env desc priv w).world.trace.filter Event.is_load =
        (pil_load_seg A env desc s (pil_boot_load_segs A env desc pre w2).2).2.trace.filter
          Event.is_load ∧
      (pil_boot A env desc priv w).world.trace.filter Event.is_auth =
        w.trace.filter Event.is_auth) := by
  have hiff := pil_load_seg_fails_iff A env desc s (pil_boot_load_segs A env desc pre w2).2
  obtain ⟨h1, h2, h3⟩ := pil_load_seg_ret A env desc s (pil_boot_load_segs A env desc pre w2).2
  refine ⟨hiff, ⟨h1, h2, fun hok => ⟨(h3 hok).1, fun hall => ((h3 hok).2 hall).1⟩⟩, ?_⟩
  intro hcause
  have hfail := hiff.mpr hcause
  exact ⟨hfail, pil_boot_load_stops A env desc priv w p w2 pre s post hload hsegs hpre hfail⟩

theorem pil_boot_load_failure_witness :
    (pil_boot .arm (ex_env_missing (ex_fw 0x10 ex_phdrs_tie)) ex_desc ex_priv ex_world).ret =
        some (-2) ∧
      (pil_boot .arm (ex_env_missing (ex_fw 0x10 ex_phdrs_tie)) ex_desc ex_priv
        ex_world).world.trace.filter Event.is_load =
        [.map_fw_mem 0x1000 0x1000, .memset 0x40001000 0x1000, .unmap_fw_mem 0x40001000,
          .verify_blob 0x1000 0x1000, .request_firmware_direct 3 0x1000 0x10] ∧
      (pil_boot .arm (ex_env_missing (ex_fw 0x10 ex_phdrs_tie)) ex_desc ex_priv
        ex_world).world.trace.filter Event.is_auth = [] ∧
      (pil_boot .arm (ex_env_0x500 (ex_fw 0x10 ex_phdrs_tie)) ex_desc ex_priv ex_world).ret =
        some (-EPERM) ∧
      (pil_boot .arm (ex_env_nomap (ex_fw 0x10 ex_phdrs_tie)) ex_desc ex_priv ex_world).ret =
        some (-ENOMEM) ∧
      (pil_boot .arm (ex_env_nomap (ex_fw 0x10 ex_phdrs_tie)) ex_desc ex_priv
        ex_world).world.trace.filter Event.is_load =
        [.map_fw_mem 0x1000 0x1000, .memset 0x40001000 0x1000, .unmap_fw_mem 0x40001000,
          .verify_blob 0x1000 0x1000, .request_firmware_direct 3 0x1000 0x10,
          .map_fw_mem 0x1010 0x7f0] ∧
      (pil_boot .arm (ex_env (ex_fw 0x10 ex_phdrs_tie)) ex_desc_noverify ex_priv ex_world).ret =
        some (-22) ∧
      (pil_boot .arm (ex_env (ex_fw 0x10 ex_phdrs_tie)) ex_desc_noverify ex_priv
        ex_world).world.trace.filter Event.is_auth = [] := by
  -- the fetch of the blob of segment 3 returns -2
  have hA := pil_boot_load_failure .arm (ex_env_missing (ex_fw 0x10 ex_phdrs_tie)) ex_desc
    ex_priv ex_world ex_loading_missing.1 ex_loading_missing.2
    [{ paddr := 0x1000, sz := 0x1000, filesz := 0, num := 2, relocated := false }]
    { paddr := 0x1000, sz := 0x800, filesz := 0x10, num := 3, relocated := false }
    [{ paddr := 0x90000000, sz := 0x1000, filesz := 0x600, num := 1, relocated := true }]
    rfl (by decide) (by decide)
  have hA1 := hA.2.1.1 (by decide) (by decide)
  have hA2 := hA.2.2 (Or.inl ⟨by decide, by decide⟩)
  -- the blob of segment 1 comes with 0x500 bytes for 0x600
  have hB := pil_boot_load_failure .arm (ex_env_0x500 (ex_fw 0x10 ex_phdrs_tie)) ex_desc
    ex_priv ex_world ex_loading_0x500.1 ex_loading_0x500.2
    [{ paddr := 0x1000, sz := 0x1000, filesz := 0, num := 2, relocated := false },
      { paddr := 0x1000, sz := 0x800, filesz := 0x10, num := 3, relocated := false }]
    { paddr := 0x90000000, sz := 0x1000, filesz := 0x600, num := 1, relocated := true } []
    rfl (by decide) (by decide)
  have hB1 := hB.2.1.2.1 (by decide) (by decide) (by decide)
  have hB2 := hB.2.2 (Or.inr (Or.inl ⟨by decide, by decide⟩))
  -- the mapping of the trailing range of segment 3 fails
  have hC := pil_boot_load_failure .arm (ex_env_nomap (ex_fw 0x10 ex_phdrs_tie)) ex_desc
    ex_priv ex_world ex_loading_nomap.1 ex_loading_nomap.2
    [{ paddr := 0x1000, sz := 0x1000, filesz := 0, num := 2, relocated := false }]
    { paddr := 0x1000, sz := 0x800, filesz := 0x10, num := 3, relocated := false }
    [{ paddr := 0x90000000, sz := 0x1000, filesz := 0x600, num := 1, relocated := true }]
    rfl (by decide) (by decide)
  have hC1 := (hC.2.1.2.2 (Or.inr ⟨by decide, by decide⟩)).1 ⟨0, by decide, by decide⟩
  have hC2 := hC.2.2 (Or.inr (Or.inr (Or.inl ⟨0, by decide, by decide⟩)))
  -- the hook rejects segment 3
  have hD := pil_boot_load_failure .arm (ex_env (ex_fw 0x10 ex_phdrs_tie)) ex_desc_noverify
    ex_priv ex_world ex_loading_noverify.1 ex_loading_noverify.2
    [{ paddr := 0x1000, sz := 0x1000, filesz := 0, num := 2, relocated := false }]
    { paddr := 0x1000, sz := 0x800, filesz := 0x10, num := 3, relocated := false }
    [{ paddr := 0x90000000, sz := 0x1000, filesz := 0x600, num := 1, relocated := true }]
    rfl (by decide) (by decide)
  have hD2 := hD.2.2 (Or.inr (Or.inr (Or.inr ⟨_, rfl, by decide⟩)))
  refine ⟨?_, by decide, ?_, ?_, ?_, by decide, ?_, ?_⟩
  · rw [hA2.2.2.1, hA1]; rfl
  · rw [hA2.2.2.2.2.2]; rfl
  · rw [hB2.2.2.1, hB1]
  · rw [hC2.2.2.1, hC1]
  · rw [hD2.2.2.1]; decide
  · rw [hD2.2.2.2.2.2]; rfl


/-! ## A blob of the wrong length -/

theorem pil_release_mmap_setup (priv : pil_priv) (w : World) :
    extends_by Event.is_setup w.trace (pil_release_mmap priv w).2.trace := by
  simp only [pil_release_mmap]
  split
  · exact extends_by_log _ _ _ rfl
  · exact extends_by_refl _ _

theorem pil_alloc_region_setup (A : Arch) (env : Env) (desc : pil_desc) (priv : pil_priv)
    (min_addr max_addr align : Nat) (w : World) :
    extends_by Event.is_setup w.trace
      (pil_alloc_region A env desc priv min_addr max_addr align w).world.trace := by
  simp only [pil_alloc_region]
  split_ifs <;> first | exact extends_by_refl _ _ | exact extends_by_log _ _ _ rfl

theorem pil_setup_region_info_setup (ret : Int) (priv : pil_priv) (w : World) :
    extends_by Event.is_setup w.trace (pil_setup_region_info ret priv w).world.trace := by
  simp only [pil_setup_region_info]
  split
  · exact extends_by_log _ _ _ rfl
  · exact extends_by_refl _ _

theorem pil_setup_region_setup (A : Arch) (env : Env) (desc : pil_desc) (priv : pil_priv)
    (mdt : pil_mdt) (w : World) :
    extends_by Event.is_setup w.trace (pil_setup_region A env desc priv mdt w).world.trace := by
  simp only [pil_setup_region]
  refine extends_by_trans _ _ _ _ (extends_by_log _ w .enter_setup_region rfl) ?_
  split
  · have ha := pil_alloc_region_setup A env desc priv
      (pil_setup_region_limits A mdt).min_addr_r
      (ALIGN A.physBits (pil_setup_region_limits A mdt).max_addr_r SZ_4K)
      (pil_setup_region_limits A mdt).align (w.log .enter_setup_region)
    split
    · rename_i w1 hw
      rw [hw] at ha
      exact ha
    · rename_i r p1 w1 hw
      rw [hw] at ha
      exact extends_by_trans _ _ _ _ ha (pil_setup_region_info_setup _ _ _)
  · exact pil_setup_region_info_setup _ _ _

theorem pil_proxy_vote_setup (desc : pil_desc) (w : World) :
    extends_by Event.is_setup w.trace (pil_proxy_vote desc w).2.trace := by
  simp only [pil_proxy_vote]
  refine extends_by_trans _ _ _ _ ?_ (extends_by_log _ _ _ rfl)
  have h1 : extends_by Event.is_setup w.trace
      (match desc.ops.proxy_vote with
        | some ret =>
          (ret, if ret != 0 then ((w.log .wake_lock).log .proxy_vote).log .wake_unlock
            else (w.log .wake_lock).log .proxy_vote)
        | none => ((0 : Int), w)).2.trace := by
    cases desc.ops.proxy_vote with
    | none => exact extends_by_refl _ _
    | some ret =>
      simp only
      have h2 := extends_by_trans _ _ _ _ (extends_by_log Event.is_setup w .wake_lock rfl)
        (extends_by_log Event.is_setup (w.log .wake_lock) .proxy_vote rfl)
      split_ifs
      · exact extends_by_trans _ _ _ _ h2 (extends_by_log _ _ _ rfl)
      · exact h2
  split_ifs
  · exact extends_by_trans _ _ _ _ h1 (extends_by_log _ _ _ rfl)
  · exact h1

/-- Up to its loop over the segments `pil_boot` makes set-up calls only. -/
theorem pil_boot_loading_setup (A : Arch) (env : Env) (desc : pil_desc) (priv : pil_priv)
    (w : World) (p : pil_priv) (w2 : World)
    (h : pil_boot_loading A env desc priv w = some (p, w2)) :
    extends_by Event.is_setup w.trace w2.trace := by
  simp only [pil_boot_loading] at h
  by_cases h1 : (env.request_firmware.1 != 0) = true
  · rw [if_pos h1] at h; cases h
  rw [if_neg h1] at h
  by_cases h2 : env.request_firmware.2.size < sizeof_elf32_hdr
  · rw [if_pos h2] at h; cases h
  rw [if_neg h2] at h
  by_cases h3 : (env.request_firmware.2.data.hdr.e_ident.take 4 != ELFMAG) = true
  · rw [if_pos h3] at h; cases h
  rw [if_neg h3] at h
  by_cases h4 : (env.request_firmware.2.data.hdr.e_phnum == 0) = true
  · rw [if_pos h4] at h; cases h
  rw [if_neg h4] at h
  by_cases h5 : sizeof_elf32_phdr * env.request_firmware.2.data.hdr.e_phnum + sizeof_elf32_hdr >
      env.request_firmware.2.size
  · rw [if_pos h5] at h; cases h
  rw [if_neg h5] at h
  split at h
  · cases h
  · rename_i ret p1 w1 hm
    have hw1 : extends_by Event.is_setup w.trace w1.trace := by
      have := pil_init_mmap_world A env desc (pil_release_mmap priv w).1
        env.request_firmware.2.data
        ((((pil_release_mmap priv w).2.log .down_read).log .request_firmware).log
          .init_dma_attrs)
      rw [hm] at this
      have hw : w1 = (pil_setup_region A env desc (pil_release_mmap priv w).1
          env.request_firmware.2.data
          ((((pil_release_mmap priv w).2.log .down_read).log .request_firmware).log
            .init_dma_attrs)).world := this
      rw [hw]
      refine extends_by_trans _ _ _ _ ?_ (pil_setup_region_setup A env desc _ _ _)
      exact extends_by_trans _ _ _ _ (pil_release_mmap_setup priv w)
        (extends_by_trans _ _ _ _ (extends_by_log _ _ .down_read rfl)
          (extends_by_trans _ _ _ _ (extends_by_log _ _ .request_firmware rfl)
            (extends_by_log _ _ .init_dma_attrs rfl)))
    by_cases h6 : (ret != 0) = true
    · rw [if_pos h6] at h; cases h
    rw [if_neg h6] at h
    by_cases h7 : ((pil_proxy_vote desc w1).1 != 0) = true
    · rw [if_pos h7] at h; cases h
    rw [if_neg h7] at h
    split_ifs at h with h8 h9
    simp only [Option.some.injEq, Prod.mk.injEq] at h
    obtain ⟨-, hw⟩ := h
    rw [← hw]
    refine extends_by_trans _ _ _ _ hw1 (extends_by_trans _ _ _ _ (pil_proxy_vote_setup desc w1) ?_)
    cases desc.ops.mem_setup <;> cases desc.ops.init_image <;> simp only
    · exact extends_by_refl _ _
    · exact extends_by_log _ _ _ rfl
    · exact extends_by_log _ _ _ rfl
    · exact extends_by_trans _ _ _ _ (extends_by_log _ _ .init_image rfl)
        (extends_by_log _ _ _ rfl)

/-- The calls of an immediate `pil_proxy_unvote`: with a `proxy_unvote` hook
it asks for a module reference and, having got it, queues the release without
delay. -/
theorem pil_proxy_unvote_immediate (env : Env) (desc : pil_desc) (immediate : Int) (w : World)
    (h : immediate ≠ 0) :
    (pil_proxy_unvote env desc immediate w).trace = w.trace ++
      (if desc.ops.proxy_unvote = true then
        Event.try_module_get ::
          (if env.try_module_get = true then [.schedule_delayed_work 0] else [])
      else []) := by
  have hb : (immediate == 0) = false := by simpa using h
  have hb2 : (immediate != 0) = true := by simpa using h
  simp only [pil_proxy_unvote, hb, hb2, Bool.and_false, Bool.false_eq_true, if_false, if_true,
    Bool.or_true]
  cases desc.ops.proxy_unvote <;> cases env.try_module_get <;> simp [World.log]

theorem pil_load_seg_short (A : Arch) (env : Env) (desc : pil_desc) (s : pil_seg) (w : World)
    (hfilesz : s.filesz ≠ 0) (hret : 0 ≤ env.request_firmware_direct s.num s.paddr s.filesz)
    (hshort : wrap A.longBits (env.request_firmware_direct s.num s.paddr s.filesz) ≠ s.filesz) :
    (pil_load_seg A env desc s w).1 = -EPERM := by
  simp only [pil_load_seg]
  rw [if_pos (by simpa using hfilesz), if_neg (by omega), if_pos (by simpa using hshort)]

/-- The world `pil_boot` leaves when it fails after the proxy vote, from the
label `err_deinit_image` on. -/
theorem pil_boot_err_deinit_image_error (q : Event → Bool) (h1 : q .deinit_image = false)
    (h2 : ∀ i, q (.disable_irq i) = false) (h3 : q .up_read = false)
    (h4 : ∀ a b, q (.info_write a b) = false)
    (env : Env) (desc : pil_desc) (priv : pil_priv) (w : World) (ret : Int) (hret : ret ≠ 0) :
    ∃ p' w', pil_boot_err_deinit_image env desc priv w ret = .done ret p' w' ∧
      p'.region = 0 ∧ p'.segs = [] ∧
      w'.trace.filter q = w.trace.filter q ++
        ((if desc.ops.proxy_unvote = true then
          Event.try_module_get ::
            (if env.try_module_get = true then [.schedule_delayed_work 0] else [])
        else []) ++ Event.release_firmware ::
          (if priv.region ≠ 0 then
            [.dma_free_attrs priv.region_size priv.region priv.region_start] else [])).filter
          q := by
  have hb : (ret != 0) = true := by simpa using hret
  simp only [pil_boot_err_deinit_image, pil_boot_err_boot, pil_boot_release_fw, pil_boot_out, hb,
    Bool.true_and, if_true, pil_release_mmap]
  refine ⟨_, _, rfl, ?_, rfl, ?_⟩
  · split_ifs <;> simp_all
  · generalize hU : (if desc.ops.proxy_unvote = true then
        Event.try_module_get ::
          (if env.try_module_get = true then [Event.schedule_delayed_work 0] else [])
      else []) = U
    have hw4 : ∀ w4 : World, w4.trace.filter q = w.trace.filter q →
        ((((pil_proxy_unvote env desc ret w4).log .release_firmware).log .up_read).trace.filter q
          = w.trace.filter q ++ (U ++ [Event.release_firmware]).filter q) := by
      intro w4 h
      rw [filter_log q _ _ h3]
      simp only [World.log]
      rw [pil_proxy_unvote_immediate env desc ret w4 hret, hU]
      simp only [List.filter_append, h, List.append_assoc]
    have hw4' : ∃ w4 : World, w4.trace.filter q = w.trace.filter q ∧
        w4 = (if (desc.proxy_unvote_irq != 0) = true then
          (if desc.ops.deinit_image = true then w.log Event.deinit_image else w).log
            (Event.disable_irq desc.proxy_unvote_irq)
          else if desc.ops.deinit_image = true then w.log Event.deinit_image else w) := by
      refine ⟨_, ?_, rfl⟩
      split_ifs <;> simp only [filter_log q _ _ (h2 _), filter_log q _ _ h1]
    obtain ⟨w4, hq4, hw4e⟩ := hw4'
    rw [← hw4e]
    have := hw4 w4 hq4
    by_cases hreg : priv.region = 0
    · have hb2 : (priv.region != 0) = false := by simp [hreg]
      simp only [hb2, Bool.false_eq_true, if_false, if_neg (not_not.mpr hreg)]
      split_ifs <;> (try simp only [filter_log q _ _ (h4 _ _)]) <;> rw [this]
    · have hb2 : (priv.region != 0) = true := by simp [hreg]
      simp only [hb2, if_true, if_pos hreg]
      split_ifs <;> (try simp only [filter_log q _ _ (h4 _ _)]) <;>
        simp only [World.log, List.filter_append] at this ⊢ <;> rw [this] <;>
        simp only [List.append_assoc, List.append_cancel_left_eq] <;>
        rw [← List.filter_append] <;> rfl

theorem setup_not_release_fw (e : Event) (h : e.is_setup = true) : e.is_release_fw = false := by
  cases e <;> simp_all [Event.is_setup, Event.is_release_fw]

theorem setup_not_free (e : Event) (h : e.is_setup = true) : e.is_free = false := by
  cases e <;> simp_all [Event.is_setup, Event.is_free]

theorem setup_not_schedule (e : Event) (h : e.is_setup = true) : e.is_schedule = false := by
  cases e <;> simp_all [Event.is_setup, Event.is_schedule]

theorem load_not_release_fw (e : Event) (h : e.is_load = true) : e.is_release_fw = false := by
  cases e <;> simp_all [Event.is_load, Event.is_release_fw]

theorem load_not_free (e : Event) (h : e.is_load = true) : e.is_free = false := by
  cases e <;> simp_all [Event.is_load, Event.is_free]

theorem load_not_schedule (e : Event) (h : e.is_load = true) : e.is_schedule = false := by
  cases e <;> simp_all [Event.is_load, Event.is_schedule]

theorem cleanup_schedule (a b : Bool) (F : List Event) (hF : F.filter Event.is_schedule = []) :
    ((if a = true then
        Event.try_module_get :: (if b = true then [Event.schedule_delayed_work 0] else [])
      else []) ++ Event.release_firmware :: F).filter Event.is_schedule =
      if a = true ∧ b = true then [.schedule_delayed_work 0] else [] := by
  cases a <;> cases b <;> simp [List.filter_cons, Event.is_schedule, hF]

/-- C15, as claimed, fails: with the blob of a segment of `0x600` bytes coming
with `0x500`, `pil_boot` returns `-EPERM`, not `-EIO`; `-EPERM` is also the
code with which `pil_init_seg` rejects an entry over host memory. -/
theorem pil_boot_short_read_eperm :
    (pil_boot .arm (ex_env_0x500 (ex_fw 0x10 ex_phdrs_tie)) ex_desc ex_priv ex_world).ret =
        some (-EPERM) ∧
      (pil_boot .arm (ex_env_0x500 (ex_fw 0x10 ex_phdrs_tie)) ex_desc ex_priv ex_world).ret ≠
        some (- EIO) ∧
      pil_init_seg .arm (ex_env (ex_fw 0 ex_phdrs_overlap)) ex_priv
        { p_type := 1, p_paddr := 0x80000000, p_filesz := 0x100, p_memsz := 0x1000,
          p_flags := 0, p_align := 0x1000 } 1 = .error (-EPERM) := by
  refine ⟨by decide, by decide, rfl⟩

/-- C15, amended: when the blob of a segment comes with a length other than
its `filesz`, the segments before it having loaded, `pil_boot` returns
`-EPERM` (the code of a host-memory overlap, not the `-EIO` of a malformed
header); `priv->region` is `NULL` and the segment list is empty, the region
held when loading started has been freed, the header blob has been released,
and, when the descriptor has a `proxy_unvote` hook and its module reference is
obtained, the release of the proxy vote has been queued without delay. -/
theorem pil_boot_short_read (A : Arch) (env : Env) (desc : pil_desc) (priv : pil_priv)
    (w : World) (p : pil_priv) (w2 : World) (pre : List pil_seg) (s : pil_seg)
    (post : List pil_seg)
    (hload : pil_boot_loading A env desc priv w = some (p, w2))
    (hsegs : p.segs = pre ++ s :: post)
    (hpre : (pil_boot_load_segs A env desc pre w2).1 = 0)
    (hfilesz : s.filesz ≠ 0) (hret : 0 ≤ env.request_firmware_direct s.num s.paddr s.filesz)
    (hshort : wrap A.longBits (env.request_firmware_direct s.num s.paddr s.filesz) ≠ s.filesz) :
    ∃ p' w', pil_boot A env desc priv w = .done (-EPERM) p' w' ∧
      p'.region = 0 ∧ p'.segs = [] ∧
      w'.trace.filter Event.is_release_fw =
        w.trace.filter Event.is_release_fw ++ [.release_firmware] ∧
      w'.trace.filter Event.is_free = w.trace.filter Event.is_free ++
        (if p.region ≠ 0 then [.dma_free_attrs p.region_size p.region p.region_start]
          else []) ∧
      w'.trace.filter Event.is_schedule = w.trace.filter Event.is_schedule ++
        (if desc.ops.proxy_unvote = true ∧ env.try_module_get = true then
          [.schedule_delayed_work 0] else []) := by
  have hfail := pil_load_seg_short A env desc s (pil_boot_load_segs A env desc pre w2).2
    hfilesz hret hshort
  have hne : (-EPERM : Int) ≠ 0 := by simp [EPERM]
  have hstop := pil_boot_load_segs_stops A env desc pre s post w2
    (pil_boot_load_segs A env desc pre w2).2 (Prod.ext hpre rfl) (by rw [hfail]; exact hne)
  rw [← hsegs] at hstop
  have hrun := pil_boot_of_loading A env desc priv w p w2 hload
  rw [hstop, if_pos (by rw [hfail]; simpa using hne), hfail] at hrun
  -- what the calls up to the failing segment leave of the three kinds of event
  have hbefore : ∀ q : Event → Bool, (∀ e, e.is_setup = true → q e = false) →
      (∀ e, e.is_load = true → q e = false) →
      (pil_load_seg A env desc s (pil_boot_load_segs A env desc pre w2).2).2.trace.filter q =
        w.trace.filter q := by
    intro q hq1 hq2
    rw [extends_by_filter _ _ hq2 _ _ (pil_load_seg_loads A env desc s _),
      extends_by_filter _ _ hq2 _ _ (pil_boot_load_segs_loads A env desc pre w2),
      extends_by_filter _ _ hq1 _ _ (pil_boot_loading_setup A env desc priv w p w2 hload)]
  have hend := fun (q : Event → Bool) h1 h2 h3 h4 =>
    pil_boot_err_deinit_image_error q h1 h2 h3 h4 env desc p
      (pil_load_seg A env desc s (pil_boot_load_segs A env desc pre w2).2).2 (-EPERM) hne
  obtain ⟨p', w', hdone, hreg, hsegs', hfw⟩ := hend Event.is_release_fw rfl (fun _ => rfl) rfl
    (fun _ _ => rfl)
  obtain ⟨p1, w1, hdone1, -, -, hfree⟩ := hend Event.is_free rfl (fun _ => rfl) rfl
    (fun _ _ => rfl)
  obtain ⟨p2, w2', hdone2, -, -, hsched⟩ := hend Event.is_schedule rfl (fun _ => rfl) rfl
    (fun _ _ => rfl)
  rw [hdone] at hdone1 hdone2
  simp only [Run.done.injEq, true_and] at hdone1 hdone2
  obtain ⟨-, hw1⟩ := hdone1
  obtain ⟨-, hw2⟩ := hdone2
  subst hw1; subst hw2
  rw [hbefore _ setup_not_release_fw load_not_release_fw] at hfw
  rw [hbefore _ setup_not_free load_not_free] at hfree
  rw [hbefore _ setup_not_schedule load_not_schedule] at hsched
  refine ⟨p', w', by rw [hrun, hdone], hreg, hsegs', ?_, ?_, ?_⟩
  · rw [hfw]
    split_ifs <;> simp [List.filter_cons, Event.is_release_fw]
  · rw [hfree]
    split_ifs <;> simp [List.filter_cons, Event.is_free]
  · rw [hsched, cleanup_schedule]
    split_ifs <;> rfl

theorem pil_boot_short_read_witness :
    (pil_boot_loading .arm (ex_env_0x500 (ex_fw 0x10 ex_phdrs_tie)) ex_desc ex_priv ex_world =
        some ex_loading_0x500 ∧
      ex_loading_0x500.1.segs =
        [{ paddr := 0x1000, sz := 0x1000, filesz := 0, num := 2, relocated := false },
          { paddr := 0x1000, sz := 0x800, filesz := 0x10, num := 3, relocated := false }] ++
          { paddr := 0x90000000, sz := 0x1000, filesz := 0x600, num := 1, relocated := true } ::
          [] ∧
      (pil_boot_load_segs .arm (ex_env_0x500 (ex_fw 0x10 ex_phdrs_tie)) ex_desc
        [{ paddr := 0x1000, sz := 0x1000, filesz := 0, num := 2, relocated := false },
          { paddr := 0x1000, sz := 0x800, filesz := 0x10, num := 3, relocated := false }]
        ex_loading_0x500.2).1 = 0 ∧
      (ex_env_0x500 (ex_fw 0x10 ex_phdrs_tie)).request_firmware_direct 1 0x90000000 0x600 =
        0x500) ∧
    ∃ p' w',
      pil_boot .arm (ex_env_0x500 (ex_fw 0x10 ex_phdrs_tie)) ex_desc ex_priv ex_world =
        .done (-EPERM) p' w' ∧
      p'.region = 0 ∧ p'.segs = [] ∧
      w'.trace.filter Event.is_release_fw = [.release_firmware] ∧
      w'.trace.filter Event.is_free = [.dma_free_attrs 0x100000 0xd0000000 0x90000000] ∧
      w'.trace.filter Event.is_schedule = [.schedule_delayed_work 0] := by
  obtain ⟨p', w', h1, h2, h3, h4, h5, h6⟩ :=
    pil_boot_short_read .arm (ex_env_0x500 (ex_fw 0x10 ex_phdrs_tie)) ex_desc ex_priv ex_world
      ex_loading_0x500.1 ex_loading_0x500.2
      [{ paddr := 0x1000, sz := 0x1000, filesz := 0, num := 2, relocated := false },
        { paddr := 0x1000, sz := 0x800, filesz := 0x10, num := 3, relocated := false }]
      { paddr := 0x90000000, sz := 0x1000, filesz := 0x600, num := 1, relocated := true } []
      rfl (by decide) (by decide) (by decide) (by decide) (by decide)
  exact ⟨⟨rfl, by decide, by decide, by decide⟩, p', w', h1, h2, h3, h4,
    by rw [h5]; decide, by rw [h6]; decide⟩


/-! ## Shutdown -/

theorem __pil_proxy_unvote_filter (q : Event → Bool)
    (hq : ∀ e, q e = true → e.is_resource = true) (w : World) :
    (__pil_proxy_unvote w).trace.filter q = w.trace.filter q := by
  simp only [__pil_proxy_unvote, filter_log_resource q hq, Event.is_resource]

theorem flush_delayed_work_filter (q : Event → Bool)
    (hq : ∀ e, q e = true → e.is_resource = true) (w : World) :
    (flush_delayed_work w).trace.filter q = w.trace.filter q := by
  simp only [flush_delayed_work, pil_proxy_unvote_work]
  split_ifs <;>
    simp only [__pil_proxy_unvote_filter q hq, filter_log_resource q hq, Event.is_resource]

/-- C16, as claimed, fails: after `pil_boot` of `ex_phdrs_first` has returned 0
and `pil_shutdown` has run, the region is gone but the segment list still
holds the segment of the image. -/
theorem pil_shutdown_keeps_segs :
    ∃ w, pil_boot .arm (ex_env (ex_fw 0x1000 ex_phdrs_first)) ex_desc ex_priv ex_world =
        .done 0 ex_priv_first w ∧
      (pil_shutdown (ex_env (ex_fw 0x1000 ex_phdrs_first)) ex_desc ex_priv_first w).1.region
        = 0 ∧
      (pil_shutdown (ex_env (ex_fw 0x1000 ex_phdrs_first)) ex_desc ex_priv_first w).1.segs =
        [{ paddr := 0x90000000, sz := 0x1000, filesz := 0x400, num := 0, relocated := true }] ∧
      (pil_shutdown (ex_env (ex_fw 0x1000 ex_phdrs_first)) ex_desc ex_priv_first w).1.segs ≠
        [] :=
  ⟨(pil_boot .arm (ex_env (ex_fw 0x1000 ex_phdrs_first)) ex_desc ex_priv ex_world).world,
    rfl, by decide, by decide, by decide⟩

/-- C16, amended: whatever the state `pil_shutdown` is called in, and so after
a successful `pil_boot`, on return `priv->region` is `NULL`, the region held on
entry has been freed (one `dma_free_attrs` with its size, pointer and bus
address) and nothing else has been, and the segment list is the one found on
entry. -/
theorem pil_shutdown_region (env : Env) (desc : pil_desc) (priv : pil_priv) (w : World) :
    (pil_shutdown env desc priv w).1.region = 0 ∧
      (pil_shutdown env desc priv w).1.segs = priv.segs ∧
      (pil_shutdown env desc priv w).2.trace.filter Event.is_free =
        w.trace.filter Event.is_free ++
          (if priv.region ≠ 0 then
            [.dma_free_attrs priv.region_size priv.region priv.region_start] else []) := by
  have hq : ∀ e : Event, e.is_free = true → e.is_resource = true := is_free_resource
  have hmid : ∀ w0 : World, w0.trace.filter Event.is_free = w.trace.filter Event.is_free →
      (if desc.proxy_unvote_irq != 0 then
        if priv.unvoted_flag == 0 then
          pil_proxy_unvote env desc 1 (w0.log (.disable_irq desc.proxy_unvote_irq))
        else w0.log (.disable_irq desc.proxy_unvote_irq)
      else if env.proxy_timeout_ms == 0 then pil_proxy_unvote env desc 1 w0
      else flush_delayed_work w0).trace.filter Event.is_free =
        w.trace.filter Event.is_free := by
    intro w0 h0
    split_ifs <;>
      simp only [pil_proxy_unvote_filter _ hq, flush_delayed_work_filter _ hq,
        filter_log_resource _ hq, Event.is_resource, h0]
  have hw0 : (if desc.ops.shutdown = true then w.log .shutdown else w).trace.filter
      Event.is_free = w.trace.filter Event.is_free := by
    split_ifs
    · simp only [filter_log_resource _ hq, Event.is_resource]
    · rfl
  have := hmid _ hw0
  have htail : ∀ wm : World,
      (if (priv.region != 0) = true then
        ({ priv with region := 0 },
          wm.log (.dma_free_attrs priv.region_size priv.region priv.region_start))
      else (priv, wm)).2.trace.filter Event.is_free =
        wm.trace.filter Event.is_free ++
          (if priv.region ≠ 0 then
            [.dma_free_attrs priv.region_size priv.region priv.region_start] else []) := by
    intro wm
    by_cases hreg : priv.region = 0
    · have hb : (priv.region != 0) = false := by simp [hreg]
      rw [hb, if_neg (not_not.mpr hreg)]
      simp
    · have hb : (priv.region != 0) = true := by simp [hreg]
      rw [hb, if_pos hreg]
      simp [World.log, List.filter_append, Event.is_free]
  refine ⟨?_, ?_, ?_⟩
  · simp only [pil_shutdown]
    by_cases hreg : priv.region = 0
    · have hb : (priv.region != 0) = false := by simp [hreg]
      rw [hb]
      exact hreg
    · have hb : (priv.region != 0) = true := by simp [hreg]
      rw [hb]
      rfl
  · simp only [pil_shutdown]
    split_ifs <;> rfl
  · simp only [pil_shutdown]
    rw [htail, this]


/-! ## Booting twice -/

theorem is_alloc_ok_resource (e : Event) (h : e.is_alloc_ok = true) : e.is_resource = true := by
  cases e <;> simp_all [Event.is_alloc_ok, Event.is_resource]

/-- A call of `pil_boot` that does not get to its loop over the segments does
not return 0. -/
theorem pil_boot_not_loading (A : Arch) (env : Env) (desc : pil_desc) (priv : pil_priv)
    (w : World) (h : pil_boot_loading A env desc priv w = none) :
    (pil_boot A env desc priv w).ret ≠ some 0 := by
  have hout : ∀ (p : pil_priv) (w0 : World) (r : Int), r ≠ 0 →
      (pil_boot_out p w0 r).ret ≠ some 0 := by
    intro p w0 r hr
    rw [pil_boot_out_ret]
    simpa using hr
  have hrel : ∀ (p : pil_priv) (w0 : World) (r : Int), r ≠ 0 →
      (pil_boot_release_fw p w0 r).ret ≠ some 0 := fun p w0 r hr => hout p _ r hr
  have hio : (- EIO : Int) ≠ 0 := by simp [ EIO]
  simp only [pil_boot_loading] at h
  simp only [pil_boot, pil_boot_image]
  by_cases h1 : (env.request_firmware.1 != 0) = true
  · rw [if_pos h1]; exact hout _ _ _ (by simpa using h1)
  rw [if_neg h1] at h ⊢
  by_cases h2 : env.request_firmware.2.size < sizeof_elf32_hdr
  · rw [if_pos h2]; exact hrel _ _ _ hio
  rw [if_neg h2] at h ⊢
  by_cases h3 : (env.request_firmware.2.data.hdr.e_ident.take 4 != ELFMAG) = true
  · rw [if_pos h3]; exact hrel _ _ _ hio
  rw [if_neg h3] at h ⊢
  by_cases h4 : (env.request_firmware.2.data.hdr.e_phnum == 0) = true
  · rw [if_pos h4]; exact hrel _ _ _ hio
  rw [if_neg h4] at h ⊢
  by_cases h5 : sizeof_elf32_phdr * env.request_firmware.2.data.hdr.e_phnum + sizeof_elf32_hdr >
      env.request_firmware.2.size
  · rw [if_pos h5]; exact hrel _ _ _ hio
  rw [if_neg h5] at h ⊢
  generalize pil_init_mmap A env desc (pil_release_mmap priv w).1 env.request_firmware.2.data
    ((((pil_release_mmap priv w).2.log Event.down_read).log Event.request_firmware).log
      Event.init_dma_attrs) = run at h ⊢
  cases run with
  | bug w1 => simp [Run.ret]
  | done ret p1 w1 =>
    simp only at h ⊢
    by_cases h6 : (ret != 0) = true
    · rw [if_pos h6]; exact hrel _ _ _ (by simpa using h6)
    rw [if_neg h6] at h ⊢
    by_cases h7 : ((pil_proxy_vote desc w1).1 != 0) = true
    · rw [if_pos h7]; exact hrel _ _ _ (by simpa using h7)
    rw [if_neg h7] at h ⊢
    simp only [pil_boot_hooks]
    split_ifs at h with h8 h9
    · rw [if_pos h8]
      exact hrel _ _ _ (by simpa using h8)
    · rw [if_neg h8, if_pos h9]
      exact hrel _ _ _ (by simpa using h9)

theorem pil_boot_err_deinit_image_ok (env : Env) (desc : pil_desc) (priv : pil_priv)
    (w : World) :
    pil_boot_err_deinit_image env desc priv w 0 =
      .done 0 priv (((pil_proxy_unvote env desc 0 w).log .release_firmware).log .up_read) := by
  simp [pil_boot_err_deinit_image, pil_boot_err_boot, pil_boot_release_fw, pil_boot_out]

/-- What `pil_boot` went through before its loop over the segments. -/
theorem pil_boot_loading_mmap (A : Arch) (env : Env) (desc : pil_desc) (priv : pil_priv)
    (w : World) (p : pil_priv) (w2 : World)
    (h : pil_boot_loading A env desc priv w = some (p, w2)) :
    ∃ p1 w1,
      pil_init_mmap A env desc (pil_release_mmap priv w).1 env.request_firmware.2.data
        ((((pil_release_mmap priv w).2.log .down_read).log .request_firmware).log
          .init_dma_attrs) = .done 0 p1 w1 ∧
      p = { p1 with unvoted_flag := 0 } ∧
      ∀ q : Event → Bool, (∀ e, q e = true → e.is_resource = true) →
        w2.trace.filter q = w1.trace.filter q := by
  simp only [pil_boot_loading] at h
  by_cases h1 : (env.request_firmware.1 != 0) = true
  · rw [if_pos h1] at h; cases h
  rw [if_neg h1] at h
  by_cases h2 : env.request_firmware.2.size < sizeof_elf32_hdr
  · rw [if_pos h2] at h; cases h
  rw [if_neg h2] at h
  by_cases h3 : (env.request_firmware.2.data.hdr.e_ident.take 4 != ELFMAG) = true
  · rw [if_pos h3] at h; cases h
  rw [if_neg h3] at h
  by_cases h4 : (env.request_firmware.2.data.hdr.e_phnum == 0) = true
  · rw [if_pos h4] at h; cases h
  rw [if_neg h4] at h
  by_cases h5 : sizeof_elf32_phdr * env.request_firmware.2.data.hdr.e_phnum + sizeof_elf32_hdr >
      env.request_firmware.2.size
  · rw [if_pos h5] at h; cases h
  rw [if_neg h5] at h
  split at h
  · cases h
  · rename_i ret p1 w1 hm
    by_cases h6 : (ret != 0) = true
    · rw [if_pos h6] at h; cases h
    rw [if_neg h6] at h
    have hret : ret = 0 := by simpa using h6
    subst hret
    by_cases h7 : ((pil_proxy_vote desc w1).1 != 0) = true
    · rw [if_pos h7] at h; cases h
    rw [if_neg h7] at h
    split_ifs at h with h8 h9
    simp only [Option.some.injEq, Prod.mk.injEq] at h
    obtain ⟨hp, hw⟩ := h
    refine ⟨p1, w1, hm, hp.symm, fun q hq => ?_⟩
    rw [← hw, ← pil_proxy_vote_filter q hq desc w1]
    cases desc.ops.mem_setup <;> cases desc.ops.init_image <;>
      simp only [filter_log_resource q hq, Event.is_resource]

/-- What a call of `pil_boot` that returns 0 went through. -/
theorem pil_boot_success (A : Arch) (env : Env) (desc : pil_desc) (priv : pil_priv)
    (w : World) (p' : pil_priv) (w' : World)
    (h : pil_boot A env desc priv w = .done 0 p' w') :
    ∃ p1 w1,
      pil_init_mmap A env desc (pil_release_mmap priv w).1 env.request_firmware.2.data
        ((((pil_release_mmap priv w).2.log .down_read).log .request_firmware).log
          .init_dma_attrs) = .done 0 p1 w1 ∧
      p' = { p1 with unvoted_flag := 0 } ∧
      ∀ q : Event → Bool, (∀ e, q e = true → e.is_resource = true) →
        q .release_firmware = false → w'.trace.filter q = w1.trace.filter q := by
  cases hl : pil_boot_loading A env desc priv w with
  | none =>
    have := pil_boot_not_loading A env desc priv w hl
    rw [h] at this
    exact absurd rfl this
  | some r =>
    obtain ⟨p, w2⟩ := r
    obtain ⟨p1, w1, hm, hp, hq1⟩ := pil_boot_loading_mmap A env desc priv w p w2 hl
    have hrun := pil_boot_of_loading A env desc priv w p w2 hl
    rw [h] at hrun
    by_cases hf : ((pil_boot_load_segs A env desc p.segs w2).1 != 0) = true
    · rw [if_pos hf] at hrun
      have hr := (pil_boot_err_deinit_image_quiet Event.is_load (fun _ h => Or.inl h) env desc p
        (pil_boot_load_segs A env desc p.segs w2).2
        (pil_boot_load_segs A env desc p.segs w2).1).1
      rw [← hrun] at hr
      simp only [Run.ret, Option.some.injEq] at hr
      rw [← hr] at hf
      simp at hf
    · rw [if_neg hf] at hrun
      have hr := (pil_boot_err_deinit_image_quiet Event.is_load (fun _ h => Or.inl h) env desc p
        ((pil_boot_load_segs A env desc p.segs w2).2.log .auth_and_reset)
        desc.ops.auth_and_reset).1
      rw [← hrun] at hr
      simp only [Run.ret, Option.some.injEq] at hr
      rw [← hr, pil_boot_err_deinit_image_ok] at hrun
      simp only [Run.done.injEq, true_and] at hrun
      obtain ⟨hpp, hww⟩ := hrun
      refine ⟨p1, w1, hm, by rw [hpp, hp], fun q hq hrel => ?_⟩
      rw [hww, filter_log_resource q hq _ .up_read rfl, filter_log q _ _ hrel,
        pil_proxy_unvote_filter q hq, filter_log_resource q hq _ .auth_and_reset rfl,
        pil_boot_load_segs_filter q hq, hq1 q hq]

/-- A call of `pil_boot` that returns 0 keeps the count of live regions in
step with `priv->region`. -/
theorem pil_boot_success_live (A : Arch) (env : Env) (desc : pil_desc) (priv : pil_priv)
    (w : World) (p' : pil_priv) (w' : World)
    (h : pil_boot A env desc priv w = .done 0 p' w')
    (hlive : live_regions w.trace = if priv.region ≠ 0 then 1 else 0) :
    live_regions w'.trace = if p'.region ≠ 0 then 1 else 0 := by
  obtain ⟨p1, w1, hm, hp, hq⟩ := pil_boot_success A env desc priv w p' w' h
  obtain ⟨r1, p1', hs, hreg, -, -, hr1⟩ := pil_init_mmap_region A env desc _ _ _ 0 p1 w1 hm
  have hr0 : r1 = 0 := by
    by_contra hne
    exact hne (hr1 hne).symm
  subst hr0
  obtain ⟨allocs, hacc, hcases⟩ := pil_setup_region_account A env desc
    (pil_release_mmap priv w).1 env.request_firmware.2.data
    ((((pil_release_mmap priv w).2.log .down_read).log .request_firmware).log .init_dma_attrs)
  rw [hs] at hacc hcases
  simp only [Run.world, Run.priv, Run.ret, Option.some.injEq] at hacc hcases
  have hstart : ∀ q : Event → Bool, (∀ e, q e = true → e.is_resource = true) →
      q .request_firmware = false →
      ((((pil_release_mmap priv w).2.log .down_read).log .request_firmware).log
        .init_dma_attrs).trace.filter q = w.trace.filter q := by
    intro q hq h2
    rw [filter_log_resource q hq _ .init_dma_attrs rfl,
      pil_boot_start_filter q (not_resource q hq _ rfl) h2 (fun _ _ => not_resource q hq _ rfl)]
  have hok := hacc Event.is_alloc_ok is_alloc_ok_resource
  have hfree := hacc Event.is_free is_free_resource
  rw [hstart _ is_alloc_ok_resource rfl] at hok
  rw [hstart _ is_free_resource rfl] at hfree
  have hpreg : p'.region = p1'.region := by rw [hp]; exact hreg
  have hpriv : (pil_release_mmap priv w).1.region = priv.region := rfl
  unfold live_regions at hlive ⊢
  rw [hq _ is_alloc_ok_resource rfl, hq _ is_free_resource rfl, hok, hfree, hpreg]
  rcases hcases with ⟨ha, hsame⟩ | ⟨-, s, h0, -, hne, -⟩ | ⟨h0, s, r, hd, hr, ha, p2, hp2, hr2, -⟩
  · subst ha
    rw [hsame p1' rfl, hpriv]
    simpa [Event.is_alloc_ok, Event.is_free] using hlive
  · exact absurd rfl hne
  · subst ha
    subst hp2
    rw [hpriv] at h0
    rw [h0] at hlive
    rw [hr2, if_pos hr]
    simp only [ne_eq, not_true_eq_false, if_false] at hlive
    simp [List.filter_cons, Event.is_alloc_ok, Event.is_free, hr] at hlive ⊢
    omega

/-- C17: when two calls of `pil_boot` in a row on one descriptor both return
0, the first from a state whose `priv->region` agrees with the count of live
regions (as it does on a fresh descriptor), then after the second call at most
one region is live, it is the one `priv->region` points to, and the segment
list has one segment per loadable entry of the second image (their numbers
are the indices of those entries), whatever the first call had left. -/
theorem pil_boot_twice (A : Arch) (env1 env2 : Env) (desc : pil_desc) (priv : pil_priv)
    (w : World) (p1 : pil_priv) (w1 : World) (p2 : pil_priv) (w2 : World)
    (h1 : pil_boot A env1 desc priv w = .done 0 p1 w1)
    (h2 : pil_boot A env2 desc p1 w1 = .done 0 p2 w2)
    (hlive : live_regions w.trace = if priv.region ≠ 0 then 1 else 0) :
    live_regions w2.trace ≤ 1 ∧
      live_regions w2.trace = (if p2.region ≠ 0 then 1 else 0) ∧
      p2.segs.length =
        ((List.range env2.request_firmware.2.data.hdr.e_phnum).filter
          (fun i => segment_is_loadable (env2.request_firmware.2.data.phdr i))).length ∧
      (p2.segs.map (fun s => s.num)).Perm
        ((List.range env2.request_firmware.2.data.hdr.e_phnum).filter
          (fun i => segment_is_loadable (env2.request_firmware.2.data.phdr i))) := by
  have hl1 := pil_boot_success_live A env1 desc priv w p1 w1 h1 hlive
  have hl2 := pil_boot_success_live A env2 desc p1 w1 p2 w2 h2 hl1
  obtain ⟨pm, wm, hm, hp, -⟩ := pil_boot_success A env2 desc p1 w1 p2 w2 h2
  obtain ⟨ps, ws, l, -, hl, hsegs, -⟩ := pil_init_mmap_ok A env2 desc
    (pil_release_mmap p1 w1).1 env2.request_firmware.2.data _ pm (by rw [hm]; rfl)
    (by rw [hm]; rfl)
  have hempty : (pil_release_mmap p1 w1).1.segs = [] := rfl
  rw [hempty, List.nil_append] at hsegs
  have hp2 : p2.segs = pm.segs := by rw [hp]
  have hnums := forall₂_init_seg_nums A env2 ps env2.request_firmware.2.data _ l hl
  have hperm := list_sort_perm pil_cmp_seg l
  refine ⟨by rw [hl2]; split_ifs <;> omega, hl2, ?_, ?_⟩
  · rw [hp2, hsegs, hperm.length_eq, ← hnums, List.length_map]
  · rw [hp2, hsegs, ← hnums]
    exact hperm.map _

theorem pil_boot_twice_witness :
    ∃ w1 w2,
      pil_boot .arm (ex_env (ex_fw 0x1000 ex_phdrs_first)) ex_desc ex_priv ex_world =
        .done 0 ex_priv_first w1 ∧
      pil_boot .arm (ex_env (ex_fw 0x5000 ex_phdrs_second)) ex_desc ex_priv_first w1 =
        .done 0 ex_priv_second w2 ∧
      live_regions ex_world.trace = (if ex_priv.region ≠ 0 then 1 else 0) ∧
      live_regions w2.trace = 1 ∧ ex_priv_second.segs.length = 1 :=
  ⟨(pil_boot .arm (ex_env (ex_fw 0x1000 ex_phdrs_first)) ex_desc ex_priv ex_world).world,
    (pil_boot .arm (ex_env (ex_fw 0x5000 ex_phdrs_second)) ex_desc ex_priv_first
      (pil_boot .arm (ex_env (ex_fw 0x1000 ex_phdrs_first)) ex_desc ex_priv
        ex_world).world).world,
    rfl, rfl, by decide,
    (pil_boot_twice .arm (ex_env (ex_fw 0x1000 ex_phdrs_first))
      (ex_env (ex_fw 0x5000 ex_phdrs_second)) ex_desc ex_priv ex_world ex_priv_first _
      ex_priv_second _ rfl rfl (by decide)).2.1,
    by decide⟩


/-! ## The deferred release of the proxy vote -/

/-- C18, as claimed, fails: with the override at 100 ms and an unvote
interrupt line, a release request that is not immediate takes the module
reference and queues nothing; without the line it queues the release after
100 ms. -/
theorem pil_proxy_unvote_irq_no_timer :
    (pil_proxy_unvote (ex_env_override 100 (ex_fw 0 ex_phdrs_first)) ex_desc_irq 0
        ex_world).trace = [.try_module_get] ∧
      (pil_proxy_unvote (ex_env_override 100 (ex_fw 0 ex_phdrs_first)) ex_desc_irq 0
        ex_world).trace.filter Event.is_schedule ≠ [.schedule_delayed_work 100] ∧
      (pil_proxy_unvote (ex_env_override 100 (ex_fw 0 ex_phdrs_first)) ex_desc 0
        ex_world).trace = [.try_module_get, .schedule_delayed_work 100] := by
  decide

/-- C18, amended: the calls of `pil_proxy_unvote(desc, 0)`. With the override
at 0 it does nothing. Otherwise, with a `proxy_unvote` hook, it asks for a
module reference and, having got it and the descriptor having no unvote
interrupt line, queues the release after the override `N > 0`, whatever the
default of the descriptor, or, the override being negative, after that
default; with an interrupt line it queues nothing, whatever the override.
Without the hook it does nothing. -/
theorem pil_proxy_unvote_deferred (env : Env) (desc : pil_desc) (w : World) :
    (pil_proxy_unvote env desc 0 w).trace = w.trace ++
      (if env.proxy_timeout_ms = 0 ∨ desc.ops.proxy_unvote = false then []
      else
        Event.try_module_get ::
          (if env.try_module_get = true ∧ desc.proxy_unvote_irq = 0 then
            [.schedule_delayed_work
              (if env.proxy_timeout_ms > 0 then env.proxy_timeout_ms.toNat
                else desc.proxy_timeout)]
          else [])) := by
  simp only [pil_proxy_unvote]
  by_cases h0 : env.proxy_timeout_ms = 0
  · simp [h0]
  · have hb : (env.proxy_timeout_ms == 0) = false := by simpa using h0
    simp only [hb, Bool.false_and, Bool.false_eq_true, if_false, h0, false_or]
    cases desc.ops.proxy_unvote <;> cases env.try_module_get <;>
      by_cases hirq : desc.proxy_unvote_irq = 0 <;> simp [World.log, hirq]


/-! ## The release of the proxy vote at shutdown -/

theorem __pil_proxy_unvote_quiet (q : Event → Bool) (h1 : q .proxy_unvote = false)
    (h2 : q .notify_proxy_unvote = false) (h3 : q .wake_unlock = false)
    (h4 : q .module_put = false) (w : World) :
    (__pil_proxy_unvote w).trace.filter q = w.trace.filter q := by
  simp only [__pil_proxy_unvote]
  rw [filter_log q _ _ h4, filter_log q _ _ h3, filter_log q _ _ h2, filter_log q _ _ h1]

/-- The calls of `pil_shutdown`, apart from those of the hooks, of the
interrupt controller, of the allocator and of the release routine: an
immediate `pil_proxy_unvote` when the descriptor has an unvote interrupt line
and the vote is not released yet, or has no line while the override is 0; a
flush of the work item when it has no line and the override is not 0. -/
theorem pil_shutdown_filter (q : Event → Bool) (h0 : q .shutdown = false)
    (h1 : q .proxy_unvote = false) (h2 : q .notify_proxy_unvote = false)
    (h3 : q .wake_unlock = false) (h4 : q .module_put = false)
    (h5 : q .proxy_unvote_work = false) (h6 : ∀ i, q (.disable_irq i) = false)
    (h7 : ∀ s r h, q (.dma_free_attrs s r h) = false)
    (env : Env) (desc : pil_desc) (priv : pil_priv) (w : World) :
    (pil_shutdown env desc priv w).2.trace.filter q = w.trace.filter q ++
      ((if (desc.proxy_unvote_irq ≠ 0 ∧ priv.unvoted_flag = 0) ∨
          (desc.proxy_unvote_irq = 0 ∧ env.proxy_timeout_ms = 0) then
        (if desc.ops.proxy_unvote = true then
          Event.try_module_get ::
            (if env.try_module_get = true then [.schedule_delayed_work 0] else [])
        else [])
      else []) ++
      (if desc.proxy_unvote_irq = 0 ∧ env.proxy_timeout_ms ≠ 0 then [Event.flush_delayed_work]
        else [])).filter q := by
  simp only [pil_shutdown]
  have htail : ∀ wm : World,
      (if (priv.region != 0) = true then
        ({ priv with region := 0 },
          wm.log (.dma_free_attrs priv.region_size priv.region priv.region_start))
      else (priv, wm)).2.trace.filter q = wm.trace.filter q := by
    intro wm
    split_ifs
    · exact filter_log q _ _ (h7 _ _ _)
    · rfl
  rw [htail]
  generalize hU : (if desc.ops.proxy_unvote = true then
      Event.try_module_get ::
        (if env.try_module_get = true then [Event.schedule_delayed_work 0] else [])
    else []) = U
  have hw0 : (if desc.ops.shutdown = true then w.log .shutdown else w).trace.filter q =
      w.trace.filter q := by
    split_ifs
    · exact filter_log q _ _ h0
    · rfl
  generalize (if desc.ops.shutdown = true then w.log .shutdown else w) = w0 at hw0 ⊢
  have hflush : (flush_delayed_work w0).trace.filter q =
      w0.trace.filter q ++ [Event.flush_delayed_work].filter q := by
    simp only [flush_delayed_work, pil_proxy_unvote_work]
    split_ifs
    · rw [__pil_proxy_unvote_quiet q h1 h2 h3 h4, filter_log q _ _ h5]
      simp [World.log, List.filter_append]
    · simp [World.log, List.filter_append]
  by_cases hirq : desc.proxy_unvote_irq = 0
  · by_cases hov : env.proxy_timeout_ms = 0
    · rw [if_neg (by simp [hirq]), if_pos (by simp [hov]), if_pos (Or.inr ⟨hirq, hov⟩),
        if_neg (fun h => h.2 hov), List.append_nil,
        pil_proxy_unvote_immediate env desc 1 w0 one_ne_zero, hU, List.filter_append, hw0]
    · rw [if_neg (by simp [hirq]), if_neg (by simp [hov]),
        if_neg (by rintro (⟨h, -⟩ | ⟨-, h⟩) <;> contradiction), if_pos ⟨hirq, hov⟩,
        List.nil_append, hflush, hw0]
  · by_cases hfl : priv.unvoted_flag = 0
    · rw [if_pos (by simp [hirq]), if_pos (by simp [hfl]), if_pos (Or.inl ⟨hirq, hfl⟩),
        if_neg (fun h => hirq h.1), List.append_nil,
        pil_proxy_unvote_immediate env desc 1 _ one_ne_zero, hU, List.filter_append,
        filter_log q _ _ (h6 _), hw0]
    · rw [if_pos (by simp [hirq]), if_neg (by simp [hfl]),
        if_neg (by rintro (⟨-, h⟩ | ⟨h, -⟩) <;> contradiction), if_neg (fun h => hirq h.1),
        List.append_nil, List.filter_nil, List.append_nil, filter_log q _ _ (h6 _), hw0]

/-- C19, as claimed, fails: without an unvote interrupt line, `pil_shutdown`
with a negative override only flushes the work item, and with the override
at 0 it requests an immediate release. -/
theorem pil_shutdown_release_inverted :
    (pil_shutdown (ex_env_override (-1) (ex_fw 0x1000 ex_phdrs_first)) ex_desc ex_priv_first
        ex_world).2.trace =
        [.shutdown, .flush_delayed_work, .dma_free_attrs 0x100000 0xd0000000 0x90000000] ∧
      (pil_shutdown (ex_env_override 0 (ex_fw 0x1000 ex_phdrs_first)) ex_desc ex_priv_first
        ex_world).2.trace =
        [.shutdown, .try_module_get, .schedule_delayed_work 0,
          .dma_free_attrs 0x100000 0xd0000000 0x90000000] := by
  decide

/-- C19, amended: `pil_shutdown` requests an immediate release of the proxy
vote exactly when the descriptor has an unvote interrupt line and
`unvoted_flag` is 0, or has no line and the override is 0; the request, on a
descriptor with a `proxy_unvote` hook, takes a module reference and, having
got it, queues the release without delay. With no line and an override other
than 0 it requests nothing and flushes the work item; with a line and
`unvoted_flag` set it does neither. -/
theorem pil_shutdown_release (env : Env) (desc : pil_desc) (priv : pil_priv) (w : World) :
    (pil_shutdown env desc priv w).2.trace.filter Event.is_module_get =
        w.trace.filter Event.is_module_get ++
          (if ((desc.proxy_unvote_irq ≠ 0 ∧ priv.unvoted_flag = 0) ∨
              (desc.proxy_unvote_irq = 0 ∧ env.proxy_timeout_ms = 0)) ∧
              desc.ops.proxy_unvote = true then [.try_module_get] else []) ∧
      (pil_shutdown env desc priv w).2.trace.filter Event.is_schedule =
        w.trace.filter Event.is_schedule ++
          (if ((desc.proxy_unvote_irq ≠ 0 ∧ priv.unvoted_flag = 0) ∨
              (desc.proxy_unvote_irq = 0 ∧ env.proxy_timeout_ms = 0)) ∧
              desc.ops.proxy_unvote = true ∧ env.try_module_get = true then
            [.schedule_delayed_work 0] else []) ∧
      (pil_shutdown env desc priv w).2.trace.filter Event.is_flush =
        w.trace.filter Event.is_flush ++
          (if desc.proxy_unvote_irq = 0 ∧ env.proxy_timeout_ms ≠ 0 then
            [.flush_delayed_work] else []) := by
  refine ⟨?_, ?_, ?_⟩
  · rw [pil_shutdown_filter Event.is_module_get rfl rfl rfl rfl rfl rfl (fun _ => rfl)
      (fun _ _ _ => rfl)]
    congr 1
    cases desc.ops.proxy_unvote <;> cases env.try_module_get <;> split_ifs <;>
      simp_all [List.filter_cons, Event.is_module_get]
  · rw [pil_shutdown_filter Event.is_schedule rfl rfl rfl rfl rfl rfl (fun _ => rfl)
      (fun _ _ _ => rfl)]
    congr 1
    cases desc.ops.proxy_unvote <;> cases env.try_module_get <;> split_ifs <;>
      simp_all [List.filter_cons, Event.is_schedule]
  · rw [pil_shutdown_filter Event.is_flush rfl rfl rfl rfl rfl rfl (fun _ => rfl)
      (fun _ _ _ => rfl)]
    congr 1
    cases desc.ops.proxy_unvote <;> cases env.try_module_get <;> split_ifs <;>
      simp_all [List.filter_cons, Event.is_flush]


/-! ## Module references of the release -/

/-- C20 fails in the code: on a descriptor with an unvote interrupt line, a
successful `pil_boot`, then `pil_shutdown` before the interrupt has come, then
the run of the work item: `pil_proxy_unvote` has taken two module references
(one in `pil_boot`, one in `pil_shutdown`), the release routine has run once,
for the one vote, and has put one; no work is queued and the line is disabled,
so no put is left to come. -/
theorem pil_proxy_unvote_reference_leak :
    ∃ s, pil_run .arm ex_desc_irq
        [.boot (ex_env (ex_fw 0x1000 ex_phdrs_first)),
          .shutdown (ex_env (ex_fw 0x1000 ex_phdrs_first)), .work] (ex_priv, ex_world) =
        some s ∧
      (s.2.trace.filter Event.is_vote).length = 1 ∧
      (s.2.trace.filter Event.is_unvote).length = 1 ∧
      (s.2.trace.filter Event.is_module_get).length = 2 ∧
      (s.2.trace.filter Event.is_module_put).length = 1 ∧
      work_pending s.2.trace = false ∧ irq_enabled s.2.trace = false ∧
      s.2.trace.filter (fun e => e.is_vote || e.is_module_get || e.is_schedule ||
          e.is_unvote || e.is_module_put) =
        [.proxy_vote, .try_module_get, .try_module_get, .schedule_delayed_work 0,
          .proxy_unvote, .module_put] :=
  ⟨(pil_run .arm ex_desc_irq
      [.boot (ex_env (ex_fw 0x1000 ex_phdrs_first)),
        .shutdown (ex_env (ex_fw 0x1000 ex_phdrs_first)), .work] (ex_priv, ex_world)).getD
      (ex_priv, ex_world),
    rfl, by decide, by decide, by decide, by decide, by decide, by decide, by decide⟩


/-! ## The unvote interrupt line after a failed boot -/

/-- C21 fails in the code: on a descriptor with an unvote interrupt line whose
`proxy_vote` hook fails, `pil_proxy_vote` still enables the line and `pil_boot`
leaves through `release_fw`, past the `disable_irq` of `err_boot`: the call
returns the error of the hook with the line enabled, which it was not on
entry. When it is `init_image` that fails the line is disabled again. -/
theorem pil_boot_vote_failure_leaves_irq :
    (pil_boot .arm (ex_env (ex_fw 0x1000 ex_phdrs_first)) ex_desc_irq_novote ex_priv
        ex_world).ret = some (-1) ∧
      (pil_boot .arm (ex_env (ex_fw 0x1000 ex_phdrs_first)) ex_desc_irq_novote ex_priv
        ex_world).world.trace.filter Event.is_irq = [.enable_irq 5] ∧
      irq_depth ex_world.trace = 1 ∧
      irq_depth (pil_boot .arm (ex_env (ex_fw 0x1000 ex_phdrs_first)) ex_desc_irq_novote
        ex_priv ex_world).world.trace = 0 ∧
      (pil_boot .arm (ex_env (ex_fw 0x1000 ex_phdrs_first)) ex_desc_irq_noinit ex_priv
        ex_world).ret = some (-1) ∧
      (pil_boot .arm (ex_env (ex_fw 0x1000 ex_phdrs_first)) ex_desc_irq_noinit ex_priv
        ex_world).world.trace.filter Event.is_irq = [.enable_irq 5, .disable_irq 5] ∧
      irq_depth (pil_boot .arm (ex_env (ex_fw 0x1000 ex_phdrs_first)) ex_desc_irq_noinit
        ex_priv ex_world).world.trace = 1 := by
  decide


/-! ## A table without loadable entries -/

theorem pil_init_mmap_loop_none (A : Arch) (env : Env) (priv : pil_priv) (mdt : pil_mdt) :
    ∀ (idx : List Nat) (segs : List pil_seg),
      (∀ i ∈ idx, segment_is_loadable (mdt.phdr i) = false) →
      pil_init_mmap_loop A env priv mdt idx segs = (0, segs) := by
  intro idx
  induction idx with
  | nil => intro segs _; rfl
  | cons i idx ih =>
    intro segs h
    simp only [pil_init_mmap_loop, h i (List.mem_cons_self _ _), Bool.not_false, if_true]
    exact ih segs (fun j hj => h j (List.mem_cons_of_mem _ hj))

/-- Without a loadable entry and without the skip flag `pil_init_mmap`, called
on an empty segment list, plans without the allocator and fails in
`pil_init_entry_addr`. -/
theorem pil_init_mmap_no_loadable (A : Arch) (env : Env) (desc : pil_desc) (priv : pil_priv)
    (mdt : pil_mdt) (w : World)
    (hnone : ∀ i, i < mdt.hdr.e_phnum → segment_is_loadable (mdt.phdr i) = false)
    (hflag : desc.flags &&& PIL_SKIP_ENTRY_CHECK = 0) (hsegs : priv.segs = []) :
    ∃ p1, pil_init_mmap A env desc priv mdt w =
      .done (-EADDRNOTAVAIL) p1 (pil_setup_region A env desc priv mdt w).world := by
  have hnorel : (pil_setup_region_limits A mdt).relocatable = false := by
    cases hr : (pil_setup_region_limits A mdt).relocatable with
    | false => rfl
    | true =>
      obtain ⟨i, hi, hl, -⟩ := (pil_setup_region_loop_relocatable A mdt _).mp hr
      rw [hnone i hi] at hl
      cases hl
  have hrun : ∃ w1, pil_setup_region A env desc priv mdt w = .done 0
      { priv with
        region_start := (pil_setup_region_limits A mdt).min_addr_n
        region_end := ALIGN A.physBits (pil_setup_region_limits A mdt).max_addr_n SZ_4K
        base_addr := (pil_setup_region_limits A mdt).min_addr_n } w1 := by
    simp only [pil_setup_region, hnorel, Bool.false_eq_true, if_false]
    exact pil_setup_region_info_done _ _ _
  obtain ⟨w1, hrun⟩ := hrun
  have hloop := fun p : pil_priv => pil_init_mmap_loop_none A env p mdt
    (List.range mdt.hdr.e_phnum) [] (fun i hi => hnone i (List.mem_range.mp hi))
  simp only [pil_init_mmap, hrun, Run.world, hsegs, hloop]
  have hb : ((desc.flags &&& PIL_SKIP_ENTRY_CHECK != 0) = true) = False := by
    simp [hflag]
  simp only [bne_self_eq_false, Bool.false_eq_true, if_false, list_sort, pil_init_entry_addr, hb,
    pil_init_entry_addr_loop]
  exact ⟨_, rfl⟩

/-- C22 fails in the code: the header check that reports "No loadable
segments" tests `e_phnum == 0` only. A table of one `PT_NULL` entry passes it
and is planned from the start values of the planner's loop,
`region_start = (phys_addr_t)ULLONG_MAX`, `region_end = 0`, with an empty
segment list. On a descriptor with the flag `PIL_SKIP_ENTRY_CHECK`, `pil_boot`
then returns 0, having called `mem_setup(0xffffffff, 1)` and `auth_and_reset`.
Without the flag the same image is rejected with -EADDRNOTAVAIL, with no hook
called. -/
theorem pil_boot_no_loadable_skip :
    (pil_boot .arm (ex_env (ex_fw 0 [ex_null])) ex_desc_skip ex_priv ex_world).ret = some 0 ∧
      (pil_boot .arm (ex_env (ex_fw 0 [ex_null])) ex_desc_skip ex_priv
        ex_world).world.trace.filter Event.is_hook =
        [.proxy_vote, .init_image, .mem_setup 0xffffffff 1, .auth_and_reset] ∧
      (ex_fw 0 [ex_null]).data.hdr.e_phnum = 1 ∧
      segment_is_loadable ((ex_fw 0 [ex_null]).data.phdr 0) = false ∧
      (pil_boot .arm (ex_env (ex_fw 0 [ex_null])) ex_desc_skip ex_priv ex_world).priv.map
        (fun p => (p.region_start, p.region_end, p.segs)) = some (0xffffffff, 0, []) ∧
      (pil_boot .arm (ex_env (ex_fw 0 [ex_null])) ex_desc ex_priv ex_world).ret =
        some (-EADDRNOTAVAIL) ∧
      (pil_boot .arm (ex_env (ex_fw 0 [ex_null])) ex_desc ex_priv
        ex_world).world.trace.filter Event.is_hook = [] := by
  refine ⟨by decide, by decide, by decide, by decide, by decide, by decide, by decide⟩

/-- The sibling path of the case above, for every image: when no entry of
the table is loadable and the descriptor does not have the skip flag,
`pil_boot` returns a nonzero code: that of `request_firmware`, `-EIO` from the
header checks, or, the header having passed them, `-EADDRNOTAVAIL` from
`pil_init_entry_addr`; it calls none of the hooks `proxy_vote`, `init_image`,
`mem_setup`, `auth_and_reset`. -/
theorem pil_boot_no_loadable (A : Arch) (env : Env) (desc : pil_desc) (priv : pil_priv)
    (w : World)
    (hnone : ∀ i, i < env.request_firmware.2.data.hdr.e_phnum →
      segment_is_loadable (env.request_firmware.2.data.phdr i) = false)
    (hflag : desc.flags &&& PIL_SKIP_ENTRY_CHECK = 0) :
    ∃ e p' w', pil_boot A env desc priv w = .done e p' w' ∧ e ≠ 0 ∧
      (e = env.request_firmware.1 ∨ e = - EIO ∨ e = -EADDRNOTAVAIL) ∧
      (env.request_firmware.1 = 0 → sizeof_elf32_hdr ≤ env.request_firmware.2.size →
        env.request_firmware.2.data.hdr.e_ident.take 4 = ELFMAG →
        env.request_firmware.2.data.hdr.e_phnum ≠ 0 →
        sizeof_elf32_phdr * env.request_firmware.2.data.hdr.e_phnum + sizeof_elf32_hdr ≤
          env.request_firmware.2.size → e = -EADDRNOTAVAIL) ∧
      w'.trace.filter Event.is_hook = w.trace.filter Event.is_hook := by
  have hstart := pil_boot_start_filter Event.is_hook rfl rfl (fun _ _ => rfl) priv w
  have hout : ∀ (p : pil_priv) (w0 : World) (r : Int), r ≠ 0 →
      w0.trace.filter Event.is_hook = w.trace.filter Event.is_hook →
      ∃ p' w', pil_boot_out p w0 r = .done r p' w' ∧
        w'.trace.filter Event.is_hook = w.trace.filter Event.is_hook := by
    intro p w0 r hr h0
    obtain ⟨p', w', h1, -⟩ := pil_boot_out_error p w0 r hr
    have := pil_boot_out_filter Event.is_hook rfl (fun _ _ _ => rfl) (fun _ _ => rfl) p w0 r
    rw [h1] at this
    exact ⟨p', w', h1, by rw [← h0]; exact this⟩
  have hrel : ∀ (p : pil_priv) (w0 : World) (r : Int), r ≠ 0 →
      w0.trace.filter Event.is_hook = w.trace.filter Event.is_hook →
      ∃ p' w', pil_boot_release_fw p w0 r = .done r p' w' ∧
        w'.trace.filter Event.is_hook = w.trace.filter Event.is_hook := by
    intro p w0 r hr h0
    exact hout p (w0.log .release_firmware) r hr (by rw [filter_log _ _ _ rfl, h0])
  have hio : (- EIO : Int) ≠ 0 := by simp [ EIO]
  have hna : (-EADDRNOTAVAIL : Int) ≠ 0 := by simp [EADDRNOTAVAIL]
  simp only [pil_boot]
  by_cases h1 : (env.request_firmware.1 != 0) = true
  · rw [if_pos h1]
    have hne : env.request_firmware.1 ≠ 0 := by simpa using h1
    obtain ⟨p', w', hd, hw⟩ := hout (pil_release_mmap priv w).1 _ _ hne hstart
    exact ⟨_, p', w', hd, hne, Or.inl rfl, fun h => absurd h hne, hw⟩
  rw [if_neg h1]
  by_cases h2 : env.request_firmware.2.size < sizeof_elf32_hdr
  · rw [if_pos h2]
    obtain ⟨p', w', hd, hw⟩ := hrel (pil_release_mmap priv w).1 _ _ hio hstart
    exact ⟨_, p', w', hd, hio, Or.inr (Or.inl rfl), fun _ h => absurd h2 (by omega), hw⟩
  rw [if_neg h2]
  by_cases h3 : (env.request_firmware.2.data.hdr.e_ident.take 4 != ELFMAG) = true
  · rw [if_pos h3]
    obtain ⟨p', w', hd, hw⟩ := hrel (pil_release_mmap priv w).1 _ _ hio hstart
    exact ⟨_, p', w', hd, hio, Or.inr (Or.inl rfl),
      fun _ _ h => absurd h (by simpa using h3), hw⟩
  rw [if_neg h3]
  by_cases h4 : (env.request_firmware.2.data.hdr.e_phnum == 0) = true
  · rw [if_pos h4]
    obtain ⟨p', w', hd, hw⟩ := hrel (pil_release_mmap priv w).1 _ _ hio hstart
    exact ⟨_, p', w', hd, hio, Or.inr (Or.inl rfl),
      fun _ _ _ h => absurd (by simpa using h4) h, hw⟩
  rw [if_neg h4]
  by_cases h5 : sizeof_elf32_phdr * env.request_firmware.2.data.hdr.e_phnum + sizeof_elf32_hdr >
      env.request_firmware.2.size
  · rw [if_pos h5]
    obtain ⟨p', w', hd, hw⟩ := hrel (pil_release_mmap priv w).1 _ _ hio hstart
    exact ⟨_, p', w', hd, hio, Or.inr (Or.inl rfl),
      fun _ _ _ _ h => absurd h5 (by omega), hw⟩
  rw [if_neg h5]
  obtain ⟨p1, hm⟩ := pil_init_mmap_no_loadable A env desc (pil_release_mmap priv w).1
    env.request_firmware.2.data
    ((((pil_release_mmap priv w).2.log .down_read).log .request_firmware).log .init_dma_attrs)
    hnone hflag rfl
  have hws : (pil_setup_region A env desc (pil_release_mmap priv w).1
      env.request_firmware.2.data
      ((((pil_release_mmap priv w).2.log .down_read).log .request_firmware).log
        .init_dma_attrs)).world.trace.filter Event.is_hook = w.trace.filter Event.is_hook := by
    rw [pil_setup_region_filter Event.is_hook rfl (fun _ _ _ => rfl) (fun _ _ => rfl),
      filter_log _ _ .init_dma_attrs rfl, hstart]
  generalize (pil_setup_region A env desc (pil_release_mmap priv w).1
      env.request_firmware.2.data
      ((((pil_release_mmap priv w).2.log .down_read).log .request_firmware).log
        .init_dma_attrs)).world = ws at hm hws
  simp only [pil_boot_image, hm]
  rw [if_pos (by simpa using hna)]
  obtain ⟨p', w', hd, hw⟩ := hrel p1 ws _ hna hws
  exact ⟨_, p', w', hd, hna, Or.inr (Or.inr rfl), fun _ _ _ _ _ => rfl, hw⟩

theorem pil_boot_no_loadable_witness :
    ((∀ i, i < (ex_env (ex_fw 0 [ex_null])).request_firmware.2.data.hdr.e_phnum →
        segment_is_loadable ((ex_env (ex_fw 0 [ex_null])).request_firmware.2.data.phdr i) =
          false) ∧
      ex_desc.flags &&& PIL_SKIP_ENTRY_CHECK = 0) ∧
    (pil_boot .arm (ex_env (ex_fw 0 [ex_null])) ex_desc ex_priv ex_world).ret =
      some (-EADDRNOTAVAIL) ∧
    (pil_boot .arm (ex_env (ex_fw 0 [ex_null])) ex_desc ex_priv
      ex_world).world.trace.filter Event.is_hook = [] := by
  have hnone : ∀ i, i < (ex_env (ex_fw 0 [ex_null])).request_firmware.2.data.hdr.e_phnum →
      segment_is_loadable ((ex_env (ex_fw 0 [ex_null])).request_firmware.2.data.phdr i) =
        false := by decide
  obtain ⟨e, p', w', hd, -, -, he, hw⟩ := pil_boot_no_loadable .arm
    (ex_env (ex_fw 0 [ex_null])) ex_desc ex_priv ex_world hnone (by decide)
  refine ⟨⟨hnone, by decide⟩, ?_, ?_⟩
  · rw [hd, he rfl (by decide) (by decide) (by decide) (by decide)]
    rfl
  · rw [hd]
    exact hw


/-! ## A two-entry image, one entry relocatable -/

/-- C24 fails in the code: for a segment with `0x601` bytes on disk and
`0x602` in memory the one window of the zero-fill is 1 byte long and is mapped
at an address that is 1 modulo 8. The first fringe is written with 7 bytes,
`size` becomes -6, the second fringe is written with 2 bytes from one byte
below the window, and the last `memset` gets the length -8 as a `size_t`. The
byte at `paddr + 0x600`, which belongs to the on-disk content, and the byte at
`paddr + sz` are zeroed. -/
theorem pil_load_seg_short_window :
    (pil_load_seg .arm (ex_env (ex_fw 0 ex_phdrs_first)) ex_desc ex_seg_odd ex_world).2.trace =
        [.request_firmware_direct 1 0x90000000 0x601, .map_fw_mem 0x90000601 1,
          .memset_io 0xd0000601 7, .memset_io 0xd0000600 2, .memset 0xd0000608 0xfffffff8,
          .unmap_fw_mem 0xd0000608, .verify_blob 0x90000000 0x602] ∧
      (pil_load_seg .arm (ex_env (ex_fw 0 ex_phdrs_first)) ex_desc ex_seg_odd ex_world).1 = 0 ∧
      ex_world.mem 0x90000600 = 0xff ∧
      (pil_load_seg .arm (ex_env (ex_fw 0 ex_phdrs_first)) ex_desc ex_seg_odd ex_world).2.mem
        0x90000600 = 0 ∧
      ex_world.mem 0x90000602 = 0xff ∧
      (pil_load_seg .arm (ex_env (ex_fw 0 ex_phdrs_first)) ex_desc ex_seg_odd ex_world).2.mem
        0x90000602 = 0 := by
  refine ⟨by decide, by decide, rfl, by decide, rfl, by decide⟩


/-! ## The windows of the zero-fill -/

/-- C25 fails in the code: for a segment with `filesz = 0` and
`sz = 0x80000000` the range to zero is 2 GiB long, 2048 windows of 1 MiB, and
`pil_load_seg` maps none: `count`, an `int`, is negative and the loop is not
entered. For a range of 1.5 MiB it maps two windows, of 1 MiB and 0.5 MiB. -/
theorem pil_load_seg_no_window :
    (0 : Int) ≤ (ex_seg_huge.sz : Int) - ex_seg_huge.filesz ∧
      (ex_seg_huge.sz - ex_seg_huge.filesz + IOMAP_SIZE - 1) / IOMAP_SIZE = 2048 ∧
      (pil_load_seg .arm (ex_env (ex_fw 0 ex_phdrs_huge)) ex_desc ex_seg_huge ex_world).1 = 0 ∧
      (pil_load_seg .arm (ex_env (ex_fw 0 ex_phdrs_huge)) ex_desc ex_seg_huge
        ex_world).2.trace.filter Event.is_map = [] ∧
      (pil_load_seg .arm (ex_env (ex_fw 0 ex_phdrs_huge)) ex_desc ex_seg_windows
        ex_world).2.trace.filter Event.is_map =
        [.map_fw_mem 0x1000 0x100000, .map_fw_mem 0x101000 0x80000] := by
  refine ⟨by decide, by decide, by decide, by decide, by decide⟩


/-! ## The region fields after a change of image -/

/-- C26 fails in the code: `pil_boot` of the relocatable image `ex_phdrs_first`
allocates a region (size `0x100000`, pointer `0xd0000000`, bus address
`0x90000000`); a second `pil_boot`, of the image `ex_phdrs_fixed` that runs in
place, goes through the branch of `pil_setup_region` that stores the lowest
address of the image, `0x1000`, in `region_start` while `priv->region` is
still set. It fails in the entry check and frees the region with the bus
address `0x1000`. On a descriptor with the skip flag, which goes through the
same first call, the second call returns 0 and leaves the region held with
`region_start = 0x1000`, which `pil_shutdown` then passes to
`dma_free_attrs`. -/
theorem pil_boot_fixed_after_relocatable :
    ∃ w1,
      pil_boot .arm (ex_env (ex_fw 0x1000 ex_phdrs_first)) ex_desc ex_priv ex_world =
        .done 0 ex_priv_first w1 ∧
      w1.trace.filter (fun e => e.is_alloc || e.is_free) =
        [.dma_alloc_attrs 0x100000 0xd0000000 0x90000000] ∧
      (pil_boot .arm (ex_env (ex_fw 0x1000 ex_phdrs_fixed)) ex_desc ex_priv_first w1).ret =
        some (-EADDRNOTAVAIL) ∧
      (pil_boot .arm (ex_env (ex_fw 0x1000 ex_phdrs_fixed)) ex_desc ex_priv_first
        w1).world.trace.filter (fun e => e.is_alloc || e.is_free) =
        [.dma_alloc_attrs 0x100000 0xd0000000 0x90000000,
          .dma_free_attrs 0x100000 0xd0000000 0x1000] ∧
      pil_boot .arm (ex_env (ex_fw 0x1000 ex_phdrs_first)) ex_desc_skip ex_priv ex_world =
        .done 0 ex_priv_first w1 ∧
      (pil_boot .arm (ex_env (ex_fw 0x1000 ex_phdrs_fixed)) ex_desc_skip ex_priv_first
        w1).ret = some 0 ∧
      ((pil_boot .arm (ex_env (ex_fw 0x1000 ex_phdrs_fixed)) ex_desc_skip ex_priv_first
        w1).priv.map (fun p => (p.region, p.region_start, p.region_size))) =
        some (0xd0000000, 0x1000, 0x100000) ∧
      ((pil_boot .arm (ex_env (ex_fw 0x1000 ex_phdrs_fixed)) ex_desc_skip ex_priv_first
        w1).priv.map (fun p =>
          (pil_shutdown (ex_env (ex_fw 0x1000 ex_phdrs_fixed)) ex_desc_skip p
            ex_world).2.trace.filter Event.is_free)) =
        some [.dma_free_attrs 0x100000 0xd0000000 0x1000] :=
  ⟨(pil_boot .arm (ex_env (ex_fw 0x1000 ex_phdrs_first)) ex_desc ex_priv ex_world).world,
    rfl, by decide, by decide, by decide, rfl, by decide, by decide, by decide⟩


/-! ## The order of the stages of a boot -/

theorem filter_stage_loads (L : List Event) (h : ∀ e ∈ L, e.is_load = true) :
    L.filter Event.is_stage = L := by
  rw [List.filter_eq_self]
  intro e he
  simp [Event.is_stage, h e he]

theorem pil_boot_out_stage (p : pil_priv) (w : World) (ret ret' : Int) (p' : pil_priv)
    (w' : World) (h : pil_boot_out p w ret = .done ret' p' w') :
    ret' = ret ∧ p'.region_start = p.region_start ∧ p'.region_end = p.region_end ∧
      w'.trace.filter Event.is_stage = w.trace.filter Event.is_stage := by
  have hf := pil_boot_out_filter Event.is_stage rfl (fun _ _ _ => rfl) (fun _ _ => rfl) p w ret
  rw [h] at hf
  simp only [pil_boot_out, pil_release_mmap] at h
  split_ifs at h <;> simp only [Run.done.injEq] at h <;> obtain ⟨h1, h2, -⟩ := h <;>
    subst h2 <;> exact ⟨h1.symm, rfl, rfl, hf⟩

theorem pil_boot_release_fw_stage (p : pil_priv) (w : World) (ret ret' : Int) (p' : pil_priv)
    (w' : World) (h : pil_boot_release_fw p w ret = .done ret' p' w') :
    ret' = ret ∧ p'.region_start = p.region_start ∧ p'.region_end = p.region_end ∧
      w'.trace.filter Event.is_stage = w.trace.filter Event.is_stage := by
  obtain ⟨h1, h2, h3, h4⟩ := pil_boot_out_stage p _ ret ret' p' w' h
  exact ⟨h1, h2, h3, by rw [h4, filter_log _ _ _ rfl]⟩

theorem pil_proxy_unvote_stage (env : Env) (desc : pil_desc) (immediate : Int) (w : World) :
    (pil_proxy_unvote env desc immediate w).trace.filter Event.is_stage =
      w.trace.filter Event.is_stage := by
  simp only [pil_proxy_unvote]
  split_ifs <;> simp only [filter_log Event.is_stage _ (.schedule_delayed_work _) rfl,
    filter_log Event.is_stage _ .try_module_get rfl]

theorem pil_boot_err_boot_stage (env : Env) (desc : pil_desc) (p : pil_priv) (w : World)
    (ret ret' : Int) (p' : pil_priv) (w' : World)
    (h : pil_boot_err_boot env desc p w ret = .done ret' p' w') :
    ret' = ret ∧ p'.region_start = p.region_start ∧ p'.region_end = p.region_end ∧
      w'.trace.filter Event.is_stage = w.trace.filter Event.is_stage := by
  obtain ⟨h1, h2, h3, h4⟩ := pil_boot_release_fw_stage p _ ret ret' p' w' h
  refine ⟨h1, h2, h3, ?_⟩
  rw [h4, pil_proxy_unvote_stage]
  split_ifs
  · exact filter_log _ _ _ rfl
  · rfl

theorem pil_boot_err_deinit_image_stage (env : Env) (desc : pil_desc) (p : pil_priv)
    (w : World) (ret ret' : Int) (p' : pil_priv) (w' : World)
    (h : pil_boot_err_deinit_image env desc p w ret = .done ret' p' w') :
    ret' = ret ∧ p'.region_start = p.region_start ∧ p'.region_end = p.region_end ∧
      w'.trace.filter Event.is_stage = w.trace.filter Event.is_stage ++
        (if ret ≠ 0 ∧ desc.ops.deinit_image = true then [.deinit_image] else []) := by
  obtain ⟨h1, h2, h3, h4⟩ := pil_boot_err_boot_stage env desc p _ ret ret' p' w' h
  refine ⟨h1, h2, h3, ?_⟩
  rw [h4]
  by_cases hr : ret = 0
  · have hb : (ret != 0) = false := by simp [hr]
    simp [hb, hr]
  · have hb : (ret != 0) = true := by simp [hr]
    cases hd : desc.ops.deinit_image <;>
      simp [hb, hr, World.log, List.filter_append, Event.is_stage, Event.is_hook, Event.is_load,
        Event.is_deinit]

theorem pil_proxy_vote_stage (desc : pil_desc) (w : World) :
    (pil_proxy_vote desc w).2.trace.filter Event.is_stage = w.trace.filter Event.is_stage ++
        (if desc.ops.proxy_vote.isSome then [.proxy_vote] else []) ∧
      (pil_proxy_vote desc w).1 = desc.ops.proxy_vote.getD 0 := by
  simp only [pil_proxy_vote]
  cases desc.ops.proxy_vote with
  | none =>
    refine ⟨?_, rfl⟩
    simp only [Option.isSome_none, Bool.false_eq_true, if_false, List.append_nil]
    rw [filter_log _ _ _ rfl]
    split_ifs
    · exact filter_log _ _ _ rfl
    · rfl
  | some r =>
    refine ⟨?_, rfl⟩
    simp only [Option.isSome_some, if_true]
    rw [filter_log _ _ .notify_proxy_vote rfl]
    split_ifs <;>
      simp [World.log, List.filter_append, Event.is_stage, Event.is_hook, Event.is_load,
        Event.is_deinit]

theorem filter_log_auth (w : World) :
    (w.log .auth_and_reset).trace.filter Event.is_stage =
      w.trace.filter Event.is_stage ++ [.auth_and_reset] := by
  simp [World.log, List.filter_append, Event.is_stage, Event.is_hook]

/-- The stages of `pil_boot` from the call of the `init_image` hook on. -/
theorem pil_boot_hooks_stage (A : Arch) (env : Env) (desc : pil_desc) (p : pil_priv)
    (wh : World) (ret : Int) (p' : pil_priv) (w' : World)
    (h : pil_boot_hooks A env desc p wh = .done ret p' w') :
    ∃ I M D L,
      I = (if desc.ops.init_image.isSome then [Event.init_image] else []) ∧
      M = (if desc.ops.mem_setup.isSome then
        [Event.mem_setup p.region_start
          (wrap A.longBits (wrap A.physBits ((p.region_end : Int) - p.region_start)))]
        else []) ∧
      D = (if desc.ops.deinit_image = true then [Event.deinit_image] else []) ∧
      (∀ e ∈ L, e.is_load = true) ∧
      p'.region_start = p.region_start ∧ p'.region_end = p.region_end ∧
      ((ret ≠ 0 ∧ desc.ops.init_image = some ret ∧
          w'.trace.filter Event.is_stage = wh.trace.filter Event.is_stage ++ I) ∨
        ((desc.ops.init_image = none ∨ desc.ops.init_image = some 0) ∧
          ((ret ≠ 0 ∧
              (∃ f, desc.ops.mem_setup = some f ∧ f p.region_start
                (wrap A.longBits (wrap A.physBits ((p.region_end : Int) - p.region_start))) =
                  ret) ∧
              w'.trace.filter Event.is_stage =
                wh.trace.filter Event.is_stage ++ (I ++ M ++ D)) ∨
            ((∀ f, desc.ops.mem_setup = some f → f p.region_start
                (wrap A.longBits (wrap A.physBits ((p.region_end : Int) - p.region_start))) =
                  0) ∧
              ∃ w2, (pil_boot_load_segs A env desc p.segs w2).2.trace = w2.trace ++ L ∧
                ((ret ≠ 0 ∧ (pil_boot_load_segs A env desc p.segs w2).1 = ret ∧
                    w'.trace.filter Event.is_stage =
                      wh.trace.filter Event.is_stage ++ (I ++ M ++ L ++ D)) ∨
                  ((pil_boot_load_segs A env desc p.segs w2).1 = 0 ∧
                    desc.ops.auth_and_reset = ret ∧
                    ((ret ≠ 0 ∧ w'.trace.filter Event.is_stage =
                        wh.trace.filter Event.is_stage ++
                          (I ++ M ++ L ++ [.auth_and_reset] ++ D)) ∨
                      (ret = 0 ∧ w'.trace.filter Event.is_stage =
                        wh.trace.filter Event.is_stage ++
                          (I ++ M ++ L ++ [.auth_and_reset]))))))))) := by
  simp only [pil_boot_hooks] at h
  -- the call of `init_image`
  have hI : ∃ ri wi, (match desc.ops.init_image with
        | some ret => (ret, wh.log .init_image)
        | none => ((0 : Int), wh)) = (ri, wi) ∧
      wi.trace.filter Event.is_stage = wh.trace.filter Event.is_stage ++
        (if desc.ops.init_image.isSome then [Event.init_image] else []) ∧
      (ri ≠ 0 → desc.ops.init_image = some ri) ∧
      (ri = 0 → desc.ops.init_image = none ∨ desc.ops.init_image = some 0) := by
    cases desc.ops.init_image with
    | none => exact ⟨0, wh, rfl, by simp, fun h => absurd rfl h, fun _ => Or.inl rfl⟩
    | some r =>
      refine ⟨r, wh.log .init_image, rfl, ?_, fun _ => rfl, fun h => Or.inr (by rw [h])⟩
      simp [World.log, List.filter_append, Event.is_stage, Event.is_hook]
  obtain ⟨ri, wi, hie, hif, hi1, hi0⟩ := hI
  rw [hie] at h
  simp only at h
  generalize hsz : wrap A.longBits (wrap A.physBits ((p.region_end : Int) - p.region_start)) =
    size at h ⊢
  -- the call of `mem_setup`
  have hM : ∃ rm wm, (match desc.ops.mem_setup with
        | some mem_setup =>
          (mem_setup p.region_start size, wi.log (.mem_setup p.region_start size))
        | none => ((0 : Int), wi)) = (rm, wm) ∧
      wm.trace.filter Event.is_stage = wi.trace.filter Event.is_stage ++
        (if desc.ops.mem_setup.isSome then [Event.mem_setup p.region_start size] else []) ∧
      (rm ≠ 0 → ∃ f, desc.ops.mem_setup = some f ∧ f p.region_start size = rm) ∧
      (rm = 0 → ∀ f, desc.ops.mem_setup = some f → f p.region_start size = 0) := by
    cases desc.ops.mem_setup with
    | none =>
      exact ⟨0, wi, rfl, by simp, fun h => absurd rfl h, fun _ f hf => by cases hf⟩
    | some f =>
      refine ⟨f p.region_start size, wi.log (.mem_setup p.region_start size), rfl, ?_,
        fun _ => ⟨f, rfl, rfl⟩, fun h g hg => ?_⟩
      · simp [World.log, List.filter_append, Event.is_stage, Event.is_hook]
      · simp only [Option.some.injEq] at hg
        rw [← hg, h]
  obtain ⟨rm, wm, hme, hmf, hm1, hm0⟩ := hM
  rw [hme] at h
  simp only at h
  obtain ⟨L, hL, hLq⟩ := pil_boot_load_segs_loads A env desc p.segs wm
  refine ⟨_, _, _, L, rfl, rfl, rfl, hLq, ?_⟩
  by_cases hri : ri = 0
  · rw [if_neg (by simp [hri])] at h
    by_cases hrm : rm = 0
    · rw [if_neg (by simp [hrm])] at h
      by_cases hrl : (pil_boot_load_segs A env desc p.segs wm).1 = 0
      · rw [if_neg (by simp [hrl])] at h
        obtain ⟨h1, h2, h3, h4⟩ := pil_boot_err_deinit_image_stage env desc p _ _ ret p' w' h
        refine ⟨h2, h3, Or.inr ⟨hi0 hri, Or.inr ⟨hm0 hrm, wm, hL, Or.inr ⟨hrl, h1.symm, ?_⟩⟩⟩⟩
        rw [h4, filter_log_auth, hL, List.filter_append, hmf, hif, filter_stage_loads L hLq,
          ← h1]
        by_cases hr : ret = 0
        · right
          refine ⟨hr, ?_⟩
          simp [hr, List.append_assoc]
        · left
          refine ⟨hr, ?_⟩
          cases desc.ops.deinit_image <;> simp [hr, List.append_assoc]
      · rw [if_pos (by simp [hrl])] at h
        obtain ⟨h1, h2, h3, h4⟩ := pil_boot_err_deinit_image_stage env desc p _ _ ret p' w' h
        have hr : ret ≠ 0 := by rw [h1]; exact hrl
        refine ⟨h2, h3, Or.inr ⟨hi0 hri, Or.inr ⟨hm0 hrm, wm, hL, Or.inl ⟨hr, h1.symm, ?_⟩⟩⟩⟩
        rw [h4, hL, List.filter_append, hmf, hif, filter_stage_loads L hLq, ← h1]
        cases desc.ops.deinit_image <;> simp [hr, List.append_assoc]
    · rw [if_pos (by simp [hrm])] at h
      obtain ⟨h1, h2, h3, h4⟩ := pil_boot_err_deinit_image_stage env desc p _ _ ret p' w' h
      have hr : ret ≠ 0 := by rw [h1]; exact hrm
      obtain ⟨f, hf1, hf2⟩ := hm1 hrm
      refine ⟨h2, h3, Or.inr ⟨hi0 hri, Or.inl ⟨hr, ⟨f, hf1, by rw [hf2, h1]⟩, ?_⟩⟩⟩
      rw [h4, hmf, hif, ← h1]
      cases desc.ops.deinit_image <;> simp [hr, List.append_assoc]
  · rw [if_pos (by simp [hri])] at h
    obtain ⟨h1, h2, h3, h4⟩ := pil_boot_err_boot_stage env desc p _ _ ret p' w' h
    have hr : ret ≠ 0 := by rw [h1]; exact hri
    exact ⟨h2, h3, Or.inl ⟨hr, by rw [h1]; exact hi1 hri, by rw [h4, hif]⟩⟩

/-- C27: the stage calls of a `pil_boot` that returns (`proxy_vote`,
`init_image`, `mem_setup`, the calls of the segment loader, `auth_and_reset`,
`deinit_image`) come in that order, each hook called when it is set and when
the stages before it returned 0, `mem_setup` with `region_start` and
`region_end - region_start`. When a stage before `proxy_vote` fails (header
checks, planning) there is no stage call; when `proxy_vote` or `init_image`
fails the calls stop there, without `deinit_image`; when `mem_setup`, a segment
load or `auth_and_reset` fails the calls stop there and are followed by
`deinit_image` (`D`, when the hook is set); when all succeed the calls end
with `auth_and_reset` and `deinit_image` is not called. -/
theorem pil_boot_stages (A : Arch) (env : Env) (desc : pil_desc) (priv : pil_priv)
    (w : World) (ret : Int) (p' : pil_priv) (w' : World)
    (h : pil_boot A env desc priv w = .done ret p' w') :
    ∃ V I M D L,
      V = (if desc.ops.proxy_vote.isSome then [Event.proxy_vote] else []) ∧
      I = (if desc.ops.init_image.isSome then [Event.init_image] else []) ∧
      M = (if desc.ops.mem_setup.isSome then
        [Event.mem_setup p'.region_start
          (wrap A.longBits (wrap A.physBits ((p'.region_end : Int) - p'.region_start)))]
        else []) ∧
      D = (if desc.ops.deinit_image = true then [Event.deinit_image] else []) ∧
      (∀ e ∈ L, e.is_load = true) ∧
      ((ret ≠ 0 ∧ w'.trace.filter Event.is_stage = w.trace.filter Event.is_stage) ∨
        (ret ≠ 0 ∧ desc.ops.proxy_vote = some ret ∧
          w'.trace.filter Event.is_stage = w.trace.filter Event.is_stage ++ V) ∨
        ((desc.ops.proxy_vote = none ∨ desc.ops.proxy_vote = some 0) ∧
          ((ret ≠ 0 ∧ desc.ops.init_image = some ret ∧
              w'.trace.filter Event.is_stage = w.trace.filter Event.is_stage ++ (V ++ I)) ∨
            ((desc.ops.init_image = none ∨ desc.ops.init_image = some 0) ∧
              ((ret ≠ 0 ∧
                  (∃ f, desc.ops.mem_setup = some f ∧ f p'.region_start
                    (wrap A.longBits
                      (wrap A.physBits ((p'.region_end : Int) - p'.region_start))) = ret) ∧
                  w'.trace.filter Event.is_stage =
                    w.trace.filter Event.is_stage ++ (V ++ I ++ M ++ D)) ∨
                ((∀ f, desc.ops.mem_setup = some f → f p'.region_start
                    (wrap A.longBits
                      (wrap A.physBits ((p'.region_end : Int) - p'.region_start))) = 0) ∧
                  ∃ segs w2,
                    (pil_boot_load_segs A env desc segs w2).2.trace = w2.trace ++ L ∧
                    ((ret ≠ 0 ∧ (pil_boot_load_segs A env desc segs w2).1 = ret ∧
                        w'.trace.filter Event.is_stage =
                          w.trace.filter Event.is_stage ++ (V ++ I ++ M ++ L ++ D)) ∨
                      ((pil_boot_load_segs A env desc segs w2).1 = 0 ∧
                        desc.ops.auth_and_reset = ret ∧
                        ((ret ≠ 0 ∧ w'.trace.filter Event.is_stage =
                            w.trace.filter Event.is_stage ++
                              (V ++ I ++ M ++ L ++ [.auth_and_reset] ++ D)) ∨
                          (ret = 0 ∧ w'.trace.filter Event.is_stage =
                            w.trace.filter Event.is_stage ++
                              (V ++ I ++ M ++ L ++ [.auth_and_reset]))))))))))) := by
  have hstart := pil_boot_start_filter Event.is_stage rfl rfl (fun _ _ => rfl) priv w
  -- a failure before the proxy vote
  have hearly : ∀ (p : pil_priv) (w0 : World) (r : Int), r ≠ 0 →
      w0.trace.filter Event.is_stage = w.trace.filter Event.is_stage →
      pil_boot_release_fw p w0 r = .done ret p' w' →
      ret ≠ 0 ∧ w'.trace.filter Event.is_stage = w.trace.filter Event.is_stage := by
    intro p w0 r hr h0 hd
    obtain ⟨h1, -, -, h4⟩ := pil_boot_release_fw_stage p w0 r ret p' w' hd
    exact ⟨by rw [h1]; exact hr, by rw [h4, h0]⟩
  have hio : (- EIO : Int) ≠ 0 := by simp [ EIO]
  simp only [pil_boot] at h
  by_cases h1 : (env.request_firmware.1 != 0) = true
  · rw [if_pos h1] at h
    obtain ⟨e1, -, -, e4⟩ := pil_boot_out_stage _ _ _ ret p' w' h
    exact ⟨_, _, _, _, [], rfl, rfl, rfl, rfl, by simp,
      Or.inl ⟨by rw [e1]; simpa using h1, by rw [e4, hstart]⟩⟩
  rw [if_neg h1] at h
  by_cases h2 : env.request_firmware.2.size < sizeof_elf32_hdr
  · rw [if_pos h2] at h
    exact ⟨_, _, _, _, [], rfl, rfl, rfl, rfl, by simp, Or.inl (hearly _ _ _ hio hstart h)⟩
  rw [if_neg h2] at h
  by_cases h3 : (env.request_firmware.2.data.hdr.e_ident.take 4 != ELFMAG) = true
  · rw [if_pos h3] at h
    exact ⟨_, _, _, _, [], rfl, rfl, rfl, rfl, by simp, Or.inl (hearly _ _ _ hio hstart h)⟩
  rw [if_neg h3] at h
  by_cases h4 : (env.request_firmware.2.data.hdr.e_phnum == 0) = true
  · rw [if_pos h4] at h
    exact ⟨_, _, _, _, [], rfl, rfl, rfl, rfl, by simp, Or.inl (hearly _ _ _ hio hstart h)⟩
  rw [if_neg h4] at h
  by_cases h5 : sizeof_elf32_phdr * env.request_firmware.2.data.hdr.e_phnum + sizeof_elf32_hdr >
      env.request_firmware.2.size
  · rw [if_pos h5] at h
    exact ⟨_, _, _, _, [], rfl, rfl, rfl, rfl, by simp, Or.inl (hearly _ _ _ hio hstart h)⟩
  rw [if_neg h5] at h
  simp only [pil_boot_image] at h
  have hws : (pil_init_mmap A env desc (pil_release_mmap priv w).1
      env.request_firmware.2.data
      ((((pil_release_mmap priv w).2.log .down_read).log .request_firmware).log
        .init_dma_attrs)).world.trace.filter Event.is_stage = w.trace.filter Event.is_stage := by
    rw [pil_init_mmap_world,
      pil_setup_region_filter Event.is_stage rfl (fun _ _ _ => rfl) (fun _ _ => rfl),
      filter_log _ _ .init_dma_attrs rfl, hstart]
  generalize pil_init_mmap A env desc (pil_release_mmap priv w).1
      env.request_firmware.2.data
      ((((pil_release_mmap priv w).2.log .down_read).log .request_firmware).log
        .init_dma_attrs) = run at h hws
  cases run with
  | bug w1 => cases h
  | done r1 p1 w1 =>
    simp only [Run.world] at hws
    simp only at h
    by_cases h6 : (r1 != 0) = true
    · rw [if_pos h6] at h
      exact ⟨_, _, _, _, [], rfl, rfl, rfl, rfl, by simp,
        Or.inl (hearly _ _ _ (by simpa using h6) hws h)⟩
    rw [if_neg h6] at h
    obtain ⟨hv1, hv2⟩ := pil_proxy_vote_stage desc w1
    rw [hws] at hv1
    by_cases h7 : ((pil_proxy_vote desc w1).1 != 0) = true
    · rw [if_pos h7] at h
      obtain ⟨e1, -, -, e4⟩ := pil_boot_release_fw_stage _ _ _ ret p' w' h
      have hne : (pil_proxy_vote desc w1).1 ≠ 0 := by simpa using h7
      refine ⟨_, _, _, _, [], rfl, rfl, rfl, rfl, by simp,
        Or.inr (Or.inl ⟨by rw [e1]; exact hne, ?_, by rw [e4, hv1]⟩)⟩
      rw [e1]
      rw [hv2] at hne ⊢
      cases hpv : desc.ops.proxy_vote with
      | none => rw [hpv] at hne; exact absurd rfl hne
      | some r => rfl
    rw [if_neg h7] at h
    have hvok : desc.ops.proxy_vote = none ∨ desc.ops.proxy_vote = some 0 := by
      have h0 : (pil_proxy_vote desc w1).1 = 0 := by simpa using h7
      rw [hv2] at h0
      cases hpv : desc.ops.proxy_vote with
      | none => exact Or.inl rfl
      | some r =>
        rw [hpv] at h0
        exact Or.inr (by rw [show r = 0 from h0])
    obtain ⟨I, M, D, L, hI, hM, hD, hL, hs, he, hcases⟩ :=
      pil_boot_hooks_stage A env desc _ _ ret p' w' h
    have hs' : p1.region_start = p'.region_start := hs.symm
    have he' : p1.region_end = p'.region_end := he.symm
    simp only [hs', he'] at hM hcases
    rw [hv1] at hcases
    refine ⟨_, I, M, D, L, rfl, hI, hM, hD, hL, Or.inr (Or.inr ⟨hvok, ?_⟩)⟩
    rcases hcases with ⟨c1, c2, c3⟩ | ⟨ci, ⟨c1, c2, c3⟩ | ⟨cm, w2, cl, ⟨c1, c2, c3⟩ |
      ⟨c1, c2, ⟨c3, c4⟩ | ⟨c3, c4⟩⟩⟩⟩
    · exact Or.inl ⟨c1, c2, by rw [c3, List.append_assoc]⟩
    · exact Or.inr ⟨ci, Or.inl ⟨c1, c2, by rw [c3]; simp only [List.append_assoc]⟩⟩
    · exact Or.inr ⟨ci, Or.inr ⟨cm, p1.segs, w2, cl,
        Or.inl ⟨c1, c2, by rw [c3]; simp only [List.append_assoc]⟩⟩⟩
    · exact Or.inr ⟨ci, Or.inr ⟨cm, p1.segs, w2, cl,
        Or.inr ⟨c1, c2, Or.inl ⟨c3, by rw [c4]; simp only [List.append_assoc]⟩⟩⟩⟩
    · exact Or.inr ⟨ci, Or.inr ⟨cm, p1.segs, w2, cl,
        Or.inr ⟨c1, c2, Or.inr ⟨c3, by rw [c4]; simp only [List.append_assoc]⟩⟩⟩⟩

theorem pil_boot_stages_witness :
    ∃ w' L,
      pil_boot .arm (ex_env (ex_fw 0x10 ex_phdrs_tie)) ex_desc ex_priv ex_world =
        .done 0 ex_priv_tie w' ∧
      (∀ e ∈ L, e.is_load = true) ∧
      w'.trace.filter Event.is_stage =
        [.proxy_vote, .init_image, .mem_setup 0x90000000 0x1000] ++ L ++ [.auth_and_reset] ∧
      (pil_boot .arm (ex_env (ex_fw 0x10 ex_phdrs_tie)) ex_desc_irq_noinit ex_priv
        ex_world).world.trace.filter Event.is_stage = [.proxy_vote, .init_image] ∧
      (pil_boot .arm (ex_env_missing (ex_fw 0x10 ex_phdrs_tie)) ex_desc ex_priv
        ex_world).world.trace.filter Event.is_stage =
        [.proxy_vote, .init_image, .mem_setup 0x90000000 0x1000, .map_fw_mem 0x1000 0x1000,
          .memset 0x40001000 0x1000, .unmap_fw_mem 0x40001000, .verify_blob 0x1000 0x1000,
          .request_firmware_direct 3 0x1000 0x10, .deinit_image] := by
  obtain ⟨V, I, M, D, L, hV, hI, hM, hD, hL, hc⟩ :=
    pil_boot_stages .arm (ex_env (ex_fw 0x10 ex_phdrs_tie)) ex_desc ex_priv ex_world 0
      ex_priv_tie
      (pil_boot .arm (ex_env (ex_fw 0x10 ex_phdrs_tie)) ex_desc ex_priv ex_world).world rfl
  refine ⟨(pil_boot .arm (ex_env (ex_fw 0x10 ex_phdrs_tie)) ex_desc ex_priv ex_world).world, L,
    rfl, hL, ?_, by decide, by decide⟩
  rcases hc with ⟨c, -⟩ | ⟨c, -⟩ | ⟨-, ⟨c, -⟩ | ⟨-, ⟨c, -⟩ | ⟨-, -, -, -, ⟨c, -⟩ |
    ⟨-, -, ⟨c, -⟩ | ⟨-, c⟩⟩⟩⟩⟩
  · exact absurd rfl c
  · exact absurd rfl c
  · exact absurd rfl c
  · exact absurd rfl c
  · exact absurd rfl c
  · exact absurd rfl c
  · rw [hV, hI, hM] at c
    exact c

end PIL
